import Mathlib

/-!
# Gravity sandbox (`main.cpp`): physics step and camera mapping

A shallow embedding of the simulation core of `main.cpp`:

* `Planet`, `World`            : the `Planet` struct and the global variables;
* `screenToWorld`              : pixel to world mapping (lines 29-34);
* `scroll_callback`            : zoom about the cursor (lines 43-66);
* `updatePhysics`              : the all-pairs sweep, merge, integration and erase
                                 loop (lines 143-187);
* `initSolarSystem`            : the start-up configuration (lines 68-88);
* `mainLoopStep`               : reset key, pause key, right click, left click and the
                                 physics call of one iteration of `main` (lines 202-243);
* `renderCentre`               : where `drawCircle` under `glScalef` puts a body
                                 (lines 90-98, 246-252).

Numbers.  The program computes in `double` / `float`.  The embedding is written once
over an arbitrary carrier `α` that is a linearly ordered field, with the square root
passed as a function `sqrt : α → α`.  Every definition is computable (it runs on `ℚ`
with any rational-valued `sqrt`).  Arithmetic in `double` is taken as exact.  Where a
theorem needs a property of the square root it takes it as a hypothesis, and the
accompanying sanity theorems instantiate it at `ℝ` with `Real.sqrt`.

The camera.  `zoomScale`, `offsetX` and `offsetY` are `float` globals that every scroll
event reads and writes back, so their rounding accumulates.  `scroll_callback` therefore
takes the narrowing to `float` as a function `toFloat : α → α` and applies it at each
store; `roundF32` is that narrowing on `ℚ` (binary32, round to nearest, ties to even),
and the identity function gives the camera of exact arithmetic.
-/

namespace GravitySim

/-! ## Data model -/

/-- The `Planet` struct (lines 18-22): position, velocity, mass, radius, gravity
multiplier, colour channels and the `active` flag. -/
structure Planet (α : Type) where
  x : α
  y : α
  vx : α
  vy : α
  mass : α
  radius : α
  gMult : α
  r : α
  g : α
  b : α
  active : Bool := true

/-- The global variables of `main.cpp` (lines 11-16, 24-26) gathered in one record. -/
structure World (α : Type) where
  zoomScale : α
  offsetX : α
  offsetY : α
  aspectRatio : α
  isPaused : Bool
  spacePressedLastFrame : Bool
  nextPlanetG : α
  planets : List (Planet α)
  clickStartTime : α
  isMouseDown : Bool

section Defs

variable {α : Type} [LinearOrderedField α]

/-- Line 8: `const double G_CONSTANT = 0.005;` -/
def G_CONSTANT : α := 0.005

/-- Line 9: `const float PHYSICS_SPEED = 0.07f;` -/
def PHYSICS_SPEED : α := 0.07

/-! ## Coordinate mapping -/

/-- Lines 29-34.  The two reference parameters `wx`, `wy` are returned as a pair; the
window size is a pair of C `int`s. -/
def screenToWorld (c : World α) (mx my : α) (w h : ℤ) : α × α :=
  let screenX := (mx / (w : α)) * 2 - 1
  let screenY := 1 - (my / (h : α)) * 2
  ((screenX * c.aspectRatio / c.zoomScale) - c.offsetX,
   (screenY / c.zoomScale) - c.offsetY)

/-- Lines 36-40; the `glViewport` call does not touch the globals. -/
def framebuffer_size_callback (c : World α) (width height : ℤ) : World α :=
  if height > 0 then { c with aspectRatio := (width : α) / (height : α) } else c

/-- Lines 43-66.  The cursor position and the window size, which the callback reads
from GLFW, are parameters; `xoffset` is unused by the source and left out.

The globals `zoomScale`, `offsetX` and `offsetY` are C `float`s (lines 11-12) and `1.1f`
is a `float` constant, while `screenToWorld` computes in `double`.  `toFloat` is the
narrowing to `float`: it is applied to the constant, to the `float` product or quotient
of lines 55 and 57, and to the `double` sums of lines 64-65 when they are stored.
Arithmetic in `double` is taken as exact. -/
def scroll_callback (toFloat : α → α) (c : World α) (mx my : α) (winW winH : ℤ)
    (yoffset : α) : World α :=
  let before := screenToWorld c mx my winW winH
  let c1 : World α :=
    if yoffset > 0 then { c with zoomScale := toFloat (c.zoomScale * toFloat 1.1) }
    else { c with zoomScale := toFloat (c.zoomScale / toFloat 1.1) }
  let after := screenToWorld c1 mx my winW winH
  { c1 with
    offsetX := toFloat (c1.offsetX + (after.1 - before.1))
    offsetY := toFloat (c1.offsetY + (after.2 - before.2)) }

/-- A run of scroll events at one cursor position: `scroll_callback` once per entry of
`ys` (the `yoffset` of each event), in order. -/
def scrollMany (toFloat : α → α) (c : World α) (mx my : α) (winW winH : ℤ)
    (ys : List α) : World α :=
  ys.foldl (fun acc yoffset => scroll_callback toFloat acc mx my winW winH yoffset) c

/-! ## Physics step -/

/-- Lines 156-166: the merge of `pj` into `pi`; the value written to `planets[i]`. -/
def mergedInto (sqrt : α → α) (pi pj : Planet α) : Planet α :=
  let nm := pi.mass + pj.mass
  { pi with
    vx := (pi.vx * pi.mass + pj.vx * pj.mass) / nm
    vy := (pi.vy * pi.mass + pj.vy * pj.mass) / nm
    radius := sqrt (pi.radius * pi.radius + pj.radius * pj.radius)
    mass := nm }

/-- Lines 149-175: the body of the inner loop for the index pair `(i, j)`.  Both
indices are in range whenever the loops call it; out of range it does nothing. -/
def pairStep (sqrt : α → α) (dt : α) (i j : ℕ) (ps : List (Planet α)) :
    List (Planet α) :=
  match ps[i]?, ps[j]? with
  | some pi, some pj =>
    if !pi.active || !pj.active then ps
    else
      let dx := pj.x - pi.x
      let dy := pj.y - pi.y
      let distSq := dx * dx + dy * dy + 1e-9
      let dist := sqrt distSq
      if dist < pi.radius + pj.radius then
        (ps.set i (mergedInto sqrt pi pj)).set j { pj with active := false }
      else
        let force := (G_CONSTANT * (pi.mass * pi.gMult) * (pj.mass * pj.gMult)) / distSq
        (ps.set i { pi with
            vx := pi.vx + (force * dx / dist) / pi.mass * dt
            vy := pi.vy + (force * dy / dist) / pi.mass * dt }).set j
          { pj with
            vx := pj.vx - (force * dx / dist) / pj.mass * dt
            vy := pj.vy - (force * dy / dist) / pj.mass * dt }
  | _, _ => ps

/-- Line 148: the inner loop `for (j = i + 1; j < planets.size(); ++j)`; `n` is
`planets.size()`, which no iteration of the sweep changes. -/
def innerLoop (sqrt : α → α) (dt : α) (n i : ℕ) (ps : List (Planet α)) :
    List (Planet α) :=
  (List.range' (i + 1) (n - (i + 1))).foldl (fun acc j => pairStep sqrt dt i j acc) ps

/-- Lines 147-177: the outer loop `for (i = 0; i < planets.size(); ++i)`. -/
def sweep (sqrt : α → α) (dt : α) (ps : List (Planet α)) : List (Planet α) :=
  (List.range ps.length).foldl (fun acc i => innerLoop sqrt dt ps.length i acc) ps

/-- Lines 182-183: the position update of a body that is kept. -/
def moved (dt : α) (p : Planet α) : Planet α :=
  { p with x := p.x + p.vx * dt, y := p.y + p.vy * dt }

/-- Lines 178-186: the final loop, which erases inactive bodies and moves the others. -/
def eraseLoop (dt : α) : List (Planet α) → List (Planet α)
  | [] => []
  | p :: rest => if !p.active then eraseLoop dt rest else moved dt p :: eraseLoop dt rest

/-- Lines 143-187. -/
def updatePhysics (sqrt : α → α) (w : World α) (dt : α) : World α :=
  if w.isPaused then w
  else
    let dt := dt * PHYSICS_SPEED
    { w with planets := eraseLoop dt (sweep sqrt dt w.planets) }

/-- The state after `n` successive calls `updatePhysics(dt)`. -/
def updatePhysicsN (sqrt : α → α) (dt : α) : ℕ → World α → World α
  | 0, w => w
  | n + 1, w => updatePhysicsN sqrt dt n (updatePhysics sqrt w dt)

/-- The camera after the zoom change of lines 54-57 and before the offset correction. -/
def zoomedOnly (toFloat : α → α) (c : World α) (yoffset : α) : World α :=
  if yoffset > 0 then { c with zoomScale := toFloat (c.zoomScale * toFloat 1.1) }
  else { c with zoomScale := toFloat (c.zoomScale / toFloat 1.1) }

/-- The value that lines 64-65 compute in `double` for the new offset, before it is
stored in the `float` global: the old offset plus `after - before`. -/
def unroundedOffset (toFloat : α → α) (c : World α) (mx my : α) (winW winH : ℤ)
    (yoffset : α) : α × α :=
  let before := screenToWorld c mx my winW winH
  let after := screenToWorld (zoomedOnly toFloat c yoffset) mx my winW winH
  (c.offsetX + (after.1 - before.1), c.offsetY + (after.2 - before.2))

/-- What the store of the new offset loses on each axis: the value computed in `double`
minus the `float` that is stored. -/
def storeError (toFloat : α → α) (c : World α) (mx my : α) (winW winH : ℤ)
    (yoffset : α) : α × α :=
  let u := unroundedOffset toFloat c mx my winW winH yoffset
  (u.1 - toFloat u.1, u.2 - toFloat u.2)

/-- The store errors of a run of scroll events at one cursor position, added up. -/
def scrollDrift (toFloat : α → α) (mx my : α) (winW winH : ℤ) :
    World α → List α → α × α
  | _, [] => (0, 0)
  | c, y :: ys =>
    let e := storeError toFloat c mx my winW winH y
    let d := scrollDrift toFloat mx my winW winH
      (scroll_callback toFloat c mx my winW winH y) ys
    (e.1 + d.1, e.2 + d.2)

/-- Whether every store of the new offset is exact along a run of scroll events at one
cursor position: at each event the value that lines 64-65 compute is a `float` already,
on both axes. -/
def storesExact (toFloat : α → α) (mx my : α) (winW winH : ℤ) :
    World α → List α → Bool
  | _, [] => true
  | c, y :: ys =>
    let u := unroundedOffset toFloat c mx my winW winH y
    decide (toFloat u.1 = u.1) && decide (toFloat u.2 = u.2)
      && storesExact toFloat mx my winW winH (scroll_callback toFloat c mx my winW winH y) ys

/-- Lines 57 and 65 for a zoom-out: the zoom and the y offset after it, from the zoom and
the y offset `s` before it, for the normalised cursor height `sy`. -/
def zoomOutY (toFloat : α → α) (sy : α) (s : α × α) : α × α :=
  let z := toFloat (s.1 / toFloat 1.1)
  (z, toFloat (s.2 + ((sy / z - s.2) - (sy / s.1 - s.2))))

/-! ## The C `float` format -/

/-- Rounding of a rational to the nearest integer, ties to the even one. -/
def roundHalfEven (x : ℚ) : ℤ :=
  let f := ⌊x⌋
  let r := x - f
  if r < 1 / 2 then f else if 1 / 2 < r then f + 1 else if f % 2 = 0 then f else f + 1

/-- The narrowing of a value to a C `float` (IEEE 754 binary32, round to nearest, ties to
even): 24 significant bits.  Overflow and subnormal numbers are not modelled. -/
def roundF32 (q : ℚ) : ℚ :=
  roundHalfEven (q / (2 : ℚ) ^ (Int.log 2 |q| - 23)) * (2 : ℚ) ^ (Int.log 2 |q| - 23)

/-- The overlap test of line 155 for the pair `pi`, `pj`. -/
def overlaps (sqrt : α → α) (pi pj : Planet α) : Prop :=
  sqrt ((pj.x - pi.x) * (pj.x - pi.x) + (pj.y - pi.y) * (pj.y - pi.y) + 1e-9)
    < pi.radius + pj.radius

/-- The fields of a body that the pair sweep never writes: position, gravity multiplier
and colour. -/
def ident (p : Planet α) : α × α × α × α × α × α := (p.x, p.y, p.gMult, p.r, p.g, p.b)

/-- The fields of a body that no part of `updatePhysics` writes: gravity multiplier and
colour. -/
def tag (p : Planet α) : α × α × α × α := (p.gMult, p.r, p.g, p.b)

/-- The value `distSq` of line 153 for the pair `pi`, `pj`. -/
def distSq (pi pj : Planet α) : α :=
  (pj.x - pi.x) * (pj.x - pi.x) + (pj.y - pi.y) * (pj.y - pi.y) + 1e-9

/-- The value `force` of lines 169-171 for the pair `pi`, `pj`. -/
def force (pi pj : Planet α) : α :=
  (G_CONSTANT * (pi.mass * pi.gMult) * (pj.mass * pj.gMult)) / distSq pi pj

/-- Lines 172-173: the value written to `planets[i]` when the pair does not overlap. -/
def pulledI (sqrt : α → α) (dt : α) (pi pj : Planet α) : Planet α :=
  { pi with
    vx := pi.vx + (force pi pj * (pj.x - pi.x) / sqrt (distSq pi pj)) / pi.mass * dt
    vy := pi.vy + (force pi pj * (pj.y - pi.y) / sqrt (distSq pi pj)) / pi.mass * dt }

/-- Lines 174-175: the value written to `planets[j]` when the pair does not overlap. -/
def pulledJ (sqrt : α → α) (dt : α) (pi pj : Planet α) : Planet α :=
  { pj with
    vx := pj.vx - (force pi pj * (pj.x - pi.x) / sqrt (distSq pi pj)) / pj.mass * dt
    vy := pj.vy - (force pi pj * (pj.y - pi.y) / sqrt (distSq pi pj)) / pj.mass * dt }

/-! ## Start-up configuration, input handling and rendering -/

/-- Lines 75-78: the lambda `addP`; `planets.push_back` is an append at the end. -/
def addP (sqrt : α → α) (ps : List (Planet α)) (d m r cr cg cb : α) : List (Planet α) :=
  let v := sqrt ((G_CONSTANT * 2000) / d)
  ps ++ [{ x := d, y := 0, vx := 0, vy := v, mass := m, radius := r, gMult := 1,
           r := cr, g := cg, b := cb, active := true }]

/-- Lines 69-87: the body collection that `initSolarSystem` builds. -/
def solarPlanets (sqrt : α → α) : List (Planet α) :=
  let p0 : List (Planet α) :=
    [{ x := 0, y := 0, vx := 0, vy := 0, mass := 2000, radius := 0.22, gMult := 1,
       r := 1.0, g := 0.9, b := 0.2, active := true }]
  let p1 := addP sqrt p0 0.4 0.5 0.03 0.6 0.6 0.6
  let p2 := addP sqrt p1 0.7 0.9 0.05 0.9 0.7 0.4
  let p3 := addP sqrt p2 1.0 1.0 0.055 0.2 0.5 1.0
  let p4 := addP sqrt p3 1.5 0.7 0.045 0.9 0.3 0.2
  let p5 := addP sqrt p4 2.5 12.0 0.12 0.8 0.7 0.5
  let p6 := addP sqrt p5 3.5 10.0 0.10 0.9 0.8 0.6
  let p7 := addP sqrt p6 4.5 7.0 0.08 0.5 0.8 0.9
  addP sqrt p7 5.5 7.0 0.08 0.3 0.4 0.9

/-- Lines 68-88. -/
def initSolarSystem (sqrt : α → α) (w : World α) : World α :=
  { w with offsetX := 0, offsetY := 0, zoomScale := 0.30, planets := solarPlanets sqrt }

/-- What one iteration of the loop in `main` reads from GLFW: cursor position, window
size, the keys R and space, the two mouse buttons and `glfwGetTime()`. -/
structure Input (α : Type) where
  mx : α
  my : α
  winW : ℤ
  winH : ℤ
  keyR : Bool
  keySpace : Bool
  rightDown : Bool
  leftDown : Bool
  time : α

/-- Line 206: the normalised cursor position `(sx, sy)`. -/
def cursorNorm (inp : Input α) : α × α :=
  ((inp.mx / (inp.winW : α)) * 2 - 1, 1 - (inp.my / (inp.winH : α)) * 2)

/-- Lines 208-209: the key R resets the system. -/
def keyReset (sqrt : α → α) (inp : Input α) (w : World α) : World α :=
  if inp.keyR then initSolarSystem sqrt w else w

/-- Lines 210-213: space toggles the pause flag on its rising edge. -/
def keyPause (inp : Input α) (w : World α) : World α :=
  let w1 : World α :=
    if inp.keySpace && !w.spacePressedLastFrame then { w with isPaused := !w.isPaused }
    else w
  { w1 with spacePressedLastFrame := inp.keySpace }

/-- Lines 219-223: the loop over the bodies that deactivates those near `(wx, wy)`. -/
def removeNear (sqrt : α → α) (wx wy : α) (ps : List (Planet α)) : List (Planet α) :=
  ps.map (fun p =>
    let d := sqrt ((p.x - wx) ^ 2 + (p.y - wy) ^ 2)
    if d < p.radius * 1.2 then { p with active := false } else p)

/-- Lines 215-224: right click removes the bodies under the cursor. -/
def rightClick (sqrt : α → α) (inp : Input α) (w : World α) : World α :=
  if inp.rightDown then
    let p := screenToWorld w inp.mx inp.my inp.winW inp.winH
    { w with planets := removeNear sqrt p.1 p.2 w.planets }
  else w

/-- Line 229: the value the slider stores in `nextPlanetG`. -/
def sliderValue (sx : α) : α := 1.0 + ((sx + 0.5) / 1.0) * 49.0

/-- Lines 235-240: the release of the left button appends a new body. -/
def spawn (inp : Input α) (w : World α) : World α :=
  let p := screenToWorld w inp.mx inp.my inp.winW inp.winH
  let rad := (0.02 + (inp.time - w.clickStartTime) * 0.05) / w.zoomScale
  { w with
    planets := w.planets ++
      [{ x := p.1, y := p.2, vx := 0, vy := 0, mass := rad * 1200, radius := rad,
         gMult := w.nextPlanetG, r := 0.4, g := 0.6, b := 1.0, active := true }]
    isMouseDown := false }

/-- Lines 226-241: left button, slider or spawn. -/
def leftClick (inp : Input α) (w : World α) : World α :=
  let sx := (cursorNorm inp).1
  let sy := (cursorNorm inp).2
  if inp.leftDown then
    if sy < -0.8 ∧ |sx| < 0.5 then { w with nextPlanetG := sliderValue sx }
    else if !w.isMouseDown then { w with clickStartTime := inp.time, isMouseDown := true }
    else w
  else if w.isMouseDown then spawn inp w
  else w

/-- Lines 202-243: the part of one iteration of the loop in `main` that changes the
globals (the drawing calls that follow do not write them). -/
def mainLoopStep (sqrt : α → α) (inp : Input α) (w : World α) : World α :=
  updatePhysics sqrt (leftClick inp (rightClick sqrt inp (keyPause inp (keyReset sqrt inp w))))
    0.016

/-- Lines 94-95: the vertex that `drawCircle` emits, with `ca`, `sa` the values of
`cos(a)` and `sin(a)`. -/
def drawCircleVertex (c : World α) (cx cy r ca sa : α) : α × α :=
  ((cx + c.offsetX) / c.aspectRatio + (ca * r) / c.aspectRatio, cy + c.offsetY + sa * r)

/-- Lines 246-247: `glLoadIdentity(); glScalef(zoomScale, zoomScale, 1.0f)` maps an
emitted vertex to normalised device coordinates by scaling both axes with `zoomScale`. -/
def scaledByZoom (c : World α) (v : α × α) : α × α :=
  (c.zoomScale * v.1, c.zoomScale * v.2)

/-- Lines 252, 246-247: where the centre of the circle drawn for a body at world point
`(wx, wy)` lands in normalised device coordinates. -/
def renderCentre (c : World α) (wx wy : α) : α × α :=
  scaledByZoom c (drawCircleVertex c wx wy 0 1 0)

/-! ## The sweep as a sequence of pair steps -/

/-- Lines 147-148: the index pairs `(i, j)` in the order in which the two loops visit
them, for a collection of size `n`. -/
def pairsOf (n : ℕ) : List (ℕ × ℕ) :=
  (List.range n).flatMap (fun i => (List.range' (i + 1) (n - (i + 1))).map (fun j => (i, j)))

/-- The loop body run for the index pairs of `steps`, in order. -/
def runPairs (sqrt : α → α) (dt : α) (steps : List (ℕ × ℕ)) (ps : List (Planet α)) :
    List (Planet α) :=
  steps.foldl (fun acc ij => pairStep sqrt dt ij.1 ij.2 acc) ps

/-- Lines 149-175 on the two bodies alone: the values that one pair step leaves in
`planets[i]` and `planets[j]` when it finds `pi` and `pj` there. -/
def pairBodies (sqrt : α → α) (dt : α) (pi pj : Planet α) : Planet α × Planet α :=
  if !pi.active || !pj.active then (pi, pj)
  else if sqrt (distSq pi pj) < pi.radius + pj.radius then
    (mergedInto sqrt pi pj, { pj with active := false })
  else (pulledI sqrt dt pi pj, pulledJ sqrt dt pi pj)

/-- The inner loop for one body `p` against the bodies `rest` that follow it: the final
`p` and the final `rest`. -/
def interact (sqrt : α → α) (dt : α) : Planet α → List (Planet α) →
    Planet α × List (Planet α)
  | p, [] => (p, [])
  | p, q :: rest =>
    let r := interact sqrt dt (pairBodies sqrt dt p q).1 rest
    (r.1, (pairBodies sqrt dt p q).2 :: r.2)

/-- The sum over the active bodies of `f`. -/
def activeSum (f : Planet α → α) (ps : List (Planet α)) : α :=
  (ps.map (fun p => if p.active then f p else 0)).sum

/-- Every active body has positive mass. -/
def MassPos (ps : List (Planet α)) : Prop :=
  ∀ p ∈ ps, p.active = true → 0 < p.mass

/-- Every active body has positive mass and positive radius. -/
def Healthy (ps : List (Planet α)) : Prop :=
  ∀ p ∈ ps, p.active = true → 0 < p.mass ∧ 0 < p.radius

/-- The list `m` is the list `l` with some of its inactive bodies left out. -/
inductive DropsInactive : List (Planet α) → List (Planet α) → Prop
  | nil : DropsInactive [] []
  | keep (p : Planet α) {l m : List (Planet α)} :
      DropsInactive l m → DropsInactive (p :: l) (p :: m)
  | drop (p : Planet α) {l m : List (Planet α)} :
      p.active = false → DropsInactive l m → DropsInactive (p :: l) m

/-! ## Sample data -/

/-- An active body with the colour that line 239 gives a spawned body. -/
def body (x y vx vy mass radius gMult : α) : Planet α :=
  { x := x, y := y, vx := vx, vy := vy, mass := mass, radius := radius, gMult := gMult,
    r := 0.4, g := 0.6, b := 1.0, active := true }

/-- The globals at their start-up values (lines 11-16, 25-26) around the bodies `ps`. -/
def worldOf (ps : List (Planet α)) : World α :=
  { zoomScale := 0.30, offsetX := 0, offsetY := 0, aspectRatio := 1, isPaused := false,
    spacePressedLastFrame := false, nextPlanetG := 1, planets := ps,
    clickStartTime := 0, isMouseDown := false }

/-- A camera over `ℚ`: zoom 1, no offset, square window, no bodies. -/
def camQ : World ℚ :=
  { zoomScale := 1, offsetX := 0, offsetY := 0, aspectRatio := 1, isPaused := false,
    spacePressedLastFrame := false, nextPlanetG := 1, planets := [],
    clickStartTime := 0, isMouseDown := false }

/-- The camera at start-up with its zoom as the `float` it is, `0.30f`. -/
def floatCam : World ℚ :=
  { zoomScale := roundF32 0.30, offsetX := 0, offsetY := 0, aspectRatio := 1,
    isPaused := false, spacePressedLastFrame := false, nextPlanetG := 1, planets := [],
    clickStartTime := 0, isMouseDown := false }

/-- A body at rest at the origin with mass 1, radius 1e-5 and gravity multiplier 1. -/
def tiny : Planet α := body 0 0 0 0 1 0.00001 1

/-- A frame in which the left button is held on the slider, at its middle. -/
def sliderInput : Input α :=
  { mx := 50, my := 95, winW := 100, winH := 100, keyR := false, keySpace := false,
    rightDown := false, leftDown := true, time := 0 }

/-- A frame in which the left button is up, 2 seconds after the press, with the cursor
at the centre of a 100 x 100 window. -/
def releaseInput : Input α :=
  { mx := 50, my := 50, winW := 100, winH := 100, keyR := false, keySpace := false,
    rightDown := false, leftDown := false, time := 2 }

/-- Three bodies: an active one, an inactive one, and an active one overlapping the
first. -/
def sampleWorld : World α :=
  worldOf [body 0 0 1 0 1 0.1 1, { body 5 5 0 0 1 0.1 1 with active := false },
    body 0.15 0 0 2 3 0.1 1]

end Defs

/-! ## Theorems -/

section Thms

variable {α : Type} [LinearOrderedField α]

/-- C6 (pause): with `isPaused = true`, any number `n` of calls of `updatePhysics` with
any `dt` returns the world it was given, so the body collection (length, order and every
field of every body) is unchanged. -/
theorem updatePhysicsN_paused (sqrt : α → α) (dt : α) (n : ℕ) (w : World α)
    (hp : w.isPaused = true) : updatePhysicsN sqrt dt n w = w := by
  induction n with
  | zero => rfl
  | succ k ih =>
    have h1 : updatePhysics sqrt w dt = w := by simp [updatePhysics, hp]
    simp [updatePhysicsN, h1, ih]

/-- C6, sanity check: `updatePhysicsN_paused` over `ℝ` with `Real.sqrt`: five calls with
`dt = 0.016` on a paused world of two overlapping moving bodies. -/
theorem updatePhysicsN_paused_witness :
    updatePhysicsN Real.sqrt 0.016 5
        ({ worldOf [body 0 0 1 0 1 0.1 1, body 0.15 0 0 2 3 0.1 1] with isPaused := true }
          : World ℝ)
      = { worldOf [body 0 0 1 0 1 0.1 1, body 0.15 0 0 2 3 0.1 1] with isPaused := true } :=
  updatePhysicsN_paused Real.sqrt 0.016 5 _ rfl


/-! ### Lists and loops -/

theorem set_of_getElem? {β : Type} (l : List β) (i : ℕ) (a : β) (h : l[i]? = some a) :
    l.set i a = l := by
  apply List.ext_getElem?
  intro k
  by_cases hk : i = k
  · subst hk
    rw [List.getElem?_set, if_pos rfl, h]
    have := (List.getElem?_eq_some_iff.mp h).1
    simp [this]
  · rw [List.getElem?_set_ne hk]

theorem foldl_keeps {β ι : Type} (P : β → Prop) (f : β → ι → β) (l : List ι)
    (hf : ∀ b i, i ∈ l → P b → P (f b i)) : ∀ b, P b → P (l.foldl f b) := by
  induction l with
  | nil => intro b hb; exact hb
  | cons a rest ih =>
    intro b hb
    exact ih (fun b i hi => hf b i (List.mem_cons_of_mem _ hi)) _
      (hf b a (List.mem_cons_self _ _) hb)

theorem foldl_fixed {β ι : Type} (f : β → ι → β) (l : List ι) (b : β)
    (hf : ∀ i, i ∈ l → f b i = b) : l.foldl f b = b :=
  foldl_keeps (fun c => c = b) f l (fun c i hi hc => by rw [hc]; exact hf i hi) b rfl

theorem pairStep_length (sqrt : α → α) (dt : α) (i j : ℕ) (ps : List (Planet α)) :
    (pairStep sqrt dt i j ps).length = ps.length := by
  unfold pairStep
  split
  · split
    · rfl
    · dsimp only
      split <;> simp
  · rfl

theorem pairStep_ident (sqrt : α → α) (dt : α) (i j : ℕ) (ps : List (Planet α)) :
    (pairStep sqrt dt i j ps).map ident = ps.map ident := by
  unfold pairStep
  split
  · next pi pj hi hj =>
    have ei : (ps.map ident)[i]? = some (ident pi) := by simp [hi]
    have ej : (ps.map ident)[j]? = some (ident pj) := by simp [hj]
    split
    · rfl
    · dsimp only
      split
      · rw [List.map_set, List.map_set]
        have e1 : ident (mergedInto sqrt pi pj) = ident pi := rfl
        have e2 : ident { pj with active := false } = ident pj := rfl
        rw [e1, e2, set_of_getElem? _ _ _ ei, set_of_getElem? _ _ _ ej]
      · rw [List.map_set, List.map_set]
        exact (congrArg (fun l => List.set l j (ident pj))
          (set_of_getElem? _ _ _ ei)).trans (set_of_getElem? _ _ _ ej)
  · rfl

theorem pairStep_eq_self (sqrt : α → α) (dt : α) (i j : ℕ) (ps : List (Planet α))
    (h : ∀ pi pj, ps[i]? = some pi → ps[j]? = some pj →
      pi.active = false ∨ pj.active = false) :
    pairStep sqrt dt i j ps = ps := by
  unfold pairStep
  split
  · next pi pj hi hj =>
    rcases h pi pj hi hj with h1 | h1 <;> simp [h1]
  · rfl

theorem eraseLoop_eq (dt : α) (ps : List (Planet α)) :
    eraseLoop dt ps = (ps.filter (fun p => p.active)).map (moved dt) := by
  induction ps with
  | nil => rfl
  | cons p rest ih =>
    by_cases hp : p.active = true <;> simp [eraseLoop, hp, ih]

theorem sweep_eq_self (sqrt : α → α) (dt : α) (ps : List (Planet α))
    (h : ∀ i j, i < j → j < ps.length → pairStep sqrt dt i j ps = ps) :
    sweep sqrt dt ps = ps := by
  unfold sweep
  apply foldl_fixed
  intro i _
  unfold innerLoop
  apply foldl_fixed
  intro j hj
  rw [List.mem_range'_1] at hj
  exact h i j (by omega) (by omega)

theorem innerLoop_length (sqrt : α → α) (dt : α) (n i : ℕ) (ps : List (Planet α)) :
    (innerLoop sqrt dt n i ps).length = ps.length :=
  foldl_keeps (fun l => l.length = ps.length) _ _
    (fun c j _ hc => (pairStep_length sqrt dt i j c).trans hc) ps rfl

theorem sweep_length (sqrt : α → α) (dt : α) (ps : List (Planet α)) :
    (sweep sqrt dt ps).length = ps.length :=
  foldl_keeps (fun l => l.length = ps.length) _ _
    (fun c i _ hc => (innerLoop_length sqrt dt _ i c).trans hc) ps rfl

theorem innerLoop_ident (sqrt : α → α) (dt : α) (n i : ℕ) (ps : List (Planet α)) :
    (innerLoop sqrt dt n i ps).map ident = ps.map ident :=
  foldl_keeps (fun l => l.map ident = ps.map ident) _ _
    (fun c j _ hc => (pairStep_ident sqrt dt i j c).trans hc) ps rfl

theorem sweep_ident (sqrt : α → α) (dt : α) (ps : List (Planet α)) :
    (sweep sqrt dt ps).map ident = ps.map ident :=
  foldl_keeps (fun l => l.map ident = ps.map ident) _ _
    (fun c i _ hc => (innerLoop_ident sqrt dt _ i c).trans hc) ps rfl

theorem sweep_pair (sqrt : α → α) (dt : α) (p1 p2 : Planet α) :
    sweep sqrt dt [p1, p2] = pairStep sqrt dt 0 1 [p1, p2] := by
  simp [sweep, innerLoop, List.range_succ, List.range']

/-! ### Merging -/

/-- C1 (merge of a two-body world): in an unpaused world of exactly two active bodies
with positive masses that overlap, one call of `updatePhysics` with any `dt` leaves
exactly one body, whose mass is `m1 + m2` and whose velocity is
`(v1 * m1 + v2 * m2) / (m1 + m2)` on each axis. -/
theorem two_body_merge (sqrt : α → α) (w : World α) (dt : α) (p1 p2 : Planet α)
    (hw : w.planets = [p1, p2]) (hp : w.isPaused = false)
    (h1 : p1.active = true) (h2 : p2.active = true)
    (_hm1 : 0 < p1.mass) (_hm2 : 0 < p2.mass)
    (hov : sqrt ((p2.x - p1.x) ^ 2 + (p2.y - p1.y) ^ 2 + 1e-9) < p1.radius + p2.radius) :
    ∃ q : Planet α, (updatePhysics sqrt w dt).planets = [q]
      ∧ q.mass = p1.mass + p2.mass
      ∧ q.vx = (p1.vx * p1.mass + p2.vx * p2.mass) / (p1.mass + p2.mass)
      ∧ q.vy = (p1.vy * p1.mass + p2.vy * p2.mass) / (p1.mass + p2.mass) := by
  have hov2 : sqrt ((p2.x - p1.x) * (p2.x - p1.x) + (p2.y - p1.y) * (p2.y - p1.y) + 1e-9)
      < p1.radius + p2.radius := by
    have e : (p2.x - p1.x) * (p2.x - p1.x) + (p2.y - p1.y) * (p2.y - p1.y) + 1e-9
        = (p2.x - p1.x) ^ 2 + (p2.y - p1.y) ^ 2 + 1e-9 := by ring
    rw [e]; exact hov
  refine ⟨moved (dt * PHYSICS_SPEED) (mergedInto sqrt p1 p2), ?_, rfl, rfl, rfl⟩
  simp [updatePhysics, hp, hw, sweep_pair, pairStep, h1, h2, hov2, eraseLoop, mergedInto]

/-- C1, sanity check: `two_body_merge` over `ℝ` with `Real.sqrt`, for two bodies of
radius 0.1 at distance 0.15 with masses 1, 3 and velocities (1, 0), (0, 2). -/
theorem two_body_merge_witness :
    Real.sqrt (((0.15 : ℝ) - 0) ^ 2 + ((0 : ℝ) - 0) ^ 2 + 1e-9) < 0.1 + 0.1
      ∧ ∃ q : Planet ℝ,
        (updatePhysics Real.sqrt
          (worldOf [body 0 0 1 0 1 0.1 1, body 0.15 0 0 2 3 0.1 1]) 1).planets = [q]
        ∧ q.mass = 4 ∧ q.vx = 1 / 4 ∧ q.vy = 3 / 2 := by
  have hov : Real.sqrt (((0.15 : ℝ) - 0) ^ 2 + ((0 : ℝ) - 0) ^ 2 + 1e-9) < 0.1 + 0.1 := by
    rw [Real.sqrt_lt' (by norm_num)]; norm_num
  obtain ⟨q, hq, hm, hx, hy⟩ :=
    two_body_merge Real.sqrt
      (worldOf [body 0 0 1 0 1 0.1 1, body 0.15 0 0 2 3 0.1 1]) 1
      (body 0 0 1 0 1 0.1 1) (body 0.15 0 0 2 3 0.1 1) rfl rfl rfl rfl
      (by norm_num [body]) (by norm_num [body]) hov
  refine ⟨hov, q, hq, ?_, ?_, ?_⟩
  · rw [hm]; norm_num [body]
  · rw [hx]; norm_num [body]
  · rw [hy]; norm_num [body]

theorem sqrt_sum_sq_lt (sqrt : α → α) (hs0 : ∀ x, 0 ≤ sqrt x)
    (hs : ∀ x, 0 ≤ x → sqrt x * sqrt x = x) (a b : α) (ha : 0 < a) (hb : 0 < b) :
    sqrt (a * a + b * b) < a + b := by
  have h0 : 0 ≤ a * a + b * b := by positivity
  have h1 := hs _ h0
  have h2 := hs0 (a * a + b * b)
  by_contra hc
  push_neg at hc
  have h3 : (a + b) * (a + b) ≤ sqrt (a * a + b * b) * sqrt (a * a + b * b) :=
    mul_le_mul hc hc (by positivity) h2
  have h4 : 0 < a * b := mul_pos ha hb
  nlinarith

/-- C2 (radius of a merge): when the loop body of `updatePhysics` merges the active pair
`(i, j)`, `i < j`, whose radii at that moment are `r1`, `r2`, the survivor `i` has radius
`sqrt (r1 ^ 2 + r2 ^ 2)` right after the merge; for a square root that is non-negative
and squares back on non-negative arguments, and `r1, r2 > 0`, this is strictly less than
`r1 + r2`. -/
theorem merge_radius (sqrt : α → α) (dt : α) (i j : ℕ) (ps : List (Planet α))
    (pi pj : Planet α) (hij : i < j) (hi : ps[i]? = some pi) (hj : ps[j]? = some pj)
    (hai : pi.active = true) (haj : pj.active = true)
    (hov : sqrt ((pj.x - pi.x) ^ 2 + (pj.y - pi.y) ^ 2 + 1e-9) < pi.radius + pj.radius) :
    ∃ qi : Planet α, (pairStep sqrt dt i j ps)[i]? = some qi
      ∧ qi.radius = sqrt (pi.radius ^ 2 + pj.radius ^ 2)
      ∧ ((∀ x, 0 ≤ sqrt x) → (∀ x, 0 ≤ x → sqrt x * sqrt x = x) →
          0 < pi.radius → 0 < pj.radius → qi.radius < pi.radius + pj.radius) := by
  have hov2 : sqrt ((pj.x - pi.x) * (pj.x - pi.x) + (pj.y - pi.y) * (pj.y - pi.y) + 1e-9)
      < pi.radius + pj.radius := by
    have e : (pj.x - pi.x) * (pj.x - pi.x) + (pj.y - pi.y) * (pj.y - pi.y) + 1e-9
        = (pj.x - pi.x) ^ 2 + (pj.y - pi.y) ^ 2 + 1e-9 := by ring
    rw [e]; exact hov
  have hil : i < ps.length := (List.getElem?_eq_some_iff.mp hi).1
  have hne : j ≠ i := by omega
  refine ⟨mergedInto sqrt pi pj, ?_, ?_, ?_⟩
  · simp only [pairStep, hi, hj, hai, haj, hov2, if_true]
    simp [List.getElem?_set_ne hne, hil]
  · simp only [mergedInto, pow_two]
  · intro hs0 hs hri hrj
    exact sqrt_sum_sq_lt sqrt hs0 hs _ _ hri hrj

/-- C2, sanity check: `merge_radius` over `ℝ` with `Real.sqrt` for radii 0.1 and 0.1 at
distance 0.15; the survivor has radius `sqrt 0.02 < 0.2`. -/
theorem merge_radius_witness :
    ∃ qi : Planet ℝ,
      (pairStep Real.sqrt 1 0 1 [body 0 0 1 0 1 0.1 1, body 0.15 0 0 2 3 0.1 1])[0]?
          = some qi
        ∧ qi.radius = Real.sqrt 0.02 ∧ qi.radius < 0.2 := by
  have hov : Real.sqrt (((0.15 : ℝ) - 0) ^ 2 + ((0 : ℝ) - 0) ^ 2 + 1e-9) < 0.1 + 0.1 := by
    rw [Real.sqrt_lt' (by norm_num)]; norm_num
  obtain ⟨qi, hq, hr, hlt⟩ :=
    merge_radius Real.sqrt 1 0 1 [body 0 0 1 0 1 0.1 1, body 0.15 0 0 2 3 0.1 1]
      (body 0 0 1 0 1 0.1 1) (body 0.15 0 0 2 3 0.1 1) (by decide) rfl rfl rfl rfl hov
  refine ⟨qi, hq, ?_, ?_⟩
  · rw [hr]; norm_num [body]
  · have h := hlt Real.sqrt_nonneg (fun x hx => Real.mul_self_sqrt hx)
      (by norm_num [body]) (by norm_num [body])
    norm_num [body] at h ⊢
    exact h

theorem tag_moved (dt : α) (p : Planet α) : tag (moved dt p) = tag p := rfl

theorem map_tag_of_map_ident {β : Type} (l1 l2 : List (Planet β))
    (h : l1.map ident = l2.map ident) : l1.map tag = l2.map tag := by
  have e : ∀ l : List (Planet β),
      l.map tag = (l.map ident).map (fun t => (t.2.2.1, t.2.2.2.1, t.2.2.2.2.1, t.2.2.2.2.2)) := by
    intro l
    rw [List.map_map]
    rfl
  rw [e l1, e l2, h]

/-! ### Compaction -/

/-- C8 (compaction): for an unpaused world and any `dt`, after `updatePhysics` every body
in the collection is active; the collection is exactly the bodies that are active when
the pair sweep finishes, in sweep order, each moved by the integration step; the sweep
keeps the length of the input and, index by index, the position, gravity multiplier and
colour of the input bodies, so sweep order is input order; hence the gravity multipliers
and colours of the result form a sublist of those of the input, and the result is no
longer than the input. -/
theorem compaction (sqrt : α → α) (w : World α) (dt : α) (hp : w.isPaused = false) :
    (∀ p ∈ (updatePhysics sqrt w dt).planets, p.active = true)
      ∧ (updatePhysics sqrt w dt).planets
          = ((sweep sqrt (dt * PHYSICS_SPEED) w.planets).filter (fun p => p.active)).map
              (moved (dt * PHYSICS_SPEED))
      ∧ (sweep sqrt (dt * PHYSICS_SPEED) w.planets).length = w.planets.length
      ∧ (sweep sqrt (dt * PHYSICS_SPEED) w.planets).map ident = w.planets.map ident
      ∧ ((updatePhysics sqrt w dt).planets.map tag).Sublist (w.planets.map tag)
      ∧ (updatePhysics sqrt w dt).planets.length ≤ w.planets.length := by
  have hout : (updatePhysics sqrt w dt).planets
      = ((sweep sqrt (dt * PHYSICS_SPEED) w.planets).filter (fun p => p.active)).map
          (moved (dt * PHYSICS_SPEED)) := by
    simp [updatePhysics, hp, eraseLoop_eq]
  have hsub : ((updatePhysics sqrt w dt).planets.map tag).Sublist (w.planets.map tag) := by
    rw [hout, List.map_map]
    have e : (tag ∘ moved (dt * PHYSICS_SPEED) : Planet α → _) = tag := rfl
    rw [e, ← map_tag_of_map_ident _ _ (sweep_ident sqrt (dt * PHYSICS_SPEED) w.planets)]
    exact (List.filter_sublist _).map tag
  refine ⟨?_, hout, sweep_length _ _ _, sweep_ident _ _ _, hsub, ?_⟩
  · intro p hpm
    rw [hout, List.mem_map] at hpm
    obtain ⟨q, hq, rfl⟩ := hpm
    have := (List.mem_filter.mp hq).2
    simpa [moved] using this
  · have := hsub.length_le
    simpa using this

/-! ### One active body -/

theorem pairStep_one_active (sqrt : α → α) (dt : α) (l1 l2 : List (Planet α))
    (p : Planet α) (h1 : ∀ q ∈ l1, q.active = false) (h2 : ∀ q ∈ l2, q.active = false)
    (i j : ℕ) (hij : i < j) :
    pairStep sqrt dt i j (l1 ++ p :: l2) = l1 ++ p :: l2 := by
  apply pairStep_eq_self
  intro pi pj hi hj
  have key : ∀ (k : ℕ) (q : Planet α), (l1 ++ p :: l2)[k]? = some q → k ≠ l1.length →
      q.active = false := by
    intro k q hk hne
    rcases Nat.lt_or_ge k l1.length with hlt | hge
    · rw [List.getElem?_append_left hlt] at hk
      exact h1 q (List.getElem?_mem hk)
    · rw [List.getElem?_append_right hge] at hk
      obtain ⟨m, hm⟩ : ∃ m, k - l1.length = m + 1 := ⟨k - l1.length - 1, by omega⟩
      rw [hm, List.getElem?_cons_succ] at hk
      exact h2 q (List.getElem?_mem hk)
  by_cases hil : i = l1.length
  · right; exact key j pj hj (by omega)
  · left; exact key i pi hi hil

/-- C10 (single active body): in an unpaused world whose only active body is `p` (any
bodies before and after it in the collection are inactive), `updatePhysics` with any `dt`
returns the world whose collection is `p` alone, at position
`(x + vx * dt * 0.07, y + vy * dt * 0.07)` and with every other field of `p` as it was;
nothing else in the world changes. -/
theorem single_body (sqrt : α → α) (w : World α) (dt : α) (l1 l2 : List (Planet α))
    (p : Planet α) (hp : w.isPaused = false) (hw : w.planets = l1 ++ p :: l2)
    (ha : p.active = true)
    (h1 : ∀ q ∈ l1, q.active = false) (h2 : ∀ q ∈ l2, q.active = false) :
    updatePhysics sqrt w dt
      = { w with planets :=
            [{ p with x := p.x + p.vx * dt * 0.07, y := p.y + p.vy * dt * 0.07 }] } := by
  have hs : sweep sqrt (dt * PHYSICS_SPEED) (l1 ++ p :: l2) = l1 ++ p :: l2 :=
    sweep_eq_self _ _ _ (fun i j hij _ => pairStep_one_active sqrt _ l1 l2 p h1 h2 i j hij)
  have f1 : l1.filter (fun q => q.active) = [] := by
    rw [List.filter_eq_nil_iff]; intro q hq; simp [h1 q hq]
  have f2 : l2.filter (fun q => q.active) = [] := by
    rw [List.filter_eq_nil_iff]; intro q hq; simp [h2 q hq]
  have he : eraseLoop (dt * PHYSICS_SPEED) (l1 ++ p :: l2)
      = [moved (dt * PHYSICS_SPEED) p] := by
    simp [eraseLoop_eq, List.filter_append, List.filter_cons, f1, f2, ha]
  have hm : moved (dt * PHYSICS_SPEED) p
      = { p with x := p.x + p.vx * dt * 0.07, y := p.y + p.vy * dt * 0.07 } := by
    simp only [moved, PHYSICS_SPEED, mul_assoc]
  simp only [updatePhysics, hp, hw, hs, he, hm]
  simp

/-- C8, sanity check: `compaction` over `ℝ` with `Real.sqrt` at `sampleWorld` (an active
body, an inactive one, and an active one overlapping the first). -/
theorem compaction_witness :
    (∀ p ∈ (updatePhysics Real.sqrt (sampleWorld : World ℝ) 1).planets, p.active = true)
      ∧ (updatePhysics Real.sqrt (sampleWorld : World ℝ) 1).planets
          = ((sweep Real.sqrt (1 * PHYSICS_SPEED) (sampleWorld : World ℝ).planets).filter
              (fun p => p.active)).map (moved (1 * PHYSICS_SPEED))
      ∧ (sweep Real.sqrt (1 * PHYSICS_SPEED) (sampleWorld : World ℝ).planets).length
          = (sampleWorld : World ℝ).planets.length
      ∧ (sweep Real.sqrt (1 * PHYSICS_SPEED) (sampleWorld : World ℝ).planets).map ident
          = (sampleWorld : World ℝ).planets.map ident
      ∧ ((updatePhysics Real.sqrt (sampleWorld : World ℝ) 1).planets.map tag).Sublist
          ((sampleWorld : World ℝ).planets.map tag)
      ∧ (updatePhysics Real.sqrt (sampleWorld : World ℝ) 1).planets.length
          ≤ (sampleWorld : World ℝ).planets.length :=
  compaction Real.sqrt sampleWorld 1 rfl

/-- C10, sanity check: `single_body` over `ℝ` with `Real.sqrt`; an inactive body followed
by an active one with velocity (1, 0), `dt = 1`. -/
theorem single_body_witness :
    (updatePhysics Real.sqrt
        (worldOf [{ body 5 5 0 0 1 0.1 1 with active := false }, body 0 0 1 0 1 0.1 1]
          : World ℝ) 1).planets
      = [body 0.07 0 1 0 1 0.1 1] := by
  rw [single_body Real.sqrt _ 1 [{ body 5 5 0 0 1 0.1 1 with active := false }] []
    (body 0 0 1 0 1 0.1 1) rfl rfl rfl (by simp) (by simp)]
  norm_num [body]

/-! ### Non-positive time steps -/

theorem pairStep_zero_dt (sqrt : α → α) (i j : ℕ) (ps : List (Planet α)) (hij : i < j)
    (hno : ∀ pi pj, ps[i]? = some pi → ps[j]? = some pj → ¬ overlaps sqrt pi pj) :
    pairStep sqrt 0 i j ps = ps := by
  unfold pairStep
  split
  · next pi pj hi hj =>
    have hn := hno pi pj hi hj
    unfold overlaps at hn
    split
    · rfl
    · dsimp only
      rw [if_neg hn]
      simp only [mul_zero, add_zero, sub_zero]
      have hj2 : (ps.set i pi)[j]? = some pj := by
        rw [List.getElem?_set_ne (by omega)]; exact hj
      exact (set_of_getElem? _ _ _ hj2).trans (set_of_getElem? _ _ _ hi)
  · rfl

theorem eraseLoop_zero_dt (ps : List (Planet α)) (ha : ∀ p ∈ ps, p.active = true) :
    eraseLoop 0 ps = ps := by
  induction ps with
  | nil => rfl
  | cons p rest ih =>
    have hp : p.active = true := ha p (List.mem_cons_self _ _)
    have hm : moved 0 p = p := by simp [moved]
    simp only [eraseLoop, hp, Bool.not_true, Bool.false_eq_true, if_false, hm]
    rw [ih (fun q hq => ha q (List.mem_cons_of_mem _ hq))]

/-- C7 (amended): `updatePhysics` has no check on `dt`.  For `dt ≤ 0` it returns the
world unchanged when the world is paused, and when `dt = 0`, every body is active and no
two bodies of the collection overlap. -/
theorem nonpositive_dt_unchanged (sqrt : α → α) (w : World α) (dt : α) (_hdt : dt ≤ 0) :
    (w.isPaused = true → updatePhysics sqrt w dt = w)
      ∧ (dt = 0 → (∀ p ∈ w.planets, p.active = true) →
          w.planets.Pairwise (fun p q => ¬ overlaps sqrt p q) →
          updatePhysics sqrt w dt = w) := by
  constructor
  · intro hp
    simp [updatePhysics, hp]
  · intro h0 ha hpw
    subst h0
    have hs : sweep sqrt 0 w.planets = w.planets := by
      apply sweep_eq_self
      intro i j hij hj
      apply pairStep_zero_dt sqrt i j _ hij
      intro pi pj hi hj2
      obtain ⟨hil, rfl⟩ := List.getElem?_eq_some_iff.mp hi
      obtain ⟨hjl, rfl⟩ := List.getElem?_eq_some_iff.mp hj2
      exact List.pairwise_iff_getElem.mp hpw i j hil hjl hij
    by_cases hp : w.isPaused = true
    · simp [updatePhysics, hp]
    · unfold updatePhysics
      rw [if_neg hp]
      simp only [zero_mul, hs, eraseLoop_zero_dt _ ha]

/-- C7 (amended), sanity check over `ℝ` with `Real.sqrt`: a paused one-body world with
`dt = -1`, and an unpaused world of two bodies of radius 0.1 at distance 1 with `dt = 0`. -/
theorem nonpositive_dt_unchanged_witness :
    updatePhysics Real.sqrt
        ({ worldOf [body 0 0 1 0 1 0.1 1] with isPaused := true } : World ℝ) (-1)
        = { worldOf [body 0 0 1 0 1 0.1 1] with isPaused := true }
      ∧ updatePhysics Real.sqrt
          (worldOf [body 0 0 1 0 1 0.1 1, body 1 0 0 2 3 0.1 1] : World ℝ) 0
        = worldOf [body 0 0 1 0 1 0.1 1, body 1 0 0 2 3 0.1 1] := by
  refine ⟨(nonpositive_dt_unchanged Real.sqrt _ (-1) (by norm_num)).1 rfl,
    (nonpositive_dt_unchanged Real.sqrt _ 0 le_rfl).2 rfl ?_ ?_⟩
  · intro p hp
    simp only [worldOf, List.mem_cons, List.mem_singleton, List.not_mem_nil, or_false] at hp
    rcases hp with rfl | rfl <;> rfl
  · simp only [worldOf, List.pairwise_cons, List.mem_singleton, List.not_mem_nil,
      forall_eq, List.Pairwise.nil, and_true, overlaps, body, not_lt, false_imp_iff,
      implies_true]
    apply Real.le_sqrt_of_sq_le
    norm_num

/-- C7, as stated, fails (over `ℝ` with `Real.sqrt`): with `dt = -1` an unpaused single
body with velocity (1, 0) is moved from x = 0 to x = -0.07, and with `dt = 0` two
overlapping bodies are merged into one; in both cases the world returned differs from
the world given. -/
theorem nonpositive_dt_mutates :
    (-1 : ℝ) ≤ 0
      ∧ (updatePhysics Real.sqrt (worldOf [body 0 0 1 0 1 0.1 1] : World ℝ) (-1)).planets
          = [body (-0.07) 0 1 0 1 0.1 1]
      ∧ updatePhysics Real.sqrt (worldOf [body 0 0 1 0 1 0.1 1] : World ℝ) (-1)
          ≠ worldOf [body 0 0 1 0 1 0.1 1]
      ∧ (0 : ℝ) ≤ 0
      ∧ (updatePhysics Real.sqrt
          (worldOf [body 0 0 1 0 1 0.1 1, body 0.15 0 1 0 1 0.1 1] : World ℝ) 0).planets.length
          = 1
      ∧ updatePhysics Real.sqrt
          (worldOf [body 0 0 1 0 1 0.1 1, body 0.15 0 1 0 1 0.1 1] : World ℝ) 0
          ≠ worldOf [body 0 0 1 0 1 0.1 1, body 0.15 0 1 0 1 0.1 1] := by
  have hov : Real.sqrt ((0.15 : ℝ) * 0.15 + 1e-9) < 0.1 + 0.1 := by
    rw [Real.sqrt_lt' (by norm_num)]; norm_num
  have e1 : (updatePhysics Real.sqrt (worldOf [body 0 0 1 0 1 0.1 1] : World ℝ) (-1)).planets
      = [body (-0.07) 0 1 0 1 0.1 1] := by
    simp [updatePhysics, worldOf, sweep, innerLoop, eraseLoop, moved, body, PHYSICS_SPEED]
  have e2 : (updatePhysics Real.sqrt
      (worldOf [body 0 0 1 0 1 0.1 1, body 0.15 0 1 0 1 0.1 1] : World ℝ) 0).planets.length
      = 1 := by
    simp [updatePhysics, worldOf, sweep_pair, pairStep, eraseLoop, body, hov, mergedInto]
  refine ⟨by norm_num, e1, ?_, le_rfl, e2, ?_⟩
  · intro h
    have h2 := congrArg World.planets h
    rw [e1] at h2
    simp [worldOf, body] at h2
    norm_num at h2
  · intro h
    have h2 := congrArg (fun w => w.planets.length) h
    simp only [e2] at h2
    simp [worldOf] at h2

/-! ### Gravitational pull on a pair that does not overlap -/

theorem distSq_pos (pi pj : Planet α) : 0 < distSq pi pj := by
  unfold distSq
  have h1 := mul_self_nonneg (pj.x - pi.x)
  have h2 := mul_self_nonneg (pj.y - pi.y)
  have h3 : (0 : α) < 1e-9 := by norm_num
  linarith

theorem pairStep_apart (sqrt : α → α) (dt : α) (i j : ℕ) (ps : List (Planet α))
    (pi pj : Planet α) (hi : ps[i]? = some pi) (hj : ps[j]? = some pj)
    (hai : pi.active = true) (haj : pj.active = true) (hno : ¬ overlaps sqrt pi pj) :
    pairStep sqrt dt i j ps
      = (ps.set i (pulledI sqrt dt pi pj)).set j (pulledJ sqrt dt pi pj) := by
  unfold overlaps at hno
  simp only [pairStep, hi, hj, hai, haj, Bool.not_true, Bool.or_self, Bool.false_eq_true,
    if_false, hno, pulledI, pulledJ, force, distSq]

theorem two_body_apart (sqrt : α → α) (w : World α) (dt : α) (p1 p2 : Planet α)
    (hw : w.planets = [p1, p2]) (hp : w.isPaused = false)
    (h1 : p1.active = true) (h2 : p2.active = true) (hno : ¬ overlaps sqrt p1 p2) :
    (updatePhysics sqrt w dt).planets
      = [moved (dt * PHYSICS_SPEED) (pulledI sqrt (dt * PHYSICS_SPEED) p1 p2),
         moved (dt * PHYSICS_SPEED) (pulledJ sqrt (dt * PHYSICS_SPEED) p1 p2)] := by
  have hs : sweep sqrt (dt * PHYSICS_SPEED) [p1, p2]
      = [pulledI sqrt (dt * PHYSICS_SPEED) p1 p2, pulledJ sqrt (dt * PHYSICS_SPEED) p1 p2] := by
    rw [sweep_pair, pairStep_apart sqrt _ 0 1 [p1, p2] p1 p2 rfl rfl h1 h2 hno]
    rfl
  simp [updatePhysics, hp, hw, hs, eraseLoop, pulledI, pulledJ, h1, h2]

/-- C5 (amended; force symmetry): in an unpaused world of two active, non-overlapping
bodies `i < j` with positive masses and gravity multipliers whose product is not negative
(the program only ever gives a body a multiplier in `[1, 50]`), for `dt > 0` and a square
root that is non-negative and squares back on non-negative arguments, the velocity changes
made by `updatePhysics` satisfy `mass_i * dv_i = -(mass_j * dv_j)` on each axis; `dv_i` is
a non-negative multiple of `(dx, dy)`; the impulse on `i` is
`F * dt * 0.07 * (dx / dist, dy / dist)` with `dist = sqrt (dx^2 + dy^2 + 1e-9)` and
`F = G * (mass_i * gMult_i) * (mass_j * gMult_j) / (dx^2 + dy^2 + 1e-9)`; its squared
magnitude is `(F * dt * 0.07)^2 * (dx^2 + dy^2) / (dx^2 + dy^2 + 1e-9)`. -/
theorem force_symmetry (sqrt : α → α) (w : World α) (dt : α) (p1 p2 : Planet α)
    (hw : w.planets = [p1, p2]) (hp : w.isPaused = false)
    (h1 : p1.active = true) (h2 : p2.active = true)
    (hm1 : 0 < p1.mass) (hm2 : 0 < p2.mass)
    (hg : 0 ≤ p1.gMult * p2.gMult)
    (hno : ¬ sqrt ((p2.x - p1.x) ^ 2 + (p2.y - p1.y) ^ 2 + 1e-9) < p1.radius + p2.radius)
    (hdt : 0 < dt)
    (hs0 : ∀ x, 0 ≤ sqrt x) (hs : ∀ x, 0 ≤ x → sqrt x * sqrt x = x) :
    ∃ q1 q2 : Planet α, (updatePhysics sqrt w dt).planets = [q1, q2]
      ∧ p1.mass * (q1.vx - p1.vx) = -(p2.mass * (q2.vx - p2.vx))
      ∧ p1.mass * (q1.vy - p1.vy) = -(p2.mass * (q2.vy - p2.vy))
      ∧ (∃ c : α, 0 ≤ c ∧ q1.vx - p1.vx = c * (p2.x - p1.x)
          ∧ q1.vy - p1.vy = c * (p2.y - p1.y))
      ∧ p1.mass * (q1.vx - p1.vx)
          = force p1 p2 * dt * 0.07 * ((p2.x - p1.x) / sqrt (distSq p1 p2))
      ∧ p1.mass * (q1.vy - p1.vy)
          = force p1 p2 * dt * 0.07 * ((p2.y - p1.y) / sqrt (distSq p1 p2))
      ∧ (p1.mass * (q1.vx - p1.vx)) ^ 2 + (p1.mass * (q1.vy - p1.vy)) ^ 2
          = (force p1 p2 * dt * 0.07) ^ 2
              * (((p2.x - p1.x) ^ 2 + (p2.y - p1.y) ^ 2) / distSq p1 p2)
      ∧ force p1 p2 = G_CONSTANT * (p1.mass * p1.gMult) * (p2.mass * p2.gMult)
          / ((p2.x - p1.x) ^ 2 + (p2.y - p1.y) ^ 2 + 1e-9) := by
  have hno2 : ¬ overlaps sqrt p1 p2 := by
    unfold overlaps
    have e : (p2.x - p1.x) * (p2.x - p1.x) + (p2.y - p1.y) * (p2.y - p1.y) + 1e-9
        = (p2.x - p1.x) ^ 2 + (p2.y - p1.y) ^ 2 + 1e-9 := by ring
    rw [e]; exact hno
  have hd := distSq_pos p1 p2
  have hsq : sqrt (distSq p1 p2) * sqrt (distSq p1 p2) = distSq p1 p2 := hs _ hd.le
  have hs1 : 0 < sqrt (distSq p1 p2) := by
    rcases (hs0 (distSq p1 p2)).lt_or_eq with h | h
    · exact h
    · rw [← h] at hsq; simp at hsq; linarith
  have hF : 0 ≤ force p1 p2 := by
    have e : force p1 p2
        = 0.005 * (p1.mass * p2.mass) * (p1.gMult * p2.gMult) / distSq p1 p2 := by
      unfold force G_CONSTANT
      ring
    have h5 : (0 : α) ≤ 0.005 := by norm_num
    rw [e]
    exact div_nonneg (mul_nonneg (mul_nonneg h5 (mul_pos hm1 hm2).le) hg) hd.le
  have hm1' : p1.mass ≠ 0 := hm1.ne'
  have hm2' : p2.mass ≠ 0 := hm2.ne'
  have hs1' : sqrt (distSq p1 p2) ≠ 0 := hs1.ne'
  have e1 : ∀ v d : α, p1.mass * (v + force p1 p2 * d / sqrt (distSq p1 p2) / p1.mass
      * (dt * 0.07) - v) = force p1 p2 * dt * 0.07 * (d / sqrt (distSq p1 p2)) := by
    intro v d
    field_simp
    ring
  have e2 : ∀ v d : α, p2.mass * (v - force p1 p2 * d / sqrt (distSq p1 p2) / p2.mass
      * (dt * 0.07) - v) = -(force p1 p2 * dt * 0.07 * (d / sqrt (distSq p1 p2))) := by
    intro v d
    field_simp
    ring
  have e3 : ∀ v d : α, v + force p1 p2 * d / sqrt (distSq p1 p2) / p1.mass * (dt * 0.07) - v
      = force p1 p2 / sqrt (distSq p1 p2) / p1.mass * (dt * 0.07) * d := by
    intro v d
    field_simp
    ring
  refine ⟨_, _, two_body_apart sqrt w dt p1 p2 hw hp h1 h2 hno2, ?_, ?_, ?_, ?_, ?_, ?_, ?_⟩
  · simp only [moved, pulledI, pulledJ, PHYSICS_SPEED]
    rw [e1, e2, neg_neg]
  · simp only [moved, pulledI, pulledJ, PHYSICS_SPEED]
    rw [e1, e2, neg_neg]
  · refine ⟨force p1 p2 / sqrt (distSq p1 p2) / p1.mass * (dt * 0.07), ?_, ?_, ?_⟩
    · positivity
    · simp only [moved, pulledI, PHYSICS_SPEED]
      rw [e3]
    · simp only [moved, pulledI, PHYSICS_SPEED]
      rw [e3]
  · simp only [moved, pulledI, PHYSICS_SPEED]
    rw [e1]
  · simp only [moved, pulledI, PHYSICS_SPEED]
    rw [e1]
  · simp only [moved, pulledI, PHYSICS_SPEED]
    rw [e1, e1]
    generalize sqrt (distSq p1 p2) = s at hsq hs1'
    rw [← hsq]
    field_simp
    ring
  · unfold force distSq
    congr 1
    ring

/-- C5, as stated, fails (over `ℝ` with `Real.sqrt`), in two ways.  Magnitude: two bodies
of mass 1 and radius 1e-5 at rest at the same point do not overlap (`sqrt 1e-9 ≥ 2e-5`);
one step with `dt = 1` leaves both velocities at zero, so the impulse has magnitude 0,
whereas `F * dt * 0.07 = 350000`.  Direction: two bodies of mass 1 and radius 0.1 at rest
at (0, 0) and (1, 0) with gravity multipliers -1 and 1 do not overlap; one step with
`dt = 1` gives body 0 a negative x velocity, so its velocity change is not a non-negative
multiple of `(dx, dy) = (1, 0)`. -/
theorem impulse_magnitude_counterexample :
    (¬ overlaps Real.sqrt (tiny : Planet ℝ) tiny
      ∧ (updatePhysics Real.sqrt (worldOf [tiny, tiny] : World ℝ) 1).planets = [tiny, tiny]
      ∧ force (tiny : Planet ℝ) tiny * 1 * 0.07 = 350000
      ∧ ((tiny : Planet ℝ).mass * ((tiny : Planet ℝ).vx - (tiny : Planet ℝ).vx)) ^ 2
          + ((tiny : Planet ℝ).mass * ((tiny : Planet ℝ).vy - (tiny : Planet ℝ).vy)) ^ 2
          ≠ (force (tiny : Planet ℝ) tiny * 1 * 0.07) ^ 2)
      ∧ (¬ overlaps Real.sqrt (body 0 0 0 0 1 0.1 (-1) : Planet ℝ) (body 1 0 0 0 1 0.1 1)
        ∧ ∃ q1 q2 : Planet ℝ,
            (updatePhysics Real.sqrt
              (worldOf [body 0 0 0 0 1 0.1 (-1), body 1 0 0 0 1 0.1 1] : World ℝ) 1).planets
              = [q1, q2]
            ∧ q1.vx - 0 < 0
            ∧ ¬ ∃ c : ℝ, 0 ≤ c ∧ q1.vx - 0 = c * (1 - 0) ∧ q1.vy - 0 = c * (0 - 0)) := by
  have hno : ¬ overlaps Real.sqrt (tiny : Planet ℝ) tiny := by
    simp only [overlaps, tiny, body, not_lt]
    apply Real.le_sqrt_of_sq_le
    norm_num
  have hF : force (tiny : Planet ℝ) tiny * 1 * 0.07 = 350000 := by
    norm_num [force, distSq, tiny, body, G_CONSTANT]
  have hno2 : ¬ overlaps Real.sqrt (body 0 0 0 0 1 0.1 (-1) : Planet ℝ)
      (body 1 0 0 0 1 0.1 1) := by
    simp only [overlaps, body, not_lt]
    apply Real.le_sqrt_of_sq_le
    norm_num
  have hs : (0 : ℝ) < Real.sqrt (distSq (body 0 0 0 0 1 0.1 (-1) : Planet ℝ)
      (body 1 0 0 0 1 0.1 1)) := Real.sqrt_pos.mpr (distSq_pos _ _)
  have hd : (0 : ℝ) < distSq (body 0 0 0 0 1 0.1 (-1) : Planet ℝ) (body 1 0 0 0 1 0.1 1) :=
    distSq_pos _ _
  have hv : (moved (1 * PHYSICS_SPEED) (pulledI Real.sqrt (1 * PHYSICS_SPEED)
      (body 0 0 0 0 1 0.1 (-1) : Planet ℝ) (body 1 0 0 0 1 0.1 1))).vx - 0 < 0 := by
    have e : (moved (1 * PHYSICS_SPEED) (pulledI Real.sqrt (1 * PHYSICS_SPEED)
        (body 0 0 0 0 1 0.1 (-1) : Planet ℝ) (body 1 0 0 0 1 0.1 1))).vx - 0
        = -(0.00035 / distSq (body 0 0 0 0 1 0.1 (-1) : Planet ℝ) (body 1 0 0 0 1 0.1 1)
            / Real.sqrt (distSq (body 0 0 0 0 1 0.1 (-1) : Planet ℝ)
                (body 1 0 0 0 1 0.1 1))) := by
      simp only [moved, pulledI, force, G_CONSTANT, PHYSICS_SPEED]
      simp only [body]
      ring
    rw [e]
    exact neg_lt_zero.mpr (div_pos (div_pos (by norm_num) hd) hs)
  refine ⟨⟨hno, ?_, hF, ?_⟩, hno2, _, _,
    two_body_apart Real.sqrt _ 1 _ _ rfl rfl rfl rfl hno2, hv, ?_⟩
  · rw [two_body_apart Real.sqrt _ 1 tiny tiny rfl rfl rfl rfl hno]
    simp [moved, pulledI, pulledJ, tiny, body]
  · rw [hF]
    norm_num
  · rintro ⟨c, hc, hx, _⟩
    rw [hx] at hv
    linarith

/-- C5 (amended), sanity check: `force_symmetry` over `ℝ` with `Real.sqrt`, for bodies of
mass 2 and 3 at distance 1 with gravity multipliers 1 and 5 and `dt = 1`. -/
theorem force_symmetry_witness :
    ∃ q1 q2 : Planet ℝ,
      (updatePhysics Real.sqrt
        (worldOf [body 0 0 0 1 2 0.1 1, body 1 0 0 0 3 0.1 5] : World ℝ) 1).planets = [q1, q2]
      ∧ 2 * (q1.vx - 0) = -(3 * (q2.vx - 0))
      ∧ 2 * (q1.vy - 1) = -(3 * (q2.vy - 0))
      ∧ 0 < q1.vx := by
  obtain ⟨q1, q2, hq, hx, hy, ⟨c, hc, hcx, hcy⟩, hix, hiy, hmag, hF⟩ :=
    force_symmetry Real.sqrt (worldOf [body 0 0 0 1 2 0.1 1, body 1 0 0 0 3 0.1 5]) 1
      (body 0 0 0 1 2 0.1 1) (body 1 0 0 0 3 0.1 5) rfl rfl rfl rfl
      (by norm_num [body]) (by norm_num [body]) (by norm_num [body])
      (by
        simp only [body, not_lt]
        apply Real.le_sqrt_of_sq_le
        norm_num)
      (by norm_num) Real.sqrt_nonneg (fun x hx => Real.mul_self_sqrt hx)
  refine ⟨q1, q2, hq, ?_, ?_, ?_⟩
  · simpa [body] using hx
  · simpa [body] using hy
  · have h1 : (0 : ℝ) < force (body 0 0 0 1 2 0.1 1) (body 1 0 0 0 3 0.1 5) := by
      rw [hF]; norm_num [body, G_CONSTANT]
    have h2 : (0 : ℝ) < Real.sqrt (distSq (body 0 0 0 1 2 0.1 1) (body 1 0 0 0 3 0.1 5)) :=
      Real.sqrt_pos.mpr (distSq_pos _ _)
    have h3 : (2 : ℝ) * (q1.vx - 0) = force (body 0 0 0 1 2 0.1 1) (body 1 0 0 0 3 0.1 5)
        * 1 * 0.07 * ((1 - 0) / Real.sqrt (distSq (body 0 0 0 1 2 0.1 1) (body 1 0 0 0 3 0.1 5))) := by
      simpa [body] using hix
    have h4 : (0 : ℝ) < 2 * (q1.vx - 0) := by
      rw [h3]; positivity
    linarith

theorem pairStep_apart_getI (sqrt : α → α) (dt : α) (i j : ℕ) (ps : List (Planet α))
    (pi pj : Planet α) (hij : i < j) (hi : ps[i]? = some pi) (hj : ps[j]? = some pj)
    (hai : pi.active = true) (haj : pj.active = true) (hno : ¬ overlaps sqrt pi pj) :
    (pairStep sqrt dt i j ps)[i]? = some (pulledI sqrt dt pi pj) := by
  have hil : i < ps.length := (List.getElem?_eq_some_iff.mp hi).1
  have hne : j ≠ i := by omega
  rw [pairStep_apart sqrt dt i j ps pi pj hi hj hai haj hno, List.getElem?_set_ne hne,
    List.getElem?_set_self hil]

/-- C9 (amended): for a non-overlapping active pair `(i, j)`, `i < j`, with
`mass_i > 0` and every `dt > 0` (the argument of `updatePhysics`, which runs the loop
body with the step `dt * PHYSICS_SPEED`), the velocity change that the loop body of
`updatePhysics` applies to body `i` for this pair is
`gMult_i * (G * (mass_j * gMult_j) / distSq * (dx / dist, dy / dist) * (dt * 0.07))`: it
does not depend on `mass_i` and it is proportional to `gMult_i`, so replacing `gMult_i`
by `g` (everything else fixed) scales the velocity change by `g / gMult_i`.  In an
unpaused world of just these two bodies this is the whole velocity change that
`updatePhysics w dt` gives body `i`. -/
theorem own_multiplier_scales_pull (sqrt : α → α) (dt : α) (i j : ℕ)
    (ps : List (Planet α)) (pi pj : Planet α) (hij : i < j)
    (hi : ps[i]? = some pi) (hj : ps[j]? = some pj)
    (hai : pi.active = true) (haj : pj.active = true) (hm : 0 < pi.mass)
    (hno : ¬ sqrt ((pj.x - pi.x) ^ 2 + (pj.y - pi.y) ^ 2 + 1e-9) < pi.radius + pj.radius)
    (_hdt : 0 < dt) :
    (∃ qi : Planet α, (pairStep sqrt (dt * PHYSICS_SPEED) i j ps)[i]? = some qi
      ∧ qi.vx - pi.vx = pi.gMult * (G_CONSTANT * (pj.mass * pj.gMult) / distSq pi pj
          * ((pj.x - pi.x) / sqrt (distSq pi pj)) * (dt * 0.07))
      ∧ qi.vy - pi.vy = pi.gMult * (G_CONSTANT * (pj.mass * pj.gMult) / distSq pi pj
          * ((pj.y - pi.y) / sqrt (distSq pi pj)) * (dt * 0.07))
      ∧ ∀ g : α, ∃ qg : Planet α,
          (pairStep sqrt (dt * PHYSICS_SPEED) i j (ps.set i { pi with gMult := g }))[i]?
            = some qg
          ∧ pi.gMult * (qg.vx - pi.vx) = g * (qi.vx - pi.vx)
          ∧ pi.gMult * (qg.vy - pi.vy) = g * (qi.vy - pi.vy))
      ∧ ∀ w : World α, w.planets = [pi, pj] → w.isPaused = false →
          ∃ q1 q2 : Planet α, (updatePhysics sqrt w dt).planets = [q1, q2]
            ∧ q1.vx - pi.vx = pi.gMult * (G_CONSTANT * (pj.mass * pj.gMult) / distSq pi pj
                * ((pj.x - pi.x) / sqrt (distSq pi pj)) * (dt * 0.07))
            ∧ q1.vy - pi.vy = pi.gMult * (G_CONSTANT * (pj.mass * pj.gMult) / distSq pi pj
                * ((pj.y - pi.y) / sqrt (distSq pi pj)) * (dt * 0.07)) := by
  have hno2 : ¬ overlaps sqrt pi pj := by
    unfold overlaps
    have e : (pj.x - pi.x) * (pj.x - pi.x) + (pj.y - pi.y) * (pj.y - pi.y) + 1e-9
        = (pj.x - pi.x) ^ 2 + (pj.y - pi.y) ^ 2 + 1e-9 := by ring
    rw [e]; exact hno
  have hm' : pi.mass ≠ 0 := hm.ne'
  have hil : i < ps.length := (List.getElem?_eq_some_iff.mp hi).1
  have e : ∀ (g v d : α), v + G_CONSTANT * (pi.mass * g) * (pj.mass * pj.gMult)
      / distSq pi pj * d / sqrt (distSq pi pj) / pi.mass * (dt * 0.07) - v
      = g * (G_CONSTANT * (pj.mass * pj.gMult) / distSq pi pj
          * (d / sqrt (distSq pi pj)) * (dt * 0.07)) := by
    intro g v d
    have h := mul_inv_cancel₀ hm'
    simp only [div_eq_mul_inv]
    linear_combination (G_CONSTANT * g * pj.mass * pj.gMult * d * (dt * 0.07)
      * (distSq pi pj)⁻¹ * (sqrt (distSq pi pj))⁻¹) * h
  refine ⟨⟨pulledI sqrt (dt * PHYSICS_SPEED) pi pj,
    pairStep_apart_getI sqrt _ i j ps pi pj hij hi hj hai haj hno2, ?_, ?_, ?_⟩, ?_⟩
  · simp only [pulledI, force, PHYSICS_SPEED]
    rw [e]
  · simp only [pulledI, force, PHYSICS_SPEED]
    rw [e]
  · intro g
    have hi2 : (ps.set i { pi with gMult := g })[i]? = some { pi with gMult := g } := by
      rw [List.getElem?_set_self hil]
    have hj2 : (ps.set i { pi with gMult := g })[j]? = some pj := by
      rw [List.getElem?_set_ne (by omega)]; exact hj
    refine ⟨pulledI sqrt (dt * PHYSICS_SPEED) { pi with gMult := g } pj,
      pairStep_apart_getI sqrt _ i j _ _ pj hij hi2 hj2 hai haj hno2, ?_, ?_⟩
    · simp only [pulledI, force, distSq, PHYSICS_SPEED]
      have e' := e
      simp only [distSq] at e'
      rw [e', e']
      ring
    · simp only [pulledI, force, distSq, PHYSICS_SPEED]
      have e' := e
      simp only [distSq] at e'
      rw [e', e']
      ring
  · intro w hw hp
    refine ⟨_, _, two_body_apart sqrt w dt pi pj hw hp hai haj hno2, ?_, ?_⟩
    · simp only [moved, pulledI, force, PHYSICS_SPEED]
      rw [e]
    · simp only [moved, pulledI, force, PHYSICS_SPEED]
      rw [e]

/-- C9, as stated, fails (over `ℝ` with `Real.sqrt`): two bodies at rest at distance 1,
masses 1, radii 0.1, `dt = 1`; raising the gravity multiplier of body 0 from 1 to 2 and
changing nothing else doubles the (non-zero) velocity that the step gives body 0. -/
theorem own_multiplier_changes_dv :
    ((updatePhysics Real.sqrt
        (worldOf [body 0 0 0 0 1 0.1 1, body 1 0 0 0 1 0.1 1] : World ℝ) 1).planets[0]?).map
        Planet.vx
      ≠ ((updatePhysics Real.sqrt
        (worldOf [body 0 0 0 0 1 0.1 2, body 1 0 0 0 1 0.1 1] : World ℝ) 1).planets[0]?).map
        Planet.vx
      ∧ ((updatePhysics Real.sqrt
        (worldOf [body 0 0 0 0 1 0.1 2, body 1 0 0 0 1 0.1 1] : World ℝ) 1).planets[0]?).map
        Planet.vx
      = ((updatePhysics Real.sqrt
        (worldOf [body 0 0 0 0 1 0.1 1, body 1 0 0 0 1 0.1 1] : World ℝ) 1).planets[0]?).map
        (fun q => 2 * q.vx) := by
  have hno : ∀ g : ℝ, ¬ overlaps Real.sqrt (body 0 0 0 0 1 0.1 g) (body 1 0 0 0 1 0.1 1) := by
    intro g
    simp only [overlaps, body, not_lt]
    apply Real.le_sqrt_of_sq_le
    norm_num
  have hs : (0 : ℝ) < Real.sqrt (1 + 1e-9) := Real.sqrt_pos.mpr (by norm_num)
  rw [two_body_apart Real.sqrt _ 1 _ _ rfl rfl rfl rfl (hno 1),
    two_body_apart Real.sqrt _ 1 _ _ rfl rfl rfl rfl (hno 2)]
  simp only [List.getElem?_cons_zero, Option.map_some', moved, pulledI, force, distSq, body,
    G_CONSTANT, PHYSICS_SPEED, ne_eq, Option.some.injEq]
  norm_num
  constructor
  · intro h
    have ht : (0 : ℝ) < Real.sqrt 1000000001 / Real.sqrt 1000000000 := by positivity
    rw [div_left_inj' ht.ne'] at h
    norm_num at h
  · ring

/-- C9 (amended), sanity check: `own_multiplier_scales_pull` over `ℝ` with `Real.sqrt`
for two bodies of mass 1 at rest at distance 1, body 0 with gravity multiplier 3, and
`dt = 1`: the step `updatePhysics w 1` gives body 0 the x velocity
`3 * (0.005 * 1 / distSq * (1 / dist) * 0.07)`, and with the multiplier `g` in place of 3
the loop body gives `g / 3` times as much. -/
theorem own_multiplier_scales_pull_witness :
    (∃ qi : Planet ℝ,
      (pairStep Real.sqrt (1 * PHYSICS_SPEED) 0 1
        [body 0 0 0 0 1 0.1 3, body 1 0 0 0 1 0.1 1])[0]? = some qi
      ∧ ∀ g : ℝ, ∃ qg : Planet ℝ,
          (pairStep Real.sqrt (1 * PHYSICS_SPEED) 0 1
            ([body 0 0 0 0 1 0.1 3, body 1 0 0 0 1 0.1 1].set 0
              { body 0 0 0 0 1 0.1 3 with gMult := g }))[0]? = some qg
          ∧ 3 * (qg.vx - 0) = g * (qi.vx - 0))
      ∧ ∃ q1 q2 : Planet ℝ,
          (updatePhysics Real.sqrt
            (worldOf [body 0 0 0 0 1 0.1 3, body 1 0 0 0 1 0.1 1] : World ℝ) 1).planets
            = [q1, q2]
          ∧ q1.vx = 3 * (0.005 * 1
              / distSq (body 0 0 0 0 1 0.1 3 : Planet ℝ) (body 1 0 0 0 1 0.1 1)
              * (1 / Real.sqrt (distSq (body 0 0 0 0 1 0.1 3 : Planet ℝ)
                  (body 1 0 0 0 1 0.1 1))) * 0.07) := by
  obtain ⟨⟨qi, hq, _, _, hg⟩, hu⟩ :=
    own_multiplier_scales_pull Real.sqrt 1 0 1
      [body 0 0 0 0 1 0.1 3, body 1 0 0 0 1 0.1 1]
      (body 0 0 0 0 1 0.1 3) (body 1 0 0 0 1 0.1 1) (by decide) rfl rfl rfl rfl
      (by norm_num [body])
      (by
        simp only [body, not_lt]
        apply Real.le_sqrt_of_sq_le
        norm_num)
      (by norm_num)
  refine ⟨⟨qi, hq, fun g => ?_⟩, ?_⟩
  · obtain ⟨qg, hqg, hx, _⟩ := hg g
    exact ⟨qg, hqg, by simpa [body] using hx⟩
  · obtain ⟨q1, q2, h12, hx, _⟩ := hu (worldOf [body 0 0 0 0 1 0.1 3, body 1 0 0 0 1 0.1 1])
      rfl rfl
    refine ⟨q1, q2, h12, ?_⟩
    have e : q1.vx = q1.vx - (body 0 0 0 0 1 0.1 3 : Planet ℝ).vx := by
      simp [body]
    rw [e, hx]
    simp only [body, G_CONSTANT]
    norm_num

/-! ### Narrowing to `float`

`roundF32_eq_of_pos` and `roundF32_eq_of_neg` certify one rounding from the exponent `e`
and the significand `m` of the result; `roundF32_error` is the relative error bound of
the format. -/

theorem roundHalfEven_eq (x : ℚ) (m : ℤ) (h1 : (m : ℚ) - 1 / 2 < x) (h2 : x < m + 1 / 2) :
    roundHalfEven x = m := by
  unfold roundHalfEven
  rcases le_or_lt (m : ℚ) x with h | h
  · have hf : ⌊x⌋ = m := by
      rw [Int.floor_eq_iff]
      exact ⟨h, by linarith⟩
    simp only [hf]
    rw [if_pos (by linarith)]
  · have hf : ⌊x⌋ = m - 1 := by
      rw [Int.floor_eq_iff]
      push_cast
      constructor <;> linarith
    simp only [hf]
    push_cast
    rw [if_neg (by linarith), if_pos (by linarith)]
    ring

theorem roundHalfEven_error (x : ℚ) : |x - roundHalfEven x| ≤ 1 / 2 := by
  have h1 := Int.floor_le x
  have h2 := Int.lt_floor_add_one x
  unfold roundHalfEven
  rw [abs_le]
  simp only []
  split_ifs with a b c
  · constructor <;> linarith
  · push_cast; constructor <;> linarith
  · constructor <;> linarith
  · push_cast; constructor <;> linarith

theorem roundF32_error (q : ℚ) : |q - roundF32 q| ≤ 1 / 2 ^ 24 * |q| := by
  rcases eq_or_ne q 0 with rfl | hq
  · simp [roundF32, roundHalfEven]
  · have hpos : 0 < |q| := abs_pos.mpr hq
    have hlog : (2 : ℚ) ^ Int.log 2 |q| ≤ |q| := by
      exact_mod_cast Int.zpow_log_le_self (R := ℚ) (b := 2) (by norm_num) hpos
    unfold roundF32
    generalize Int.log 2 |q| = e at hlog ⊢
    have hp : 0 < (2 : ℚ) ^ (e - 23) := by positivity
    have hr := roundHalfEven_error (q / (2 : ℚ) ^ (e - 23))
    generalize roundHalfEven (q / (2 : ℚ) ^ (e - 23)) = m at hr ⊢
    have e1 : q - m * (2 : ℚ) ^ (e - 23)
        = (q / (2 : ℚ) ^ (e - 23) - m) * (2 : ℚ) ^ (e - 23) := by
      field_simp
      ring
    have e2 : (2 : ℚ) ^ (e - 23) = (2 : ℚ) ^ e / 2 ^ 23 := by
      rw [zpow_sub₀ (by norm_num)]
      norm_num
    rw [e1, abs_mul, abs_of_pos hp]
    calc |q / (2 : ℚ) ^ (e - 23) - m| * (2 : ℚ) ^ (e - 23)
        ≤ 1 / 2 * (2 : ℚ) ^ (e - 23) := mul_le_mul_of_nonneg_right hr hp.le
      _ = 1 / 2 ^ 24 * (2 : ℚ) ^ e := by rw [e2]; ring
      _ ≤ 1 / 2 ^ 24 * |q| := mul_le_mul_of_nonneg_left hlog (by positivity)

theorem roundF32_zero : roundF32 0 = 0 := by
  simp [roundF32, roundHalfEven]

theorem roundHalfEven_pos (x : ℚ) (hx : 1 ≤ x) : 0 < roundHalfEven x := by
  have h1 : (1 : ℤ) ≤ ⌊x⌋ := Int.le_floor.mpr (by exact_mod_cast hx)
  unfold roundHalfEven
  simp only []
  split_ifs <;> omega

theorem roundF32_pos (q : ℚ) (hq : 0 < q) : 0 < roundF32 q := by
  have hlog : (2 : ℚ) ^ Int.log 2 |q| ≤ |q| := by
    exact_mod_cast Int.zpow_log_le_self (R := ℚ) (b := 2) (by norm_num) (abs_pos.mpr hq.ne')
  unfold roundF32
  rw [abs_of_pos hq] at hlog ⊢
  generalize Int.log 2 q = e at hlog ⊢
  have hp : 0 < (2 : ℚ) ^ (e - 23) := by positivity
  have e2 : (2 : ℚ) ^ (e - 23) = (2 : ℚ) ^ e / 2 ^ 23 := by
    rw [zpow_sub₀ (by norm_num)]
    norm_num
  have h1 : 1 ≤ q / (2 : ℚ) ^ (e - 23) := by
    rw [le_div_iff₀ hp, e2]
    have h3 : (0 : ℚ) < 2 ^ e := by positivity
    rw [one_mul, div_le_iff₀ (by norm_num)]
    nlinarith
  have h2 := roundHalfEven_pos _ h1
  exact mul_pos (by exact_mod_cast h2) hp

theorem roundF32_eq_of_pos (q v : ℚ) (e m : ℤ) (h1 : (2 : ℚ) ^ e ≤ q)
    (h2 : q < (2 : ℚ) ^ (e + 1)) (h3 : (m : ℚ) - 1 / 2 < q / (2 : ℚ) ^ (e - 23))
    (h4 : q / (2 : ℚ) ^ (e - 23) < m + 1 / 2) (hv : v = m * (2 : ℚ) ^ (e - 23)) :
    roundF32 q = v := by
  have hq : 0 < q := lt_of_lt_of_le (by positivity) h1
  have hlog : Int.log 2 |q| = e := by
    rw [abs_of_pos hq]
    apply le_antisymm
    · have := (Int.lt_zpow_iff_log_lt (R := ℚ) (b := 2) (by norm_num) hq).mp
        (by exact_mod_cast h2)
      omega
    · exact (Int.zpow_le_iff_le_log (R := ℚ) (b := 2) (by norm_num) hq).mp
        (by exact_mod_cast h1)
  unfold roundF32
  rw [hlog, roundHalfEven_eq _ m h3 h4, hv]

theorem roundF32_eq_of_neg (q v : ℚ) (e m : ℤ) (h1 : (2 : ℚ) ^ e ≤ -q)
    (h2 : -q < (2 : ℚ) ^ (e + 1)) (h3 : (m : ℚ) - 1 / 2 < -q / (2 : ℚ) ^ (e - 23))
    (h4 : -q / (2 : ℚ) ^ (e - 23) < m + 1 / 2) (hv : v = -(m * (2 : ℚ) ^ (e - 23))) :
    roundF32 q = v := by
  have hq : 0 < -q := lt_of_lt_of_le (by positivity) h1
  have hlog : Int.log 2 |q| = e := by
    rw [abs_of_neg (by linarith)]
    apply le_antisymm
    · have := (Int.lt_zpow_iff_log_lt (R := ℚ) (b := 2) (by norm_num) hq).mp
        (by exact_mod_cast h2)
      omega
    · exact (Int.zpow_le_iff_le_log (R := ℚ) (b := 2) (by norm_num) hq).mp
        (by exact_mod_cast h1)
  unfold roundF32
  have e1 : q / (2 : ℚ) ^ (e - 23) = -(-q / (2 : ℚ) ^ (e - 23)) := by ring
  rw [hlog, roundHalfEven_eq _ (-m) (by push_cast; rw [e1]; linarith)
    (by push_cast; rw [e1]; linarith), hv]
  push_cast
  ring

theorem roundF32_zoom_factor (k : ℚ) (hk : k = 11 / 10) : roundF32 k = 9227469 / 8388608 := by
  subst hk
  exact roundF32_eq_of_pos _ _ 0 9227469 (by norm_num) (by norm_num) (by norm_num)
    (by norm_num) (by norm_num)

theorem roundF32_start_zoom : roundF32 0.30 = 5033165 / 16777216 :=
  roundF32_eq_of_pos _ _ (-2) 10066330 (by norm_num) (by norm_num) (by norm_num)
    (by norm_num) (by norm_num)

/-! ### Zoom about the cursor -/

theorem screenToWorld_scroll_callback (toFloat : α → α) (c : World α) (mx my : α)
    (w h : ℤ) (yoffset : α) :
    (screenToWorld (scroll_callback toFloat c mx my w h yoffset) mx my w h).1
        = (screenToWorld c mx my w h).1 + (storeError toFloat c mx my w h yoffset).1
      ∧ (screenToWorld (scroll_callback toFloat c mx my w h yoffset) mx my w h).2
        = (screenToWorld c mx my w h).2 + (storeError toFloat c mx my w h yoffset).2 := by
  by_cases hy : yoffset > 0 <;>
    simp only [scroll_callback, screenToWorld, storeError, unroundedOffset, zoomedOnly, hy,
      if_true, if_false] <;>
    constructor <;> ring

theorem zoomScale_scroll_callback_pos (toFloat : α → α)
    (hpos : ∀ x, 0 < x → 0 < toFloat x) (c : World α) (mx my : α) (w h : ℤ) (yoffset : α)
    (hz : 0 < c.zoomScale) :
    0 < (scroll_callback toFloat c mx my w h yoffset).zoomScale := by
  have hk : 0 < toFloat 1.1 := hpos _ (by norm_num)
  by_cases hy : yoffset > 0
  · simp only [scroll_callback, hy, if_true]
    exact hpos _ (mul_pos hz hk)
  · simp only [scroll_callback, hy, if_false]
    exact hpos _ (div_pos hz hk)

theorem zoomScale_scrollMany_pos (toFloat : α → α)
    (hpos : ∀ x, 0 < x → 0 < toFloat x) (mx my : α) (w h : ℤ) (ys : List α) :
    ∀ c : World α, 0 < c.zoomScale → 0 < (scrollMany toFloat c mx my w h ys).zoomScale := by
  induction ys with
  | nil => intro c hz; exact hz
  | cons y rest ih =>
    intro c hz
    exact ih _ (zoomScale_scroll_callback_pos toFloat hpos c mx my w h y hz)

theorem screenToWorld_scrollMany (toFloat : α → α) (mx my : α) (w h : ℤ) (ys : List α) :
    ∀ c : World α,
      (screenToWorld (scrollMany toFloat c mx my w h ys) mx my w h).1
          = (screenToWorld c mx my w h).1 + (scrollDrift toFloat mx my w h c ys).1
        ∧ (screenToWorld (scrollMany toFloat c mx my w h ys) mx my w h).2
          = (screenToWorld c mx my w h).2 + (scrollDrift toFloat mx my w h c ys).2 := by
  induction ys with
  | nil => intro c; simp [scrollMany, scrollDrift]
  | cons y rest ih =>
    intro c
    have h1 : scrollMany toFloat c mx my w h (y :: rest)
        = scrollMany toFloat (scroll_callback toFloat c mx my w h y) mx my w h rest := rfl
    have h2 := ih (scroll_callback toFloat c mx my w h y)
    have h3 := screenToWorld_scroll_callback toFloat c mx my w h y
    rw [h1, h2.1, h2.2, h3.1, h3.2]
    simp only [scrollDrift]
    constructor <;> ring

theorem scrollDrift_of_storesExact (toFloat : α → α) (mx my : α) (w h : ℤ) (ys : List α) :
    ∀ c : World α, storesExact toFloat mx my w h c ys = true →
      scrollDrift toFloat mx my w h c ys = (0, 0) := by
  induction ys with
  | nil => intro c _; rfl
  | cons y rest ih =>
    intro c hc
    simp only [storesExact, Bool.and_eq_true, decide_eq_true_eq] at hc
    obtain ⟨⟨h1, h2⟩, h3⟩ := hc
    simp only [scrollDrift, storeError, ih _ h3, h1, h2, sub_self, add_zero]

theorem storesExact_of_exact (toFloat : α → α) (hf : ∀ x, toFloat x = x) (mx my : α)
    (w h : ℤ) (ys : List α) :
    ∀ c : World α, storesExact toFloat mx my w h c ys = true := by
  induction ys with
  | nil => intro c; rfl
  | cons y rest ih =>
    intro c
    simp only [storesExact, Bool.and_eq_true, decide_eq_true_eq]
    exact ⟨⟨hf _, hf _⟩, ih _⟩

theorem storesExact_centre (toFloat : α → α) (h0 : toFloat 0 = 0) (mx my : α) (w h : ℤ)
    (hx : (mx / (w : α)) * 2 - 1 = 0) (hy : 1 - (my / (h : α)) * 2 = 0) (ys : List α) :
    ∀ c : World α, c.offsetX = 0 → c.offsetY = 0 →
      storesExact toFloat mx my w h c ys = true := by
  induction ys with
  | nil => intro c _ _; rfl
  | cons y rest ih =>
    intro c hcx hcy
    have hu : unroundedOffset toFloat c mx my w h y = (0, 0) := by
      by_cases hyy : y > 0 <;>
        simp [unroundedOffset, screenToWorld, zoomedOnly, hyy, hx, hy, hcx, hcy]
    have hox : (scroll_callback toFloat c mx my w h y).offsetX = 0 := by
      by_cases hyy : y > 0 <;>
        simp [scroll_callback, screenToWorld, hyy, hx, hy, hcx, hcy, h0]
    have hoy : (scroll_callback toFloat c mx my w h y).offsetY = 0 := by
      by_cases hyy : y > 0 <;>
        simp [scroll_callback, screenToWorld, hyy, hx, hy, hcx, hcy, h0]
    simp only [storesExact, hu, h0, decide_True, Bool.and_self, Bool.true_and]
    exact ih _ hox hoy

theorem scrollMany_storesExact (toFloat : α → α) (mx my : α) (w h : ℤ) (ys : List α)
    (c : World α) (hs : storesExact toFloat mx my w h c ys = true) :
    screenToWorld (scrollMany toFloat c mx my w h ys) mx my w h
      = screenToWorld c mx my w h := by
  have h2 := screenToWorld_scrollMany toFloat mx my w h ys c
  rw [scrollDrift_of_storesExact toFloat mx my w h ys c hs] at h2
  exact Prod.ext (by simpa using h2.1) (by simpa using h2.2)

theorem scrollMany_exact (toFloat : α → α) (hf : ∀ x, toFloat x = x) (mx my : α)
    (w h : ℤ) (ys : List α) (c : World α) (hz : 0 < c.zoomScale) :
    screenToWorld (scrollMany toFloat c mx my w h ys) mx my w h = screenToWorld c mx my w h
      ∧ 0 < (scrollMany toFloat c mx my w h ys).zoomScale :=
  ⟨scrollMany_storesExact toFloat mx my w h ys c
      (storesExact_of_exact toFloat hf mx my w h ys c),
    zoomScale_scrollMany_pos toFloat (fun x hx => by rw [hf]; exact hx) mx my w h ys c hz⟩

/-- C3 (amended; zoom-to-cursor): for a window with `w, h ≠ 0`, a camera with
`zoomScale > 0` and either scroll direction, the world point under the cursor pixel after
one `scroll_callback` is the one before it plus, on each axis, the store error of the new
offset (the value `old offset + (after - before)` computed in `double` minus the `float`
stored).  So one scroll does not move the point when that store is exact, and moves it by
at most `ε` times the magnitude of that value when the narrowing to `float` has relative
error at most `ε`; for the `float` format (`roundF32`) that is `2^-24`.  After a finite
sequence `ys` of scroll events at that cursor position the point has moved by the sum of
the store errors of the sequence, so it is where it was when every offset store of the
sequence is exact; and the zoom stays positive when the narrowing keeps positive values
positive. -/
theorem zoom_to_cursor (toFloat : α → α) (c : World α) (mx my : α) (w h : ℤ)
    (yoffset : α) (ys : List α) (_hw : w ≠ 0) (_hh : h ≠ 0) (hz : 0 < c.zoomScale) :
    (screenToWorld (scroll_callback toFloat c mx my w h yoffset) mx my w h).1
        = (screenToWorld c mx my w h).1
          + ((unroundedOffset toFloat c mx my w h yoffset).1
              - toFloat (unroundedOffset toFloat c mx my w h yoffset).1)
      ∧ (screenToWorld (scroll_callback toFloat c mx my w h yoffset) mx my w h).2
        = (screenToWorld c mx my w h).2
          + ((unroundedOffset toFloat c mx my w h yoffset).2
              - toFloat (unroundedOffset toFloat c mx my w h yoffset).2)
      ∧ (toFloat (unroundedOffset toFloat c mx my w h yoffset).1
            = (unroundedOffset toFloat c mx my w h yoffset).1 →
          toFloat (unroundedOffset toFloat c mx my w h yoffset).2
            = (unroundedOffset toFloat c mx my w h yoffset).2 →
          screenToWorld (scroll_callback toFloat c mx my w h yoffset) mx my w h
            = screenToWorld c mx my w h)
      ∧ (∀ ε : α, (∀ x, |x - toFloat x| ≤ ε * |x|) →
          |(screenToWorld (scroll_callback toFloat c mx my w h yoffset) mx my w h).1
              - (screenToWorld c mx my w h).1|
            ≤ ε * |(unroundedOffset toFloat c mx my w h yoffset).1|
          ∧ |(screenToWorld (scroll_callback toFloat c mx my w h yoffset) mx my w h).2
              - (screenToWorld c mx my w h).2|
            ≤ ε * |(unroundedOffset toFloat c mx my w h yoffset).2|)
      ∧ (∀ (cq : World ℚ) (qx qy y : ℚ),
          |(screenToWorld (scroll_callback roundF32 cq qx qy w h y) qx qy w h).1
              - (screenToWorld cq qx qy w h).1|
            ≤ 1 / 2 ^ 24 * |(unroundedOffset roundF32 cq qx qy w h y).1|
          ∧ |(screenToWorld (scroll_callback roundF32 cq qx qy w h y) qx qy w h).2
              - (screenToWorld cq qx qy w h).2|
            ≤ 1 / 2 ^ 24 * |(unroundedOffset roundF32 cq qx qy w h y).2|)
      ∧ (screenToWorld (scrollMany toFloat c mx my w h ys) mx my w h).1
        = (screenToWorld c mx my w h).1 + (scrollDrift toFloat mx my w h c ys).1
      ∧ (screenToWorld (scrollMany toFloat c mx my w h ys) mx my w h).2
        = (screenToWorld c mx my w h).2 + (scrollDrift toFloat mx my w h c ys).2
      ∧ (storesExact toFloat mx my w h c ys = true →
          screenToWorld (scrollMany toFloat c mx my w h ys) mx my w h
            = screenToWorld c mx my w h)
      ∧ ((∀ x, 0 < x → 0 < toFloat x) →
          0 < (scrollMany toFloat c mx my w h ys).zoomScale) := by
  have h1 := screenToWorld_scroll_callback toFloat c mx my w h yoffset
  have h2 := screenToWorld_scrollMany toFloat mx my w h ys c
  refine ⟨h1.1, h1.2, ?_, ?_, ?_, h2.1, h2.2,
    scrollMany_storesExact toFloat mx my w h ys c,
    fun hpos => zoomScale_scrollMany_pos toFloat hpos mx my w h ys c hz⟩
  · intro hx hy
    have e1 : (storeError toFloat c mx my w h yoffset).1 = 0 := by
      simp only [storeError, hx, sub_self]
    have e2 : (storeError toFloat c mx my w h yoffset).2 = 0 := by
      simp only [storeError, hy, sub_self]
    rw [e1, add_zero] at h1
    rw [e2, add_zero] at h1
    exact Prod.ext h1.1 h1.2
  · intro ε hε
    rw [h1.1, h1.2, add_sub_cancel_left, add_sub_cancel_left]
    exact ⟨hε _, hε _⟩
  · intro cq qx qy y
    have h3 := screenToWorld_scroll_callback roundF32 cq qx qy w h y
    rw [h3.1, h3.2, add_sub_cancel_left, add_sub_cancel_left]
    exact ⟨roundF32_error _, roundF32_error _⟩

/-- C3 (amended), sanity check: `zoom_to_cursor` with `float` stores (`roundF32`) at the
start-up camera in a 1280 x 720 window.  With the cursor at the centre of the window the
new offset is 0 at every scroll, which is stored exactly: the world point under the cursor
is the same after one zoom-out and after the sequence out, in, in, and the zoom stays
positive.  With the cursor at pixel (1200, 60), one zoom-out moves the y coordinate of the
point by at most `2^-24` times the magnitude of the unrounded new y offset. -/
theorem zoom_to_cursor_witness :
    screenToWorld (scroll_callback roundF32 floatCam 640 360 1280 720 (-1)) 640 360 1280 720
        = screenToWorld floatCam 640 360 1280 720
      ∧ screenToWorld (scrollMany roundF32 floatCam 640 360 1280 720 [-1, 1, 1])
          640 360 1280 720
        = screenToWorld floatCam 640 360 1280 720
      ∧ 0 < (scrollMany roundF32 floatCam 640 360 1280 720 [-1, 1, 1]).zoomScale
      ∧ |(screenToWorld (scroll_callback roundF32 floatCam 1200 60 1280 720 (-1))
              1200 60 1280 720).2 - (screenToWorld floatCam 1200 60 1280 720).2|
          ≤ 1 / 2 ^ 24 * |(unroundedOffset roundF32 floatCam 1200 60 1280 720 (-1)).2| := by
  have hf : 0 < floatCam.zoomScale := by
    simp only [floatCam, roundF32_start_zoom]
    norm_num
  have h := zoom_to_cursor roundF32 floatCam 640 360 1280 720 (-1) [-1, 1, 1] (by decide)
    (by decide) hf
  have hs1 := storesExact_centre roundF32 roundF32_zero 640 360 1280 720 (by norm_num)
    (by norm_num) [-1] floatCam rfl rfl
  have hs3 := storesExact_centre roundF32 roundF32_zero 640 360 1280 720 (by norm_num)
    (by norm_num) [-1, 1, 1] floatCam rfl rfl
  simp only [storesExact, Bool.and_eq_true, decide_eq_true_eq, and_true] at hs1
  exact ⟨h.2.2.1 hs1.1 hs1.2, h.2.2.2.2.2.2.2.1 hs3, h.2.2.2.2.2.2.2.2 roundF32_pos,
    (h.2.2.2.2.1 floatCam 1200 60 (-1)).2⟩

/-- C4 (amended): with `before` the world point under the cursor for the camera as it
was, and `after` the world point under the cursor for the camera with the new zoom and
the unchanged offset, `scroll_callback` sets the zoom to the new zoom (`* 1.1f` when
`yoffset > 0`, `/ 1.1f` otherwise, as a `float`) and each offset to the old offset plus
`after - before`, stored as a `float`; nothing else in the world changes.  Where the
store is exact the new offset is the old offset plus `after - before`. -/
theorem scroll_offset_after_minus_before (toFloat : α → α) (c : World α) (mx my : α)
    (w h : ℤ) (yoffset : α) :
    (zoomedOnly toFloat c yoffset).zoomScale
        = (if yoffset > 0 then toFloat (c.zoomScale * toFloat 1.1)
            else toFloat (c.zoomScale / toFloat 1.1))
      ∧ (zoomedOnly toFloat c yoffset).offsetX = c.offsetX
      ∧ (zoomedOnly toFloat c yoffset).offsetY = c.offsetY
      ∧ scroll_callback toFloat c mx my w h yoffset =
        { c with
          zoomScale := (zoomedOnly toFloat c yoffset).zoomScale
          offsetX := toFloat (c.offsetX
                      + ((screenToWorld (zoomedOnly toFloat c yoffset) mx my w h).1
                        - (screenToWorld c mx my w h).1))
          offsetY := toFloat (c.offsetY
                      + ((screenToWorld (zoomedOnly toFloat c yoffset) mx my w h).2
                        - (screenToWorld c mx my w h).2)) }
      ∧ ((∀ x, toFloat x = x) →
          (zoomedOnly toFloat c yoffset).zoomScale
              = (if yoffset > 0 then c.zoomScale * 1.1 else c.zoomScale / 1.1)
            ∧ scroll_callback toFloat c mx my w h yoffset =
              { c with
                zoomScale := (zoomedOnly toFloat c yoffset).zoomScale
                offsetX := c.offsetX
                            + ((screenToWorld (zoomedOnly toFloat c yoffset) mx my w h).1
                              - (screenToWorld c mx my w h).1)
                offsetY := c.offsetY
                            + ((screenToWorld (zoomedOnly toFloat c yoffset) mx my w h).2
                              - (screenToWorld c mx my w h).2) }) := by
  refine ⟨?_, ?_, ?_, ?_, ?_⟩
  · by_cases hy : yoffset > 0 <;> simp [zoomedOnly, hy]
  · by_cases hy : yoffset > 0 <;> simp [zoomedOnly, hy]
  · by_cases hy : yoffset > 0 <;> simp [zoomedOnly, hy]
  · by_cases hy : yoffset > 0 <;> simp [zoomedOnly, scroll_callback, hy]
  · intro hf
    by_cases hy : yoffset > 0 <;> simp [zoomedOnly, scroll_callback, hy, hf]

/-! ### The drift of the cursor point under `float` stores

For a zoom-out the zoom and the y offset after `scroll_callback` depend only on the zoom
and the y offset before it (`scroll_callback_zoomOutY`), so a run of zoom-outs is an
iteration of `zoomOutY`.  The lemmas `zoomOutY_step1` to `zoomOutY_step20` follow twenty
zoom-outs from the start-up camera, window 1280 x 720, cursor at pixel (1200, 60), where
`1 - (60 / 720) * 2 = 5 / 6`; each gives the two `float` values stored by one step. -/

theorem zoomOutY_eq (toFloat : α → α) (sy z o k z1 o1 : α) (hk : toFloat 1.1 = k)
    (hz : toFloat (z / k) = z1)
    (ho : toFloat (o + ((sy / z1 - o) - (sy / z - o))) = o1) :
    zoomOutY toFloat sy (z, o) = (z1, o1) := by
  simp only [zoomOutY, hk, hz, ho]

theorem scroll_callback_zoomOutY (toFloat : α → α) (c : World α) (mx my : α) (w h : ℤ)
    (yoffset : α) (hy : ¬ yoffset > 0) :
    ((scroll_callback toFloat c mx my w h yoffset).zoomScale,
        (scroll_callback toFloat c mx my w h yoffset).offsetY)
      = zoomOutY toFloat (1 - (my / (h : α)) * 2) (c.zoomScale, c.offsetY) := by
  simp only [scroll_callback, screenToWorld, zoomOutY, hy, if_false]

theorem scrollMany_zoomOutY (toFloat : α → α) (mx my : α) (w h : ℤ) (yoffset : α)
    (hy : ¬ yoffset > 0) :
    ∀ (n : ℕ) (c : World α),
      ((scrollMany toFloat c mx my w h (List.replicate n yoffset)).zoomScale,
          (scrollMany toFloat c mx my w h (List.replicate n yoffset)).offsetY)
        = (zoomOutY toFloat (1 - (my / (h : α)) * 2))^[n] (c.zoomScale, c.offsetY) := by
  intro n
  induction n with
  | zero => intro c; rfl
  | succ k ih =>
    intro c
    have h1 : scrollMany toFloat c mx my w h (List.replicate (k + 1) yoffset)
        = scrollMany toFloat (scroll_callback toFloat c mx my w h yoffset) mx my w h
            (List.replicate k yoffset) := rfl
    rw [h1, ih, scroll_callback_zoomOutY toFloat c mx my w h yoffset hy,
      Function.iterate_succ_apply]

theorem zoomOutY_step1 :
    zoomOutY roundF32 (5 / 6) (5033165 / 16777216, 0)
      = (9151209 / 33554432, 2330169 / 8388608) :=
  zoomOutY_eq roundF32 _ _ _ _ _ _ (roundF32_zoom_factor _ (by norm_num))
    (roundF32_eq_of_pos _ _ (-2) 9151209 (by norm_num) (by norm_num) (by norm_num)
      (by norm_num) (by norm_num))
    (roundF32_eq_of_pos _ _ (-2) 9320676 (by norm_num) (by norm_num) (by norm_num)
      (by norm_num) (by norm_num))

theorem zoomOutY_step2 :
    zoomOutY roundF32 (5 / 6) (9151209 / 33554432, 2330169 / 8388608)
      = (16638561 / 67108864, 1223339 / 2097152) :=
  zoomOutY_eq roundF32 _ _ _ _ _ _ (roundF32_zoom_factor _ (by norm_num))
    (roundF32_eq_of_pos _ _ (-3) 16638561 (by norm_num) (by norm_num) (by norm_num)
      (by norm_num) (by norm_num))
    (roundF32_eq_of_pos _ _ (-1) 9786712 (by norm_num) (by norm_num) (by norm_num)
      (by norm_num) (by norm_num))

theorem zoomOutY_step3 :
    zoomOutY roundF32 (5 / 6) (16638561 / 67108864, 1223339 / 2097152)
      = (3781491 / 16777216, 15425723 / 16777216) :=
  zoomOutY_eq roundF32 _ _ _ _ _ _ (roundF32_zoom_factor _ (by norm_num))
    (roundF32_eq_of_pos _ _ (-3) 15125964 (by norm_num) (by norm_num) (by norm_num)
      (by norm_num) (by norm_num))
    (roundF32_eq_of_pos _ _ (-1) 15425723 (by norm_num) (by norm_num) (by norm_num)
      (by norm_num) (by norm_num))

theorem zoomOutY_step4 :
    zoomOutY roundF32 (5 / 6) (3781491 / 16777216, 15425723 / 16777216)
      = (3437719 / 16777216, 10814317 / 8388608) :=
  zoomOutY_eq roundF32 _ _ _ _ _ _ (roundF32_zoom_factor _ (by norm_num))
    (roundF32_eq_of_pos _ _ (-3) 13750876 (by norm_num) (by norm_num) (by norm_num)
      (by norm_num) (by norm_num))
    (roundF32_eq_of_pos _ _ (0) 10814317 (by norm_num) (by norm_num) (by norm_num)
      (by norm_num) (by norm_num))

theorem zoomOutY_step5 :
    zoomOutY roundF32 (5 / 6) (3437719 / 16777216, 10814317 / 8388608)
      = (3125199 / 16777216, 14225919 / 8388608) :=
  zoomOutY_eq roundF32 _ _ _ _ _ _ (roundF32_zoom_factor _ (by norm_num))
    (roundF32_eq_of_pos _ _ (-3) 12500796 (by norm_num) (by norm_num) (by norm_num)
      (by norm_num) (by norm_num))
    (roundF32_eq_of_pos _ _ (0) 14225919 (by norm_num) (by norm_num) (by norm_num)
      (by norm_num) (by norm_num))

theorem zoomOutY_step6 :
    zoomOutY roundF32 (5 / 6) (3125199 / 16777216, 14225919 / 8388608)
      = (1420545 / 8388608, 2247335 / 1048576) :=
  zoomOutY_eq roundF32 _ _ _ _ _ _ (roundF32_zoom_factor _ (by norm_num))
    (roundF32_eq_of_pos _ _ (-3) 11364360 (by norm_num) (by norm_num) (by norm_num)
      (by norm_num) (by norm_num))
    (roundF32_eq_of_pos _ _ (1) 8989340 (by norm_num) (by norm_num) (by norm_num)
      (by norm_num) (by norm_num))

theorem zoomOutY_step7 :
    zoomOutY roundF32 (5 / 6) (1420545 / 8388608, 2247335 / 1048576)
      = (2582809 / 16777216, 11053359 / 4194304) :=
  zoomOutY_eq roundF32 _ _ _ _ _ _ (roundF32_zoom_factor _ (by norm_num))
    (roundF32_eq_of_pos _ _ (-3) 10331236 (by norm_num) (by norm_num) (by norm_num)
      (by norm_num) (by norm_num))
    (roundF32_eq_of_pos _ _ (1) 11053359 (by norm_num) (by norm_num) (by norm_num)
      (by norm_num) (by norm_num))

theorem zoomOutY_step8 :
    zoomOutY roundF32 (5 / 6) (2582809 / 16777216, 11053359 / 4194304)
      = (9392033 / 67108864, 13323779 / 4194304) :=
  zoomOutY_eq roundF32 _ _ _ _ _ _ (roundF32_zoom_factor _ (by norm_num))
    (roundF32_eq_of_pos _ _ (-3) 9392033 (by norm_num) (by norm_num) (by norm_num)
      (by norm_num) (by norm_num))
    (roundF32_eq_of_pos _ _ (1) 13323779 (by norm_num) (by norm_num) (by norm_num)
      (by norm_num) (by norm_num))

theorem zoomOutY_step9 :
    zoomOutY roundF32 (5 / 6) (9392033 / 67108864, 13323779 / 4194304)
      = (2134553 / 16777216, 15821241 / 4194304) :=
  zoomOutY_eq roundF32 _ _ _ _ _ _ (roundF32_zoom_factor _ (by norm_num))
    (roundF32_eq_of_pos _ _ (-3) 8538212 (by norm_num) (by norm_num) (by norm_num)
      (by norm_num) (by norm_num))
    (roundF32_eq_of_pos _ _ (1) 15821241 (by norm_num) (by norm_num) (by norm_num)
      (by norm_num) (by norm_num))

theorem zoomOutY_step10 :
    zoomOutY roundF32 (5 / 6) (2134553 / 16777216, 15821241 / 4194304)
      = (15524021 / 134217728, 4642113 / 1048576) :=
  zoomOutY_eq roundF32 _ _ _ _ _ _ (roundF32_zoom_factor _ (by norm_num))
    (roundF32_eq_of_pos _ _ (-4) 15524021 (by norm_num) (by norm_num) (by norm_num)
      (by norm_num) (by norm_num))
    (roundF32_eq_of_pos _ _ (2) 9284226 (by norm_num) (by norm_num) (by norm_num)
      (by norm_num) (by norm_num))

theorem zoomOutY_step11 :
    zoomOutY roundF32 (5 / 6) (15524021 / 134217728, 4642113 / 1048576)
      = (7056373 / 67108864, 10795191 / 2097152) :=
  zoomOutY_eq roundF32 _ _ _ _ _ _ (roundF32_zoom_factor _ (by norm_num))
    (roundF32_eq_of_pos _ _ (-4) 14112746 (by norm_num) (by norm_num) (by norm_num)
      (by norm_num) (by norm_num))
    (roundF32_eq_of_pos _ _ (2) 10795191 (by norm_num) (by norm_num) (by norm_num)
      (by norm_num) (by norm_num))

theorem zoomOutY_step12 :
    zoomOutY roundF32 (5 / 6) (7056373 / 67108864, 10795191 / 2097152)
      = (12829769 / 134217728, 3114313 / 524288) :=
  zoomOutY_eq roundF32 _ _ _ _ _ _ (roundF32_zoom_factor _ (by norm_num))
    (roundF32_eq_of_pos _ _ (-4) 12829769 (by norm_num) (by norm_num) (by norm_num)
      (by norm_num) (by norm_num))
    (roundF32_eq_of_pos _ _ (2) 12457252 (by norm_num) (by norm_num) (by norm_num)
      (by norm_num) (by norm_num))

theorem zoomOutY_step13 :
    zoomOutY roundF32 (5 / 6) (12829769 / 134217728, 3114313 / 524288)
      = (5831713 / 67108864, 892845 / 131072) :=
  zoomOutY_eq roundF32 _ _ _ _ _ _ (roundF32_zoom_factor _ (by norm_num))
    (roundF32_eq_of_pos _ _ (-4) 11663426 (by norm_num) (by norm_num) (by norm_num)
      (by norm_num) (by norm_num))
    (roundF32_eq_of_pos _ _ (2) 14285520 (by norm_num) (by norm_num) (by norm_num)
      (by norm_num) (by norm_num))

theorem zoomOutY_step14 :
    zoomOutY roundF32 (5 / 6) (5831713 / 67108864, 892845 / 131072)
      = (5301557 / 67108864, 16296615 / 2097152) :=
  zoomOutY_eq roundF32 _ _ _ _ _ _ (roundF32_zoom_factor _ (by norm_num))
    (roundF32_eq_of_pos _ _ (-4) 10603114 (by norm_num) (by norm_num) (by norm_num)
      (by norm_num) (by norm_num))
    (roundF32_eq_of_pos _ _ (2) 16296615 (by norm_num) (by norm_num) (by norm_num)
      (by norm_num) (by norm_num))

theorem zoomOutY_step15 :
    zoomOutY roundF32 (5 / 6) (5301557 / 67108864, 16296615 / 2097152)
      = (4819597 / 67108864, 4627205 / 524288) :=
  zoomOutY_eq roundF32 _ _ _ _ _ _ (roundF32_zoom_factor _ (by norm_num))
    (roundF32_eq_of_pos _ _ (-4) 9639194 (by norm_num) (by norm_num) (by norm_num)
      (by norm_num) (by norm_num))
    (roundF32_eq_of_pos _ _ (3) 9254410 (by norm_num) (by norm_num) (by norm_num)
      (by norm_num) (by norm_num))

theorem zoomOutY_step16 :
    zoomOutY roundF32 (5 / 6) (4819597 / 67108864, 4627205 / 524288)
      = (8762903 / 134217728, 10471123 / 1048576) :=
  zoomOutY_eq roundF32 _ _ _ _ _ _ (roundF32_zoom_factor _ (by norm_num))
    (roundF32_eq_of_pos _ _ (-4) 8762903 (by norm_num) (by norm_num) (by norm_num)
      (by norm_num) (by norm_num))
    (roundF32_eq_of_pos _ _ (3) 10471123 (by norm_num) (by norm_num) (by norm_num)
      (by norm_num) (by norm_num))

theorem zoomOutY_step17 :
    zoomOutY roundF32 (5 / 6) (8762903 / 134217728, 10471123 / 1048576)
      = (15932551 / 268435456, 5904753 / 524288) :=
  zoomOutY_eq roundF32 _ _ _ _ _ _ (roundF32_zoom_factor _ (by norm_num))
    (roundF32_eq_of_pos _ _ (-5) 15932551 (by norm_num) (by norm_num) (by norm_num)
      (by norm_num) (by norm_num))
    (roundF32_eq_of_pos _ _ (3) 11809506 (by norm_num) (by norm_num) (by norm_num)
      (by norm_num) (by norm_num))

theorem zoomOutY_step18 :
    zoomOutY roundF32 (5 / 6) (15932551 / 268435456, 5904753 / 524288)
      = (14484137 / 268435456, 207527 / 16384) :=
  zoomOutY_eq roundF32 _ _ _ _ _ _ (roundF32_zoom_factor _ (by norm_num))
    (roundF32_eq_of_pos _ _ (-5) 14484137 (by norm_num) (by norm_num) (by norm_num)
      (by norm_num) (by norm_num))
    (roundF32_eq_of_pos _ _ (3) 13281728 (by norm_num) (by norm_num) (by norm_num)
      (by norm_num) (by norm_num))

theorem zoomOutY_step19 :
    zoomOutY roundF32 (5 / 6) (14484137 / 268435456, 207527 / 16384)
      = (13167397 / 268435456, 3725293 / 262144) :=
  zoomOutY_eq roundF32 _ _ _ _ _ _ (roundF32_zoom_factor _ (by norm_num))
    (roundF32_eq_of_pos _ _ (-5) 13167397 (by norm_num) (by norm_num) (by norm_num)
      (by norm_num) (by norm_num))
    (roundF32_eq_of_pos _ _ (3) 14901172 (by norm_num) (by norm_num) (by norm_num)
      (by norm_num) (by norm_num))

theorem zoomOutY_step20 :
    zoomOutY roundF32 (5 / 6) (13167397 / 268435456, 3725293 / 262144)
      = (11970361 / 268435456, 260665 / 16384) :=
  zoomOutY_eq roundF32 _ _ _ _ _ _ (roundF32_zoom_factor _ (by norm_num))
    (roundF32_eq_of_pos _ _ (-5) 11970361 (by norm_num) (by norm_num) (by norm_num)
      (by norm_num) (by norm_num))
    (roundF32_eq_of_pos _ _ (3) 16682560 (by norm_num) (by norm_num) (by norm_num)
      (by norm_num) (by norm_num))

theorem zoomOutY_iterate :
    (zoomOutY roundF32 (5 / 6))^[1] (5033165 / 16777216, 0)
        = (9151209 / 33554432, 2330169 / 8388608)
      ∧ (zoomOutY roundF32 (5 / 6))^[20] (5033165 / 16777216, 0)
        = (11970361 / 268435456, 260665 / 16384) := by
  have h0 : (zoomOutY roundF32 (5 / 6))^[0] ((5033165 / 16777216 : ℚ), (0 : ℚ))
      = ((5033165 / 16777216 : ℚ), (0 : ℚ)) := rfl
  have h1 : (zoomOutY roundF32 (5 / 6))^[1] ((5033165 / 16777216 : ℚ), (0 : ℚ))
      = (9151209 / 33554432, 2330169 / 8388608) :=
    (Function.iterate_succ_apply' _ 0 _).trans ((congrArg _ h0).trans zoomOutY_step1)
  have h2 : (zoomOutY roundF32 (5 / 6))^[2] ((5033165 / 16777216 : ℚ), (0 : ℚ))
      = (16638561 / 67108864, 1223339 / 2097152) :=
    (Function.iterate_succ_apply' _ 1 _).trans ((congrArg _ h1).trans zoomOutY_step2)
  have h3 : (zoomOutY roundF32 (5 / 6))^[3] ((5033165 / 16777216 : ℚ), (0 : ℚ))
      = (3781491 / 16777216, 15425723 / 16777216) :=
    (Function.iterate_succ_apply' _ 2 _).trans ((congrArg _ h2).trans zoomOutY_step3)
  have h4 : (zoomOutY roundF32 (5 / 6))^[4] ((5033165 / 16777216 : ℚ), (0 : ℚ))
      = (3437719 / 16777216, 10814317 / 8388608) :=
    (Function.iterate_succ_apply' _ 3 _).trans ((congrArg _ h3).trans zoomOutY_step4)
  have h5 : (zoomOutY roundF32 (5 / 6))^[5] ((5033165 / 16777216 : ℚ), (0 : ℚ))
      = (3125199 / 16777216, 14225919 / 8388608) :=
    (Function.iterate_succ_apply' _ 4 _).trans ((congrArg _ h4).trans zoomOutY_step5)
  have h6 : (zoomOutY roundF32 (5 / 6))^[6] ((5033165 / 16777216 : ℚ), (0 : ℚ))
      = (1420545 / 8388608, 2247335 / 1048576) :=
    (Function.iterate_succ_apply' _ 5 _).trans ((congrArg _ h5).trans zoomOutY_step6)
  have h7 : (zoomOutY roundF32 (5 / 6))^[7] ((5033165 / 16777216 : ℚ), (0 : ℚ))
      = (2582809 / 16777216, 11053359 / 4194304) :=
    (Function.iterate_succ_apply' _ 6 _).trans ((congrArg _ h6).trans zoomOutY_step7)
  have h8 : (zoomOutY roundF32 (5 / 6))^[8] ((5033165 / 16777216 : ℚ), (0 : ℚ))
      = (9392033 / 67108864, 13323779 / 4194304) :=
    (Function.iterate_succ_apply' _ 7 _).trans ((congrArg _ h7).trans zoomOutY_step8)
  have h9 : (zoomOutY roundF32 (5 / 6))^[9] ((5033165 / 16777216 : ℚ), (0 : ℚ))
      = (2134553 / 16777216, 15821241 / 4194304) :=
    (Function.iterate_succ_apply' _ 8 _).trans ((congrArg _ h8).trans zoomOutY_step9)
  have h10 : (zoomOutY roundF32 (5 / 6))^[10] ((5033165 / 16777216 : ℚ), (0 : ℚ))
      = (15524021 / 134217728, 4642113 / 1048576) :=
    (Function.iterate_succ_apply' _ 9 _).trans ((congrArg _ h9).trans zoomOutY_step10)
  have h11 : (zoomOutY roundF32 (5 / 6))^[11] ((5033165 / 16777216 : ℚ), (0 : ℚ))
      = (7056373 / 67108864, 10795191 / 2097152) :=
    (Function.iterate_succ_apply' _ 10 _).trans ((congrArg _ h10).trans zoomOutY_step11)
  have h12 : (zoomOutY roundF32 (5 / 6))^[12] ((5033165 / 16777216 : ℚ), (0 : ℚ))
      = (12829769 / 134217728, 3114313 / 524288) :=
    (Function.iterate_succ_apply' _ 11 _).trans ((congrArg _ h11).trans zoomOutY_step12)
  have h13 : (zoomOutY roundF32 (5 / 6))^[13] ((5033165 / 16777216 : ℚ), (0 : ℚ))
      = (5831713 / 67108864, 892845 / 131072) :=
    (Function.iterate_succ_apply' _ 12 _).trans ((congrArg _ h12).trans zoomOutY_step13)
  have h14 : (zoomOutY roundF32 (5 / 6))^[14] ((5033165 / 16777216 : ℚ), (0 : ℚ))
      = (5301557 / 67108864, 16296615 / 2097152) :=
    (Function.iterate_succ_apply' _ 13 _).trans ((congrArg _ h13).trans zoomOutY_step14)
  have h15 : (zoomOutY roundF32 (5 / 6))^[15] ((5033165 / 16777216 : ℚ), (0 : ℚ))
      = (4819597 / 67108864, 4627205 / 524288) :=
    (Function.iterate_succ_apply' _ 14 _).trans ((congrArg _ h14).trans zoomOutY_step15)
  have h16 : (zoomOutY roundF32 (5 / 6))^[16] ((5033165 / 16777216 : ℚ), (0 : ℚ))
      = (8762903 / 134217728, 10471123 / 1048576) :=
    (Function.iterate_succ_apply' _ 15 _).trans ((congrArg _ h15).trans zoomOutY_step16)
  have h17 : (zoomOutY roundF32 (5 / 6))^[17] ((5033165 / 16777216 : ℚ), (0 : ℚ))
      = (15932551 / 268435456, 5904753 / 524288) :=
    (Function.iterate_succ_apply' _ 16 _).trans ((congrArg _ h16).trans zoomOutY_step17)
  have h18 : (zoomOutY roundF32 (5 / 6))^[18] ((5033165 / 16777216 : ℚ), (0 : ℚ))
      = (14484137 / 268435456, 207527 / 16384) :=
    (Function.iterate_succ_apply' _ 17 _).trans ((congrArg _ h17).trans zoomOutY_step18)
  have h19 : (zoomOutY roundF32 (5 / 6))^[19] ((5033165 / 16777216 : ℚ), (0 : ℚ))
      = (13167397 / 268435456, 3725293 / 262144) :=
    (Function.iterate_succ_apply' _ 18 _).trans ((congrArg _ h18).trans zoomOutY_step19)
  have h20 : (zoomOutY roundF32 (5 / 6))^[20] ((5033165 / 16777216 : ℚ), (0 : ℚ))
      = (11970361 / 268435456, 260665 / 16384) :=
    (Function.iterate_succ_apply' _ 19 _).trans ((congrArg _ h19).trans zoomOutY_step20)
  exact ⟨h1, h20⟩

/-- C3, as stated, fails under the `float` stores of the program (camera at start-up with
zoom `0.30f`, window 1280 x 720, cursor at pixel (1200, 60)): after one zoom-out the world
point under the cursor is not the one before it, and after twenty zoom-outs its y
coordinate has moved by more than `1e-6`. -/
theorem zoom_drift_counterexample :
    screenToWorld (scroll_callback roundF32 floatCam 1200 60 1280 720 (-1)) 1200 60 1280 720
        ≠ screenToWorld floatCam 1200 60 1280 720
      ∧ (screenToWorld
            (scrollMany roundF32 floatCam 1200 60 1280 720 (List.replicate 20 (-1)))
            1200 60 1280 720).2
          - (screenToWorld floatCam 1200 60 1280 720).2 > 1 / 1000000 := by
  have hsy : (1 : ℚ) - (60 / ((720 : ℤ) : ℚ)) * 2 = 5 / 6 := by norm_num
  have hs0 : (floatCam.zoomScale, floatCam.offsetY) = ((5033165 / 16777216 : ℚ), (0 : ℚ)) := by
    simp only [floatCam, roundF32_start_zoom]
  have key : ∀ n : ℕ,
      ((scrollMany roundF32 floatCam 1200 60 1280 720 (List.replicate n (-1))).zoomScale,
          (scrollMany roundF32 floatCam 1200 60 1280 720 (List.replicate n (-1))).offsetY)
        = (zoomOutY roundF32 (5 / 6))^[n] (5033165 / 16777216, 0) := by
    intro n
    rw [scrollMany_zoomOutY roundF32 1200 60 1280 720 (-1) (by norm_num) n floatCam, hsy, hs0]
  have k1 := (key 1).trans zoomOutY_iterate.1
  have k20 := (key 20).trans zoomOutY_iterate.2
  rw [Prod.mk.injEq] at k1 k20
  have hb : (screenToWorld floatCam 1200 60 1280 720).2 = 5 / 6 / (5033165 / 16777216) := by
    simp only [screenToWorld, floatCam, roundF32_start_zoom]
    norm_num
  constructor
  · intro h
    have h2 := congrArg Prod.snd h
    have h3 : (screenToWorld (scroll_callback roundF32 floatCam 1200 60 1280 720 (-1))
        1200 60 1280 720).2 = 5 / 6 / (9151209 / 33554432) - 2330169 / 8388608 := by
      have e : scroll_callback roundF32 floatCam 1200 60 1280 720 (-1)
          = scrollMany roundF32 floatCam 1200 60 1280 720 (List.replicate 1 (-1)) := rfl
      rw [e]
      simp only [screenToWorld, k1.1, k1.2]
      norm_num
    rw [h3, hb] at h2
    norm_num at h2
  · have h3 : (screenToWorld
        (scrollMany roundF32 floatCam 1200 60 1280 720 (List.replicate 20 (-1)))
        1200 60 1280 720).2 = 5 / 6 / (11970361 / 268435456) - 260665 / 16384 := by
      simp only [screenToWorld, k20.1, k20.2]
      norm_num
    rw [h3, hb]
    norm_num

theorem camQ_zoom_in : roundF32 (camQ.zoomScale * roundF32 1.1) = 9227469 / 8388608 := by
  rw [show roundF32 (1.1 : ℚ) = 9227469 / 8388608 from
    roundF32_zoom_factor _ (by norm_num)]
  exact roundF32_eq_of_pos _ _ 0 9227469 (by norm_num [camQ]) (by norm_num [camQ])
    (by norm_num [camQ]) (by norm_num [camQ]) (by norm_num)

theorem camQ_after_minus_before :
    camQ.offsetX + ((screenToWorld (zoomedOnly roundF32 camQ 1) 100 0 100 100).1
      - (screenToWorld camQ 100 0 100 100).1) = -838861 / 9227469 := by
  simp only [zoomedOnly, show ((1 : ℚ) > 0) from by norm_num, if_true, camQ_zoom_in,
    screenToWorld]
  norm_num [camQ]

theorem roundF32_camQ_offset : roundF32 (-838861 / 9227469) = -6100807 / 67108864 :=
  roundF32_eq_of_neg _ _ (-4) 12201614 (by norm_num) (by norm_num) (by norm_num)
    (by norm_num) (by norm_num)

/-- C4, as stated, fails: at the camera `camQ` with the cursor in the top right corner
of a 100 x 100 window, a zoom-in leaves `offsetX = -6100807/67108864` (the `float`
nearest to `-838861/9227469`, about `-1/11`), whereas the old offset plus
`before - after` is `838861/9227469`, of the opposite sign.  The old offset plus
`after - before` is `-838861/9227469`, which the stored `float` is nearest to but does
not equal. -/
theorem scroll_offset_not_before_minus_after :
    (scroll_callback roundF32 camQ 100 0 100 100 1).offsetX = -6100807 / 67108864
      ∧ camQ.offsetX + ((screenToWorld camQ 100 0 100 100).1
          - (screenToWorld (zoomedOnly roundF32 camQ 1) 100 0 100 100).1) = 838861 / 9227469
      ∧ (scroll_callback roundF32 camQ 100 0 100 100 1).offsetX
          ≠ camQ.offsetX + ((screenToWorld camQ 100 0 100 100).1
              - (screenToWorld (zoomedOnly roundF32 camQ 1) 100 0 100 100).1)
      ∧ camQ.offsetX + ((screenToWorld (zoomedOnly roundF32 camQ 1) 100 0 100 100).1
          - (screenToWorld camQ 100 0 100 100).1) = -838861 / 9227469
      ∧ (scroll_callback roundF32 camQ 100 0 100 100 1).offsetX
          ≠ camQ.offsetX + ((screenToWorld (zoomedOnly roundF32 camQ 1) 100 0 100 100).1
              - (screenToWorld camQ 100 0 100 100).1) := by
  have h0 : (scroll_callback roundF32 camQ 100 0 100 100 1).offsetX
      = roundF32 (camQ.offsetX + ((screenToWorld (zoomedOnly roundF32 camQ 1) 100 0 100 100).1
          - (screenToWorld camQ 100 0 100 100).1)) := by
    simp only [scroll_callback, zoomedOnly, show ((1 : ℚ) > 0) from by norm_num, if_true]
  have h1 : (scroll_callback roundF32 camQ 100 0 100 100 1).offsetX
      = -6100807 / 67108864 := by
    rw [h0, camQ_after_minus_before, roundF32_camQ_offset]
  have h2 : camQ.offsetX + ((screenToWorld camQ 100 0 100 100).1
      - (screenToWorld (zoomedOnly roundF32 camQ 1) 100 0 100 100).1)
      = 838861 / 9227469 := by
    have e0 : camQ.offsetX = 0 := rfl
    linear_combination -camQ_after_minus_before + 2 * e0
  refine ⟨h1, h2, ?_, camQ_after_minus_before, ?_⟩
  · rw [h1, h2]
    norm_num
  · rw [h1, camQ_after_minus_before]
    norm_num

/-- C4 (amended), sanity check at `camQ` with the cursor in the top right corner of a
100 x 100 window and a zoom-in: with `float` stores (`roundF32`) the zoom becomes
`9227469/8388608` (`1.1f`) and `offsetX` becomes `-6100807/67108864`; where the stores are
exact the zoom becomes `11/10` and `offsetX` becomes `-1/11`. -/
theorem scroll_offset_after_minus_before_witness :
    (zoomedOnly roundF32 camQ 1).zoomScale = 9227469 / 8388608
      ∧ (scroll_callback roundF32 camQ 100 0 100 100 1).offsetX = -6100807 / 67108864
      ∧ (zoomedOnly (fun x => x) camQ 1).zoomScale = 11 / 10
      ∧ (scroll_callback (fun x => x) camQ 100 0 100 100 1).offsetX = -1 / 11 := by
  have h := scroll_offset_after_minus_before roundF32 camQ 100 0 100 100 1
  have hi := (scroll_offset_after_minus_before (fun x => x) camQ 100 0 100 100 1).2.2.2.2
    (fun _ => rfl)
  refine ⟨?_, ?_, ?_, ?_⟩
  · rw [h.1, if_pos (by norm_num)]
    exact camQ_zoom_in
  · rw [h.2.2.2.1]
    show roundF32 (camQ.offsetX + ((screenToWorld (zoomedOnly roundF32 camQ 1) 100 0 100 100).1
      - (screenToWorld camQ 100 0 100 100).1)) = _
    rw [camQ_after_minus_before, roundF32_camQ_offset]
  · rw [hi.1]; norm_num [camQ]
  · rw [hi.2]; norm_num [zoomedOnly, screenToWorld, camQ]

/-! ### Rendering -/

/-- C12 (render transform): for a camera with `zoomScale ≠ 0` and `aspectRatio ≠ 0`, the
centre of the circle that the renderer draws for the world point `(wx, wy)` lands at the
normalised device position `(zoomScale * (wx + offsetX) / aspectRatio,
zoomScale * (wy + offsetY))`; applying the formula of `screenToWorld` to that position
gives `(wx, wy)` back (so a cursor whose normalised position is the rendered position is
mapped to `(wx, wy)`), and rendering the output of `screenToWorld` lands on the normalised
cursor position.  Every vertex that `drawCircle` emits for radius `r` lands at that centre
plus `zoomScale * (cos a * r / aspectRatio, sin a * r)`. -/
theorem render_inverse (c : World α) (wx wy mx my r ca sa : α) (w h : ℤ)
    (hz : c.zoomScale ≠ 0) (ha : c.aspectRatio ≠ 0) :
    renderCentre c wx wy
        = (c.zoomScale * (wx + c.offsetX) / c.aspectRatio, c.zoomScale * (wy + c.offsetY))
      ∧ scaledByZoom c (drawCircleVertex c wx wy r ca sa)
        = ((renderCentre c wx wy).1 + c.zoomScale * (ca * r / c.aspectRatio),
           (renderCentre c wx wy).2 + c.zoomScale * (sa * r))
      ∧ (renderCentre c wx wy).1 * c.aspectRatio / c.zoomScale - c.offsetX = wx
      ∧ (renderCentre c wx wy).2 / c.zoomScale - c.offsetY = wy
      ∧ (((mx / (w : α)) * 2 - 1, 1 - (my / (h : α)) * 2) = renderCentre c wx wy →
          screenToWorld c mx my w h = (wx, wy))
      ∧ renderCentre c (screenToWorld c mx my w h).1 (screenToWorld c mx my w h).2
          = ((mx / (w : α)) * 2 - 1, 1 - (my / (h : α)) * 2) := by
  have e : renderCentre c wx wy
      = (c.zoomScale * (wx + c.offsetX) / c.aspectRatio, c.zoomScale * (wy + c.offsetY)) := by
    simp only [renderCentre, scaledByZoom, drawCircleVertex, Prod.mk.injEq]
    constructor
    · field_simp
    · ring
  refine ⟨e, ?_, ?_, ?_, ?_, ?_⟩
  · simp only [renderCentre, scaledByZoom, drawCircleVertex, Prod.mk.injEq]
    constructor <;> ring
  · rw [e]; field_simp
  · rw [e]; field_simp
  · intro hn
    rw [e, Prod.mk.injEq] at hn
    simp only [screenToWorld, Prod.mk.injEq]
    rw [hn.1, hn.2]
    constructor <;> field_simp
  · simp only [renderCentre, scaledByZoom, drawCircleVertex, screenToWorld, Prod.mk.injEq]
    constructor <;> field_simp <;> ring

/-- C12, sanity check over `ℚ`: zoom 0.3, aspect 16/9, offset (1, 0); the world point
(2, 3) is rendered at (81/160, 9/10), and the cursor pixel (40, 30) of a 100 x 100 window
is mapped to a world point that is rendered at its normalised position (-1/5, 2/5). -/
theorem render_inverse_witness :
    renderCentre ({ worldOf [] with aspectRatio := 16 / 9, offsetX := 1 } : World ℚ) 2 3
        = (81 / 160, 9 / 10)
      ∧ screenToWorld ({ worldOf [] with aspectRatio := 16 / 9, offsetX := 1 } : World ℚ)
          40 30 100 100 = (-59 / 27, 4 / 3)
      ∧ renderCentre ({ worldOf [] with aspectRatio := 16 / 9, offsetX := 1 } : World ℚ)
          (-59 / 27) (4 / 3) = (-1 / 5, 2 / 5) := by
  have h := render_inverse ({ worldOf [] with aspectRatio := 16 / 9, offsetX := 1 } : World ℚ)
    2 3 40 30 0 1 0 100 100 (by norm_num [worldOf]) (by norm_num [worldOf])
  refine ⟨?_, ?_, ?_⟩
  · rw [h.1]; norm_num [worldOf]
  · norm_num [screenToWorld, worldOf]
  · have h5 := h.2.2.2.2.2
    norm_num [screenToWorld, worldOf] at h5 ⊢
    simpa [worldOf] using h5

/-! ### The pending gravity multiplier -/

theorem nextPlanetG_updatePhysics (sqrt : α → α) (w : World α) (dt : α) :
    (updatePhysics sqrt w dt).nextPlanetG = w.nextPlanetG := by
  unfold updatePhysics
  split <;> rfl

theorem nextPlanetG_keyReset (sqrt : α → α) (inp : Input α) (w : World α) :
    (keyReset sqrt inp w).nextPlanetG = w.nextPlanetG := by
  unfold keyReset
  split <;> rfl

theorem nextPlanetG_keyPause {β : Type} (inp : Input β) (w : World β) :
    (keyPause inp w).nextPlanetG = w.nextPlanetG := by
  unfold keyPause
  dsimp only
  split <;> rfl

theorem nextPlanetG_rightClick (sqrt : α → α) (inp : Input α) (w : World α) :
    (rightClick sqrt inp w).nextPlanetG = w.nextPlanetG := by
  unfold rightClick
  split <;> rfl

theorem nextPlanetG_leftClick (inp : Input α) (w : World α) :
    (leftClick inp w).nextPlanetG = w.nextPlanetG
      ∨ (inp.leftDown = true ∧ (cursorNorm inp).2 < -0.8 ∧ |(cursorNorm inp).1| < 0.5
          ∧ (leftClick inp w).nextPlanetG = sliderValue (cursorNorm inp).1) := by
  unfold leftClick
  dsimp only
  by_cases hl : inp.leftDown = true
  · by_cases hs : (cursorNorm inp).2 < -0.8 ∧ |(cursorNorm inp).1| < 0.5
    · right
      rw [if_pos hl, if_pos hs]
      exact ⟨hl, hs.1, hs.2, rfl⟩
    · left
      rw [if_pos hl, if_neg hs]
      split <;> rfl
  · left
    rw [if_neg hl]
    split <;> rfl

theorem sliderValue_range (sx : α) (h : |sx| < 0.5) :
    sliderValue sx = 1 + (sx + 0.5) * 49 ∧ 1 ≤ sliderValue sx ∧ sliderValue sx ≤ 50 := by
  have h1 := abs_lt.mp h
  have e : sliderValue sx = 1 + (sx + 0.5) * 49 := by
    unfold sliderValue
    norm_num
  refine ⟨e, ?_, ?_⟩
  · rw [e]
    have : 0 ≤ (sx + 0.5) * 49 := by
      have : 0 < sx + 0.5 := by linarith [h1.1]
      positivity
    linarith
  · rw [e]
    have h2 : sx + 0.5 ≤ 1 := by
      have := h1.2
      norm_num at this ⊢
      linarith
    linarith

/-- C13 (pending gravity multiplier): the start-up value of `nextPlanetG` is 1; for every
normalised cursor position that the slider branch accepts (`sy < -0.8`, `|sx| < 0.5`) the
stored value is `1 + (sx + 0.5) * 49` and lies in `[1, 50]`; one iteration of the main loop
either leaves `nextPlanetG` as it was or stores the slider value of an accepted position;
`scroll_callback`, `framebuffer_size_callback`, `initSolarSystem` and `updatePhysics` do
not write it; hence the range `[1, 50]` is kept by every iteration of the main loop. -/
theorem pending_multiplier_range (sqrt : α → α) (inp : Input α) (w : World α) (sx sy : α) :
    (worldOf ([] : List (Planet α))).nextPlanetG = 1
      ∧ (sy < -0.8 → |sx| < 0.5 →
          sliderValue sx = 1 + (sx + 0.5) * 49 ∧ 1 ≤ sliderValue sx ∧ sliderValue sx ≤ 50)
      ∧ ((mainLoopStep sqrt inp w).nextPlanetG = w.nextPlanetG
          ∨ (inp.leftDown = true ∧ (cursorNorm inp).2 < -0.8 ∧ |(cursorNorm inp).1| < 0.5
              ∧ (mainLoopStep sqrt inp w).nextPlanetG = sliderValue (cursorNorm inp).1))
      ∧ (∀ (toFloat : α → α) (mx my : α) (winW winH : ℤ) (yoffset : α),
          (scroll_callback toFloat w mx my winW winH yoffset).nextPlanetG = w.nextPlanetG)
      ∧ (initSolarSystem sqrt w).nextPlanetG = w.nextPlanetG
      ∧ (∀ dt : α, (updatePhysics sqrt w dt).nextPlanetG = w.nextPlanetG)
      ∧ (∀ width height : ℤ,
          (framebuffer_size_callback w width height).nextPlanetG = w.nextPlanetG)
      ∧ (1 ≤ w.nextPlanetG ∧ w.nextPlanetG ≤ 50 →
          1 ≤ (mainLoopStep sqrt inp w).nextPlanetG
            ∧ (mainLoopStep sqrt inp w).nextPlanetG ≤ 50) := by
  have hstep : (mainLoopStep sqrt inp w).nextPlanetG = w.nextPlanetG
      ∨ (inp.leftDown = true ∧ (cursorNorm inp).2 < -0.8 ∧ |(cursorNorm inp).1| < 0.5
          ∧ (mainLoopStep sqrt inp w).nextPlanetG = sliderValue (cursorNorm inp).1) := by
    have e0 : (rightClick sqrt inp (keyPause inp (keyReset sqrt inp w))).nextPlanetG
        = w.nextPlanetG := by
      rw [nextPlanetG_rightClick, nextPlanetG_keyPause, nextPlanetG_keyReset]
    unfold mainLoopStep
    rw [nextPlanetG_updatePhysics]
    rcases nextPlanetG_leftClick inp (rightClick sqrt inp (keyPause inp (keyReset sqrt inp w)))
      with h | h
    · left; rw [h, e0]
    · right; exact h
  refine ⟨rfl, fun _ h => sliderValue_range sx h, hstep, ?_, rfl,
    fun dt => nextPlanetG_updatePhysics sqrt w dt, ?_, ?_⟩
  · intro toFloat mx my winW winH yoffset
    unfold scroll_callback
    dsimp only
    split <;> rfl
  · intro width height
    unfold framebuffer_size_callback
    split <;> rfl
  · intro hw
    rcases hstep with h | ⟨_, _, h2, h3⟩
    · rw [h]; exact hw
    · rw [h3]; exact (sliderValue_range _ h2).2

/-- C13, sanity check over `ℝ`: the slider at its middle (`sx = 0`, `sy = -0.9`) stores
25.5, and the main loop iteration for that input keeps the value in `[1, 50]`. -/
theorem pending_multiplier_range_witness :
    sliderValue (0 : ℝ) = 1 + (0 + 0.5) * 49 ∧ (1 : ℝ) ≤ sliderValue 0
      ∧ sliderValue (0 : ℝ) ≤ 50
      ∧ 1 ≤ (mainLoopStep Real.sqrt sliderInput (worldOf [] : World ℝ)).nextPlanetG
      ∧ (mainLoopStep Real.sqrt sliderInput (worldOf [] : World ℝ)).nextPlanetG ≤ 50 := by
  have h := pending_multiplier_range Real.sqrt sliderInput (worldOf [] : World ℝ) 0 (-0.9)
  have h2 := h.2.1 (by norm_num) (by norm_num)
  have h7 := h.2.2.2.2.2.2.2 (by norm_num [worldOf])
  exact ⟨h2.1, h2.2.1, h2.2.2, h7.1, h7.2⟩


/-! ### Start-up configuration -/

theorem sqrt_sq_add_zero (sqrt : α → α) (hs0 : ∀ x, 0 ≤ sqrt x)
    (hs : ∀ x, 0 ≤ x → sqrt x * sqrt x = x) (d : α) (hd : 0 ≤ d) :
    sqrt (d ^ 2 + 0 ^ 2) = d ∧ sqrt (0 ^ 2 + d ^ 2) = d := by
  have e1 : d ^ 2 + 0 ^ 2 = d * d := by ring
  have e2 : 0 ^ 2 + d ^ 2 = d * d := by ring
  have key : sqrt (d * d) = d := by
    have h1 := hs (d * d) (mul_self_nonneg d)
    have h2 := hs0 (d * d)
    nlinarith [mul_self_nonneg (sqrt (d * d) - d), mul_nonneg h2 hd]
  rw [e1, e2]
  exact ⟨key, key⟩

/-- C14 (start-up configuration): `initSolarSystem` produces exactly nine bodies, all
active with gravity multiplier 1.0; body 0 is at the origin with zero velocity, mass 2000
and radius 0.22; the eight bodies after it are, in order, at the points `(d, 0)` for
`d = 0.4, 0.7, 1.0, 1.5, 2.5, 3.5, 4.5, 5.5`, so at distance `d` from the origin, with
velocity `(0, sqrt (0.005 * 2000 / d))`, which is perpendicular to the position and has
magnitude `sqrt (0.005 * 2000 / d)` (distance and magnitude for a square root that is
non-negative and squares back on non-negative arguments); zoom is set to 0.30 and the
offset to (0, 0). -/
theorem initSolarSystem_bodies (sqrt : α → α) (w : World α)
    (hs0 : ∀ x, 0 ≤ sqrt x) (hs : ∀ x, 0 ≤ x → sqrt x * sqrt x = x) :
    (initSolarSystem sqrt w).planets.length = 9
      ∧ (∀ p ∈ (initSolarSystem sqrt w).planets, p.active = true ∧ p.gMult = 1.0)
      ∧ (∃ p0 : Planet α, (initSolarSystem sqrt w).planets[0]? = some p0
          ∧ p0.x = 0 ∧ p0.y = 0 ∧ p0.vx = 0 ∧ p0.vy = 0 ∧ p0.mass = 2000 ∧ p0.radius = 0.22)
      ∧ List.Forall₂
          (fun (p : Planet α) (d : α) =>
            p.x = d ∧ p.y = 0 ∧ p.vx = 0 ∧ p.vy = sqrt (0.005 * 2000 / d)
              ∧ sqrt (p.x ^ 2 + p.y ^ 2) = d
              ∧ p.x * p.vx + p.y * p.vy = 0
              ∧ sqrt (p.vx ^ 2 + p.vy ^ 2) = sqrt (0.005 * 2000 / d))
          ((initSolarSystem sqrt w).planets.drop 1) [0.4, 0.7, 1.0, 1.5, 2.5, 3.5, 4.5, 5.5]
      ∧ (initSolarSystem sqrt w).zoomScale = 0.30
      ∧ (initSolarSystem sqrt w).offsetX = 0
      ∧ (initSolarSystem sqrt w).offsetY = 0 := by
  have orbit : ∀ (d m r cr cg cb : α), 0 ≤ d →
      (fun (p : Planet α) (d : α) =>
            p.x = d ∧ p.y = 0 ∧ p.vx = 0 ∧ p.vy = sqrt (0.005 * 2000 / d)
              ∧ sqrt (p.x ^ 2 + p.y ^ 2) = d
              ∧ p.x * p.vx + p.y * p.vy = 0
              ∧ sqrt (p.vx ^ 2 + p.vy ^ 2) = sqrt (0.005 * 2000 / d))
        { x := d, y := 0, vx := 0, vy := sqrt ((G_CONSTANT * 2000) / d), mass := m,
          radius := r, gMult := 1, r := cr, g := cg, b := cb, active := true } d := by
    intro d m r cr cg cb hd
    refine ⟨rfl, rfl, rfl, rfl, ?_, ?_, ?_⟩
    · exact (sqrt_sq_add_zero sqrt hs0 hs d hd).1
    · simp
    · exact (sqrt_sq_add_zero sqrt hs0 hs _ (hs0 _)).2
  refine ⟨rfl, ?_, ⟨_, rfl, rfl, rfl, rfl, rfl, rfl, rfl⟩, ?_, rfl, rfl, rfl⟩
  · intro p hp
    simp only [initSolarSystem, solarPlanets, addP, List.cons_append, List.nil_append,
      List.mem_cons, List.mem_singleton, List.not_mem_nil, or_false] at hp
    rcases hp with rfl | rfl | rfl | rfl | rfl | rfl | rfl | rfl | rfl <;>
      exact ⟨rfl, by norm_num⟩
  · simp only [initSolarSystem, solarPlanets, addP, List.cons_append, List.nil_append,
      List.drop_succ_cons, List.drop_zero]
    refine List.Forall₂.cons (orbit _ _ _ _ _ _ (by norm_num)) ?_
    refine List.Forall₂.cons (orbit _ _ _ _ _ _ (by norm_num)) ?_
    refine List.Forall₂.cons (orbit _ _ _ _ _ _ (by norm_num)) ?_
    refine List.Forall₂.cons (orbit _ _ _ _ _ _ (by norm_num)) ?_
    refine List.Forall₂.cons (orbit _ _ _ _ _ _ (by norm_num)) ?_
    refine List.Forall₂.cons (orbit _ _ _ _ _ _ (by norm_num)) ?_
    refine List.Forall₂.cons (orbit _ _ _ _ _ _ (by norm_num)) ?_
    refine List.Forall₂.cons (orbit _ _ _ _ _ _ (by norm_num)) ?_
    exact List.Forall₂.nil

/-! ### Right click and spawn -/

/-- C15 (right-click removal): a right click replaces the collection by `removeNear` at
the world point under the cursor; `removeNear` at `(wx, wy)` keeps the length and the
order of the collection, and the body at each index differs from the one before at most
in its `active` flag, which afterwards is false exactly when it was false before or the
distance `sqrt ((x - wx)^2 + (y - wy)^2)` is strictly less than `radius * 1.2`. -/
theorem right_click_removal (sqrt : α → α) (inp : Input α) (w : World α) (wx wy : α)
    (ps : List (Planet α)) :
    (inp.rightDown = true → rightClick sqrt inp w
        = { w with
            planets := removeNear sqrt (screenToWorld w inp.mx inp.my inp.winW inp.winH).1
              (screenToWorld w inp.mx inp.my inp.winW inp.winH).2 w.planets })
      ∧ (removeNear sqrt wx wy ps).length = ps.length
      ∧ ∀ (k : ℕ) (p : Planet α), ps[k]? = some p →
          ∃ q : Planet α, (removeNear sqrt wx wy ps)[k]? = some q
            ∧ (q.active = false ↔
                (p.active = false ∨ sqrt ((p.x - wx) ^ 2 + (p.y - wy) ^ 2) < p.radius * 1.2))
            ∧ { q with active := p.active } = p := by
  refine ⟨?_, ?_, ?_⟩
  · intro h
    simp [rightClick, h]
  · simp [removeNear]
  · intro k p hk
    by_cases hd : sqrt ((p.x - wx) ^ 2 + (p.y - wy) ^ 2) < p.radius * 1.2
    · refine ⟨{ p with active := false }, ?_, ?_, rfl⟩
      · simp [removeNear, hk, hd]
      · simp [hd]
    · refine ⟨p, ?_, ?_, rfl⟩
      · simp [removeNear, hk, hd]
      · simp [hd]

/-- C16 (spawn): when the left button is up and `isMouseDown` is set, the left-button
block appends exactly one body after the existing ones, which stay as they are; the new
body is active, sits at the world point under the cursor, has zero velocity, radius
`(0.02 + hold * 0.05) / zoomScale`, mass `radius * 1200` and gravity multiplier
`nextPlanetG`. -/
theorem spawn_on_release (inp : Input α) (w : World α)
    (hl : inp.leftDown = false) (hd : w.isMouseDown = true) :
    ∃ nb : Planet α, (leftClick inp w).planets = w.planets ++ [nb]
      ∧ nb.active = true
      ∧ (nb.x, nb.y) = screenToWorld w inp.mx inp.my inp.winW inp.winH
      ∧ nb.vx = 0 ∧ nb.vy = 0
      ∧ nb.radius = (0.02 + (inp.time - w.clickStartTime) * 0.05) / w.zoomScale
      ∧ nb.mass = nb.radius * 1200
      ∧ nb.gMult = w.nextPlanetG := by
  simp only [leftClick, hl, hd, Bool.false_eq_true, if_false, if_true, spawn]
  exact ⟨_, rfl, rfl, rfl, rfl, rfl, rfl, rfl, rfl⟩

/-! ### The sweep as a sequence of pair steps -/

theorem pairStep_eq_pairBodies (sqrt : α → α) (dt : α) (i j : ℕ) (ps : List (Planet α))
    (pi pj : Planet α) (hi : ps[i]? = some pi) (hj : ps[j]? = some pj) :
    pairStep sqrt dt i j ps
      = (ps.set i (pairBodies sqrt dt pi pj).1).set j (pairBodies sqrt dt pi pj).2 := by
  by_cases ha : (!pi.active || !pj.active) = true
  · have e : pairBodies sqrt dt pi pj = (pi, pj) := by simp only [pairBodies, ha, if_true]
    have hj2 : (ps.set i pi)[j]? = some pj := by rw [set_of_getElem? _ _ _ hi]; exact hj
    rw [e]
    simp only [pairStep, hi, hj, ha, if_true]
    exact ((set_of_getElem? _ _ _ hj2).trans (set_of_getElem? _ _ _ hi)).symm
  · by_cases hov : sqrt (distSq pi pj) < pi.radius + pj.radius
    · have hov2 := hov
      unfold distSq at hov2
      simp only [pairStep, pairBodies, hi, hj, ha, hov, hov2, if_true, if_false,
        Bool.false_eq_true]
    · have hov2 := hov
      unfold distSq at hov2
      simp only [pairStep, pairBodies, hi, hj, ha, hov, hov2, if_false,
        Bool.false_eq_true, pulledI, pulledJ, force, distSq]

theorem pairStep_out_of_range (sqrt : α → α) (dt : α) (i j : ℕ) (ps : List (Planet α))
    (h : ps[i]? = none ∨ ps[j]? = none) : pairStep sqrt dt i j ps = ps := by
  unfold pairStep
  rcases h with h | h
  · rw [h]
  · rw [h]
    split
    · next h1 h2 => cases h2
    · rfl

theorem foldl_flatMap {β ι κ : Type} (f : β → κ → β) (g : ι → List κ) (l : List ι) :
    ∀ b : β, (l.flatMap g).foldl f b = l.foldl (fun acc i => (g i).foldl f acc) b := by
  induction l with
  | nil => intro b; rfl
  | cons a rest ih =>
    intro b
    rw [List.flatMap_cons, List.foldl_append, ih]
    rfl

theorem sweep_eq_runPairs (sqrt : α → α) (dt : α) (ps : List (Planet α)) :
    sweep sqrt dt ps = runPairs sqrt dt (pairsOf ps.length) ps := by
  unfold sweep runPairs pairsOf
  rw [foldl_flatMap]
  congr 1
  funext acc i
  unfold innerLoop
  rw [List.foldl_map]

theorem mem_pairsOf (n i j : ℕ) : (i, j) ∈ pairsOf n ↔ i < j ∧ j < n := by
  unfold pairsOf
  simp only [List.mem_flatMap, List.mem_range, List.mem_map, List.mem_range'_1,
    Prod.mk.injEq]
  constructor
  · rintro ⟨a, ha, b, ⟨hb1, hb2⟩, rfl, rfl⟩
    omega
  · rintro ⟨h1, h2⟩
    exact ⟨i, by omega, j, ⟨by omega, by omega⟩, rfl, rfl⟩

theorem pairsOf_lt (n : ℕ) (ij : ℕ × ℕ) (h : ij ∈ pairsOf n) : ij.1 < ij.2 ∧ ij.2 < n :=
  (mem_pairsOf n ij.1 ij.2).mp h

theorem pairsOf_sorted (n : ℕ) : (pairsOf n).Pairwise (fun x y => x.1 ≤ y.1) := by
  unfold pairsOf
  rw [List.pairwise_flatMap]
  constructor
  · intro i _
    apply List.pairwise_of_forall_mem_list
    intro a ha b hb
    simp only [List.mem_map] at ha hb
    obtain ⟨_, _, rfl⟩ := ha
    obtain ⟨_, _, rfl⟩ := hb
    exact le_rfl
  · refine (List.pairwise_lt_range n).imp ?_
    intro a b hab x hx y hy
    simp only [List.mem_map] at hx hy
    obtain ⟨_, _, rfl⟩ := hx
    obtain ⟨_, _, rfl⟩ := hy
    exact hab.le

theorem pairsOf_split (n i j : ℕ) (pre post : List (ℕ × ℕ))
    (h : pairsOf n = pre ++ (i, j) :: post) :
    i < j ∧ j < n ∧ (∀ ab ∈ post, ab.2 ≠ i) ∧ (∀ ab ∈ pre ++ (i, j) :: post, ab.1 < ab.2) := by
  have hmem : (i, j) ∈ pairsOf n := by rw [h]; simp
  have hij := (mem_pairsOf n i j).mp hmem
  have hs := pairsOf_sorted n
  rw [h, List.pairwise_append] at hs
  have hs2 := (List.pairwise_cons.mp hs.2.1).1
  refine ⟨hij.1, hij.2, ?_, ?_⟩
  · intro ab hab
    have h1 : i ≤ ab.1 := hs2 ab hab
    have h2 := (pairsOf_lt n ab (by rw [h]; simp [hab])).1
    omega
  · intro ab hab
    exact (pairsOf_lt n ab (by rw [h]; exact hab)).1

/-! ### Properties of single bodies kept by the sweep -/

theorem pairStep_forall (sqrt : α → α) (dt : α) (P : Planet α → Prop)
    (hP : ∀ pi pj, P pi → P pj →
      P (pairBodies sqrt dt pi pj).1 ∧ P (pairBodies sqrt dt pi pj).2)
    (i j : ℕ) (ps : List (Planet α)) (h : ∀ p ∈ ps, P p) :
    ∀ p ∈ pairStep sqrt dt i j ps, P p := by
  rcases hi : ps[i]? with _ | pi
  · rw [pairStep_out_of_range sqrt dt i j ps (Or.inl hi)]; exact h
  rcases hj : ps[j]? with _ | pj
  · rw [pairStep_out_of_range sqrt dt i j ps (Or.inr hj)]; exact h
  rw [pairStep_eq_pairBodies sqrt dt i j ps pi pj hi hj]
  have h2 := hP pi pj (h pi (List.getElem?_mem hi)) (h pj (List.getElem?_mem hj))
  intro p hp
  rcases List.mem_or_eq_of_mem_set hp with hp1 | rfl
  · rcases List.mem_or_eq_of_mem_set hp1 with hp2 | rfl
    · exact h p hp2
    · exact h2.1
  · exact h2.2

theorem runPairs_forall (sqrt : α → α) (dt : α) (P : Planet α → Prop)
    (hP : ∀ pi pj, P pi → P pj →
      P (pairBodies sqrt dt pi pj).1 ∧ P (pairBodies sqrt dt pi pj).2)
    (steps : List (ℕ × ℕ)) (ps : List (Planet α)) (h : ∀ p ∈ ps, P p) :
    ∀ p ∈ runPairs sqrt dt steps ps, P p :=
  foldl_keeps (fun l => ∀ p ∈ l, P p) _ steps
    (fun b ij _ hb => pairStep_forall sqrt dt P hP ij.1 ij.2 b hb) ps h

theorem runPairs_append (sqrt : α → α) (dt : α) (s1 s2 : List (ℕ × ℕ))
    (ps : List (Planet α)) :
    runPairs sqrt dt (s1 ++ s2) ps = runPairs sqrt dt s2 (runPairs sqrt dt s1 ps) := by
  unfold runPairs
  rw [List.foldl_append]

theorem runPairs_length (sqrt : α → α) (dt : α) (steps : List (ℕ × ℕ))
    (ps : List (Planet α)) : (runPairs sqrt dt steps ps).length = ps.length :=
  foldl_keeps (fun l => l.length = ps.length) _ steps
    (fun b ij _ hb => (pairStep_length sqrt dt ij.1 ij.2 b).trans hb) ps rfl
/-! ### Positive masses and radii -/

theorem sqrt_pos_of_pos (sqrt : α → α) (hs0 : ∀ x, 0 ≤ sqrt x)
    (hs : ∀ x, 0 ≤ x → sqrt x * sqrt x = x) (x : α) (hx : 0 < x) : 0 < sqrt x := by
  rcases (hs0 x).lt_or_eq with h | h
  · exact h
  · have h2 := hs x hx.le
    rw [← h] at h2
    simp at h2
    exact absurd h2.symm hx.ne'

theorem pairBodies_massPos (sqrt : α → α) (dt : α) (pi pj : Planet α)
    (hi : pi.active = true → 0 < pi.mass) (hj : pj.active = true → 0 < pj.mass) :
    ((pairBodies sqrt dt pi pj).1.active = true → 0 < (pairBodies sqrt dt pi pj).1.mass)
      ∧ ((pairBodies sqrt dt pi pj).2.active = true → 0 < (pairBodies sqrt dt pi pj).2.mass) := by
  unfold pairBodies
  split
  · exact ⟨hi, hj⟩
  · next ha =>
    simp only [Bool.or_eq_true, Bool.not_eq_true', not_or, Bool.not_eq_false] at ha
    split
    · refine ⟨fun _ => ?_, fun h => by simp at h⟩
      simp only [mergedInto]
      exact add_pos (hi ha.1) (hj ha.2)
    · exact ⟨fun _ => hi ha.1, fun _ => hj ha.2⟩

theorem pairBodies_healthy (sqrt : α → α) (hs0 : ∀ x, 0 ≤ sqrt x)
    (hs : ∀ x, 0 ≤ x → sqrt x * sqrt x = x) (dt : α) (pi pj : Planet α)
    (hi : pi.active = true → 0 < pi.mass ∧ 0 < pi.radius)
    (hj : pj.active = true → 0 < pj.mass ∧ 0 < pj.radius) :
    ((pairBodies sqrt dt pi pj).1.active = true →
        0 < (pairBodies sqrt dt pi pj).1.mass ∧ 0 < (pairBodies sqrt dt pi pj).1.radius)
      ∧ ((pairBodies sqrt dt pi pj).2.active = true →
        0 < (pairBodies sqrt dt pi pj).2.mass ∧ 0 < (pairBodies sqrt dt pi pj).2.radius) := by
  unfold pairBodies
  split
  · exact ⟨hi, hj⟩
  · next ha =>
    simp only [Bool.or_eq_true, Bool.not_eq_true', not_or, Bool.not_eq_false] at ha
    split
    · refine ⟨fun _ => ?_, fun h => by simp at h⟩
      simp only [mergedInto]
      refine ⟨add_pos (hi ha.1).1 (hj ha.2).1, sqrt_pos_of_pos sqrt hs0 hs _ ?_⟩
      have h1 := (hi ha.1).2
      have h2 := (hj ha.2).2
      positivity
    · exact ⟨fun _ => hi ha.1, fun _ => hj ha.2⟩

theorem eraseLoop_forall (dt : α) (P : Planet α → Prop)
    (hP : ∀ p, P p → P (moved dt p)) (ps : List (Planet α)) (h : ∀ p ∈ ps, P p) :
    ∀ p ∈ eraseLoop dt ps, P p := by
  intro p hp
  rw [eraseLoop_eq, List.mem_map] at hp
  obtain ⟨q, hq, rfl⟩ := hp
  exact hP q (h q (List.mem_filter.mp hq).1)

theorem healthy_updatePhysics (sqrt : α → α) (hs0 : ∀ x, 0 ≤ sqrt x)
    (hs : ∀ x, 0 ≤ x → sqrt x * sqrt x = x) (w : World α) (dt : α)
    (h : Healthy w.planets) : Healthy (updatePhysics sqrt w dt).planets := by
  unfold updatePhysics
  split
  · exact h
  · dsimp only
    apply eraseLoop_forall _ (fun p => p.active = true → 0 < p.mass ∧ 0 < p.radius)
      (fun p hp => hp)
    rw [sweep_eq_runPairs]
    exact runPairs_forall sqrt _ _ (pairBodies_healthy sqrt hs0 hs _) _ _ h

theorem healthy_removeNear (sqrt : α → α) (wx wy : α) (ps : List (Planet α))
    (h : Healthy ps) : Healthy (removeNear sqrt wx wy ps) := by
  intro p hp ha
  simp only [removeNear, List.mem_map] at hp
  obtain ⟨q, hq, rfl⟩ := hp
  split at ha
  · simp at ha
  · next hd => simp only [hd, if_false]; exact h q hq ha

theorem healthy_solarPlanets (sqrt : α → α) : Healthy (solarPlanets sqrt) := by
  intro p hp _
  simp only [solarPlanets, addP, List.cons_append, List.nil_append,
    List.mem_cons, List.mem_singleton, List.not_mem_nil, or_false] at hp
  rcases hp with rfl | rfl | rfl | rfl | rfl | rfl | rfl | rfl | rfl <;>
    constructor <;> norm_num

theorem healthy_spawn (inp : Input α) (w : World α) (h : Healthy w.planets)
    (hz : 0 < w.zoomScale) (ht : 0 ≤ inp.time - w.clickStartTime) :
    Healthy (spawn inp w).planets := by
  intro p hp ha
  simp only [spawn, List.mem_append, List.mem_singleton] at hp
  rcases hp with hp | rfl
  · exact h p hp ha
  · have hr : 0 < (0.02 + (inp.time - w.clickStartTime) * 0.05) / w.zoomScale := by
      have : (0 : α) < 0.02 + (inp.time - w.clickStartTime) * 0.05 := by
        have h1 : (0 : α) < 0.02 := by norm_num
        have h2 : (0 : α) ≤ (inp.time - w.clickStartTime) * 0.05 :=
          mul_nonneg ht (by norm_num)
        linarith
      exact div_pos this hz
    exact ⟨by positivity, hr⟩

/-- C11 (invariant `mass > 0`, `radius > 0` for every active body; for a square root that
is non-negative and squares back on non-negative arguments): the invariant holds after
`initSolarSystem`; it is kept by `updatePhysics` for every `dt`, merges included; it is
kept by the right-click removal; and it is kept by spawning (and by the whole left-button
block) whenever `zoomScale > 0` and the hold time `time - clickStartTime` is `≥ 0`. -/
theorem healthy_invariant (sqrt : α → α) (w : World α) (inp : Input α) (dt wx wy : α)
    (hs0 : ∀ x, 0 ≤ sqrt x) (hs : ∀ x, 0 ≤ x → sqrt x * sqrt x = x) :
    Healthy (initSolarSystem sqrt w).planets
      ∧ (Healthy w.planets → Healthy (updatePhysics sqrt w dt).planets)
      ∧ (Healthy w.planets →
          Healthy (removeNear sqrt wx wy w.planets) ∧ Healthy (rightClick sqrt inp w).planets)
      ∧ (Healthy w.planets → 0 < w.zoomScale → 0 ≤ inp.time - w.clickStartTime →
          Healthy (spawn inp w).planets ∧ Healthy (leftClick inp w).planets) := by
  refine ⟨healthy_solarPlanets sqrt, healthy_updatePhysics sqrt hs0 hs w dt, ?_, ?_⟩
  · intro h
    refine ⟨healthy_removeNear sqrt wx wy _ h, ?_⟩
    unfold rightClick
    split
    · exact healthy_removeNear sqrt _ _ _ h
    · exact h
  · intro h hz ht
    refine ⟨healthy_spawn inp w h hz ht, ?_⟩
    unfold leftClick
    dsimp only
    split
    · split
      · exact h
      · split
        · exact h
        · exact h
    · split
      · exact healthy_spawn inp w h hz ht
      · exact h

/-! ### Divisors -/

theorem massPos_runPairs (sqrt : α → α) (dt : α) (steps : List (ℕ × ℕ))
    (ps : List (Planet α)) (h : MassPos ps) : MassPos (runPairs sqrt dt steps ps) :=
  runPairs_forall sqrt dt (fun p => p.active = true → 0 < p.mass)
    (pairBodies_massPos sqrt dt) steps ps h

/-- C19 (no division by zero): let every active body of the world have `mass > 0`
(positions arbitrary).  The sweep is the loop body run over the index pairs in loop
order; in any state reached from the input collection by pair steps (`pre`), for any two
active bodies `pi`, `pj` found there, the divisors that the loop body uses are strictly
positive: `distSq = dx^2 + dy^2 + 1e-9 ≥ 1e-9`, `dist = sqrt distSq > 0` (for a square
root that is non-negative and squares back), the merged mass `nm > 0`, and
`mass_i, mass_j > 0`. -/
theorem no_zero_divisor (sqrt : α → α) (w : World α) (dt : α) (pre : List (ℕ × ℕ))
    (i j : ℕ) (pi pj : Planet α)
    (hs0 : ∀ x, 0 ≤ sqrt x) (hs : ∀ x, 0 ≤ x → sqrt x * sqrt x = x)
    (hm : MassPos w.planets)
    (hi : (runPairs sqrt (dt * PHYSICS_SPEED) pre w.planets)[i]? = some pi)
    (hj : (runPairs sqrt (dt * PHYSICS_SPEED) pre w.planets)[j]? = some pj)
    (hai : pi.active = true) (haj : pj.active = true) :
    sweep sqrt (dt * PHYSICS_SPEED) w.planets
        = runPairs sqrt (dt * PHYSICS_SPEED) (pairsOf w.planets.length) w.planets
      ∧ distSq pi pj = (pj.x - pi.x) ^ 2 + (pj.y - pi.y) ^ 2 + 1e-9
      ∧ (1e-9 : α) ≤ distSq pi pj
      ∧ 0 < sqrt (distSq pi pj)
      ∧ 0 < pi.mass + pj.mass
      ∧ 0 < pi.mass ∧ 0 < pj.mass := by
  have hm2 := massPos_runPairs sqrt (dt * PHYSICS_SPEED) pre w.planets hm
  have h1 : 0 < pi.mass := hm2 pi (List.getElem?_mem hi) hai
  have h2 : 0 < pj.mass := hm2 pj (List.getElem?_mem hj) haj
  have h3 : (1e-9 : α) ≤ distSq pi pj := by
    unfold distSq
    have a := mul_self_nonneg (pj.x - pi.x)
    have b := mul_self_nonneg (pj.y - pi.y)
    linarith
  refine ⟨sweep_eq_runPairs _ _ _, ?_, h3, sqrt_pos_of_pos sqrt hs0 hs _ (distSq_pos pi pj),
    add_pos h1 h2, h1, h2⟩
  unfold distSq
  ring

/-! ### Conservation -/

theorem sum_map_set {β : Type} (g : β → α) (l : List β) :
    ∀ (i : ℕ) (a b : β), l[i]? = some a →
      ((l.set i b).map g).sum = (l.map g).sum - g a + g b := by
  induction l with
  | nil => intro i a b h; simp at h
  | cons x rest ih =>
    intro i a b h
    cases i with
    | zero =>
      simp only [List.getElem?_cons_zero, Option.some.injEq] at h
      subst h
      simp only [List.set_cons_zero, List.map_cons, List.sum_cons]
      ring
    | succ k =>
      simp only [List.getElem?_cons_succ] at h
      simp only [List.set_cons_succ, List.map_cons, List.sum_cons, ih k a b h]
      ring

theorem activeSum_pairStep (sqrt : α → α) (dt : α) (f : Planet α → α)
    (hf : ∀ pi pj : Planet α, (pi.active = true → 0 < pi.mass) →
      (pj.active = true → 0 < pj.mass) →
      (if (pairBodies sqrt dt pi pj).1.active then f (pairBodies sqrt dt pi pj).1 else 0)
        + (if (pairBodies sqrt dt pi pj).2.active then f (pairBodies sqrt dt pi pj).2 else 0)
        = (if pi.active then f pi else 0) + (if pj.active then f pj else 0))
    (i j : ℕ) (hij : i ≠ j) (ps : List (Planet α)) (hm : MassPos ps) :
    activeSum f (pairStep sqrt dt i j ps) = activeSum f ps := by
  rcases hi : ps[i]? with _ | pi
  · rw [pairStep_out_of_range sqrt dt i j ps (Or.inl hi)]
  rcases hj : ps[j]? with _ | pj
  · rw [pairStep_out_of_range sqrt dt i j ps (Or.inr hj)]
  rw [pairStep_eq_pairBodies sqrt dt i j ps pi pj hi hj]
  have hj2 : (ps.set i (pairBodies sqrt dt pi pj).1)[j]? = some pj := by
    rw [List.getElem?_set_ne hij]; exact hj
  have h := hf pi pj (hm pi (List.getElem?_mem hi)) (hm pj (List.getElem?_mem hj))
  unfold activeSum
  rw [sum_map_set _ _ j pj _ hj2, sum_map_set _ _ i pi _ hi]
  linear_combination h

theorem activeSum_runPairs (sqrt : α → α) (dt : α) (f : Planet α → α)
    (hf : ∀ pi pj : Planet α, (pi.active = true → 0 < pi.mass) →
      (pj.active = true → 0 < pj.mass) →
      (if (pairBodies sqrt dt pi pj).1.active then f (pairBodies sqrt dt pi pj).1 else 0)
        + (if (pairBodies sqrt dt pi pj).2.active then f (pairBodies sqrt dt pi pj).2 else 0)
        = (if pi.active then f pi else 0) + (if pj.active then f pj else 0))
    (steps : List (ℕ × ℕ)) (hsteps : ∀ ij ∈ steps, ij.1 ≠ ij.2)
    (ps : List (Planet α)) (hm : MassPos ps) :
    activeSum f (runPairs sqrt dt steps ps) = activeSum f ps := by
  have key := foldl_keeps (fun l => MassPos l ∧ activeSum f l = activeSum f ps)
    (fun acc (ij : ℕ × ℕ) => pairStep sqrt dt ij.1 ij.2 acc) steps
    (fun b ij hmem hb =>
      ⟨pairStep_forall sqrt dt (fun p => p.active = true → 0 < p.mass)
          (pairBodies_massPos sqrt dt) ij.1 ij.2 b hb.1,
        (activeSum_pairStep sqrt dt f hf ij.1 ij.2 (hsteps ij hmem) b hb.1).trans hb.2⟩)
    ps ⟨hm, rfl⟩
  exact key.2

theorem activeSum_eraseLoop (dt : α) (f : Planet α → α)
    (hf : ∀ p, f (moved dt p) = f p) (ps : List (Planet α)) :
    activeSum f (eraseLoop dt ps) = activeSum f ps := by
  induction ps with
  | nil => rfl
  | cons p rest ih =>
    unfold activeSum at ih ⊢
    by_cases hp : p.active = true
    · have e : (moved dt p).active = true := hp
      simp only [eraseLoop, hp, Bool.not_true, Bool.false_eq_true, if_false, List.map_cons,
        List.sum_cons, e, if_true, hf, ih]
    · simp only [Bool.not_eq_true] at hp
      simp only [eraseLoop, hp, Bool.not_false, if_true, List.map_cons, List.sum_cons,
        Bool.false_eq_true, if_false, zero_add, ih]

theorem pairBodies_mass_sum (sqrt : α → α) (dt : α) (pi pj : Planet α)
    (_hi : pi.active = true → 0 < pi.mass) (_hj : pj.active = true → 0 < pj.mass) :
    (if (pairBodies sqrt dt pi pj).1.active then (pairBodies sqrt dt pi pj).1.mass else 0)
      + (if (pairBodies sqrt dt pi pj).2.active then (pairBodies sqrt dt pi pj).2.mass else 0)
      = (if pi.active then pi.mass else 0) + (if pj.active then pj.mass else 0) := by
  unfold pairBodies
  split
  · rfl
  · next ha =>
    simp only [Bool.or_eq_true, Bool.not_eq_true', not_or, Bool.not_eq_false] at ha
    split
    · simp [mergedInto, ha.1, ha.2]
    · simp [pulledI, pulledJ, ha.1, ha.2]

theorem pairBodies_px_sum (sqrt : α → α) (dt : α) (pi pj : Planet α)
    (hi : pi.active = true → 0 < pi.mass) (hj : pj.active = true → 0 < pj.mass) :
    (if (pairBodies sqrt dt pi pj).1.active
        then (pairBodies sqrt dt pi pj).1.mass * (pairBodies sqrt dt pi pj).1.vx else 0)
      + (if (pairBodies sqrt dt pi pj).2.active
        then (pairBodies sqrt dt pi pj).2.mass * (pairBodies sqrt dt pi pj).2.vx else 0)
      = (if pi.active then pi.mass * pi.vx else 0)
        + (if pj.active then pj.mass * pj.vx else 0) := by
  unfold pairBodies
  split
  · rfl
  · next ha =>
    simp only [Bool.or_eq_true, Bool.not_eq_true', not_or, Bool.not_eq_false] at ha
    have h1 := hi ha.1
    have h2 := hj ha.2
    have h3 : pi.mass + pj.mass ≠ 0 := (add_pos h1 h2).ne'
    split
    · simp only [mergedInto, ha.1, ha.2, if_true, Bool.false_eq_true, if_false, add_zero]
      field_simp
      ring
    · simp only [pulledI, pulledJ, ha.1, ha.2, if_true]
      have e1 := mul_inv_cancel₀ h1.ne'
      have e2 := mul_inv_cancel₀ h2.ne'
      simp only [div_eq_mul_inv]
      linear_combination
        (force pi pj * (pj.x - pi.x) * (sqrt (distSq pi pj))⁻¹ * dt) * e1
        - (force pi pj * (pj.x - pi.x) * (sqrt (distSq pi pj))⁻¹ * dt) * e2

theorem pairBodies_py_sum (sqrt : α → α) (dt : α) (pi pj : Planet α)
    (hi : pi.active = true → 0 < pi.mass) (hj : pj.active = true → 0 < pj.mass) :
    (if (pairBodies sqrt dt pi pj).1.active
        then (pairBodies sqrt dt pi pj).1.mass * (pairBodies sqrt dt pi pj).1.vy else 0)
      + (if (pairBodies sqrt dt pi pj).2.active
        then (pairBodies sqrt dt pi pj).2.mass * (pairBodies sqrt dt pi pj).2.vy else 0)
      = (if pi.active then pi.mass * pi.vy else 0)
        + (if pj.active then pj.mass * pj.vy else 0) := by
  unfold pairBodies
  split
  · rfl
  · next ha =>
    simp only [Bool.or_eq_true, Bool.not_eq_true', not_or, Bool.not_eq_false] at ha
    have h1 := hi ha.1
    have h2 := hj ha.2
    have h3 : pi.mass + pj.mass ≠ 0 := (add_pos h1 h2).ne'
    split
    · simp only [mergedInto, ha.1, ha.2, if_true, Bool.false_eq_true, if_false, add_zero]
      field_simp
      ring
    · simp only [pulledI, pulledJ, ha.1, ha.2, if_true]
      have e1 := mul_inv_cancel₀ h1.ne'
      have e2 := mul_inv_cancel₀ h2.ne'
      simp only [div_eq_mul_inv]
      linear_combination
        (force pi pj * (pj.y - pi.y) * (sqrt (distSq pi pj))⁻¹ * dt) * e1
        - (force pi pj * (pj.y - pi.y) * (sqrt (distSq pi pj))⁻¹ * dt) * e2

theorem activeSum_updatePhysics (sqrt : α → α) (w : World α) (dt : α) (f : Planet α → α)
    (hf : ∀ pi pj : Planet α, (pi.active = true → 0 < pi.mass) →
      (pj.active = true → 0 < pj.mass) →
      (if (pairBodies sqrt (dt * PHYSICS_SPEED) pi pj).1.active
          then f (pairBodies sqrt (dt * PHYSICS_SPEED) pi pj).1 else 0)
        + (if (pairBodies sqrt (dt * PHYSICS_SPEED) pi pj).2.active
          then f (pairBodies sqrt (dt * PHYSICS_SPEED) pi pj).2 else 0)
        = (if pi.active then f pi else 0) + (if pj.active then f pj else 0))
    (hmv : ∀ p, f (moved (dt * PHYSICS_SPEED) p) = f p)
    (hm : MassPos w.planets) :
    activeSum f (updatePhysics sqrt w dt).planets = activeSum f w.planets := by
  unfold updatePhysics
  split
  · rfl
  · dsimp only
    rw [activeSum_eraseLoop _ f hmv, sweep_eq_runPairs]
    exact activeSum_runPairs sqrt _ f hf _
      (fun ij h => (pairsOf_lt _ ij h).1.ne) _ hm

/-- C20 (whole-step conservation): for an unpaused world in which every active body has
`mass > 0`, and any `dt`, the sum over the active bodies of `mass * vx`, of `mass * vy`
and of `mass` is the same after `updatePhysics` as before, whatever merges and pulls the
sweep performs. -/
theorem step_conservation (sqrt : α → α) (w : World α) (dt : α)
    (_hp : w.isPaused = false) (hm : MassPos w.planets) :
    activeSum (fun p => p.mass * p.vx) (updatePhysics sqrt w dt).planets
        = activeSum (fun p => p.mass * p.vx) w.planets
      ∧ activeSum (fun p => p.mass * p.vy) (updatePhysics sqrt w dt).planets
        = activeSum (fun p => p.mass * p.vy) w.planets
      ∧ activeSum (fun p => p.mass) (updatePhysics sqrt w dt).planets
        = activeSum (fun p => p.mass) w.planets :=
  ⟨activeSum_updatePhysics sqrt w dt _ (pairBodies_px_sum sqrt _) (fun _ => rfl) hm,
   activeSum_updatePhysics sqrt w dt _ (pairBodies_py_sum sqrt _) (fun _ => rfl) hm,
   activeSum_updatePhysics sqrt w dt _ (pairBodies_mass_sum sqrt _) (fun _ => rfl) hm⟩

/-- C14, sanity check: `initSolarSystem_bodies` over `ℝ` with `Real.sqrt`. -/
theorem initSolarSystem_bodies_witness :
    (initSolarSystem Real.sqrt (worldOf [] : World ℝ)).planets.length = 9
      ∧ (∃ p0 : Planet ℝ, (initSolarSystem Real.sqrt (worldOf [] : World ℝ)).planets[0]?
            = some p0 ∧ p0.mass = 2000 ∧ p0.radius = 0.22)
      ∧ (initSolarSystem Real.sqrt (worldOf [] : World ℝ)).zoomScale = 0.30 := by
  have h := initSolarSystem_bodies Real.sqrt (worldOf [] : World ℝ) Real.sqrt_nonneg
    (fun x hx => Real.mul_self_sqrt hx)
  obtain ⟨p0, h0, _, _, _, _, hm, hr⟩ := h.2.2.1
  exact ⟨h.1, ⟨p0, h0, hm, hr⟩, h.2.2.2.2.1⟩

/-- C15, sanity check over `ℝ` with `Real.sqrt`: a right click at (0.05, 0) deactivates
the body of radius 0.1 at the origin and changes nothing else in it. -/
theorem right_click_removal_witness :
    ∃ q : Planet ℝ,
      (removeNear Real.sqrt 0.05 0 [body 0 0 1 0 1 0.1 1, body 5 5 0 0 1 0.1 1])[0]? = some q
        ∧ q.active = false ∧ { q with active := true } = body 0 0 1 0 1 0.1 1 := by
  obtain ⟨q, hq, hiff, hsame⟩ :=
    (right_click_removal Real.sqrt releaseInput (worldOf [] : World ℝ) 0.05 0
      [body 0 0 1 0 1 0.1 1, body 5 5 0 0 1 0.1 1]).2.2 0 (body 0 0 1 0 1 0.1 1) rfl
  refine ⟨q, hq, hiff.mpr (Or.inr ?_), hsame⟩
  simp only [body]
  rw [Real.sqrt_lt' (by norm_num)]
  norm_num

/-- C16, sanity check over `ℝ`: release 2 seconds after the press at zoom 0.30 appends
one active body of radius 0.4 and mass 480 with the pending multiplier 1. -/
theorem spawn_on_release_witness :
    ∃ nb : Planet ℝ,
      (leftClick releaseInput ({ worldOf [tiny] with isMouseDown := true } : World ℝ)).planets
          = [tiny, nb]
        ∧ nb.active = true ∧ nb.radius = 0.4 ∧ nb.mass = 480 ∧ nb.gMult = 1 := by
  obtain ⟨nb, hp, ha, _, _, _, hr, hm, hg⟩ :=
    spawn_on_release releaseInput ({ worldOf [tiny] with isMouseDown := true } : World ℝ)
      rfl rfl
  have hr2 : nb.radius = 0.4 := by
    rw [hr]; norm_num [releaseInput, worldOf]
  refine ⟨nb, hp, ha, hr2, ?_, hg⟩
  rw [hm, hr2]; norm_num

/-! ### What a pair step leaves alone -/

theorem pairStep_inactive_fixed (sqrt : α → α) (dt : α) (i j k : ℕ) (ps : List (Planet α))
    (q : Planet α) (hk : ps[k]? = some q) (hq : q.active = false) :
    (pairStep sqrt dt i j ps)[k]? = some q := by
  rcases hi : ps[i]? with _ | pi
  · rw [pairStep_out_of_range sqrt dt i j ps (Or.inl hi)]; exact hk
  rcases hj : ps[j]? with _ | pj
  · rw [pairStep_out_of_range sqrt dt i j ps (Or.inr hj)]; exact hk
  by_cases h1 : k = i
  · subst h1
    rw [hk] at hi
    cases hi
    rw [pairStep_eq_self sqrt dt k j ps (fun a b ha _ => by
      rw [hk] at ha; cases ha; exact Or.inl hq)]
    exact hk
  by_cases h2 : k = j
  · subst h2
    rw [hk] at hj
    cases hj
    rw [pairStep_eq_self sqrt dt i k ps (fun a b _ hb => by
      rw [hk] at hb; cases hb; exact Or.inr hq)]
    exact hk
  rw [pairStep_eq_pairBodies sqrt dt i j ps pi pj hi hj,
    List.getElem?_set_ne (Ne.symm h2), List.getElem?_set_ne (Ne.symm h1)]
  exact hk

theorem runPairs_inactive_fixed (sqrt : α → α) (dt : α) (k : ℕ) (q : Planet α)
    (hq : q.active = false) (steps : List (ℕ × ℕ)) (ps : List (Planet α))
    (hk : ps[k]? = some q) : (runPairs sqrt dt steps ps)[k]? = some q :=
  foldl_keeps (fun l => l[k]? = some q) _ steps
    (fun b ij _ hb => pairStep_inactive_fixed sqrt dt ij.1 ij.2 k b q hb hq) ps hk

theorem pairBodies_fst_active (sqrt : α → α) (dt : α) (pi pj : Planet α) :
    (pairBodies sqrt dt pi pj).1.active = pi.active := by
  unfold pairBodies
  split
  · rfl
  · split <;> rfl

theorem pairStep_active_of_ne (sqrt : α → α) (dt : α) (i j k : ℕ) (ps : List (Planet α))
    (hkj : k ≠ j) (h : ∃ q, ps[k]? = some q ∧ q.active = true) :
    ∃ q, (pairStep sqrt dt i j ps)[k]? = some q ∧ q.active = true := by
  obtain ⟨q, hk, hq⟩ := h
  rcases hi : ps[i]? with _ | pi
  · rw [pairStep_out_of_range sqrt dt i j ps (Or.inl hi)]; exact ⟨q, hk, hq⟩
  rcases hj : ps[j]? with _ | pj
  · rw [pairStep_out_of_range sqrt dt i j ps (Or.inr hj)]; exact ⟨q, hk, hq⟩
  rw [pairStep_eq_pairBodies sqrt dt i j ps pi pj hi hj, List.getElem?_set_ne (Ne.symm hkj)]
  by_cases h1 : k = i
  · subst h1
    rw [hk] at hi
    cases hi
    have hl : k < ps.length := (List.getElem?_eq_some_iff.mp hk).1
    rw [List.getElem?_set_self hl]
    exact ⟨_, rfl, (pairBodies_fst_active sqrt dt q pj).trans hq⟩
  · rw [List.getElem?_set_ne (Ne.symm h1)]
    exact ⟨q, hk, hq⟩

theorem runPairs_active_of_ne (sqrt : α → α) (dt : α) (k : ℕ) (steps : List (ℕ × ℕ))
    (hsteps : ∀ ab ∈ steps, ab.2 ≠ k) (ps : List (Planet α))
    (h : ∃ q, ps[k]? = some q ∧ q.active = true) :
    ∃ q, (runPairs sqrt dt steps ps)[k]? = some q ∧ q.active = true :=
  foldl_keeps (fun l => ∃ q, l[k]? = some q ∧ q.active = true) _ steps
    (fun b ij hmem hb =>
      pairStep_active_of_ne sqrt dt ij.1 ij.2 k b (Ne.symm (hsteps ij hmem)) hb) ps h

theorem eraseLoop_eraseIdx (dt : α) (ps : List (Planet α)) :
    ∀ (j : ℕ) (q : Planet α), ps[j]? = some q → q.active = false →
      eraseLoop dt (ps.eraseIdx j) = eraseLoop dt ps := by
  induction ps with
  | nil => intro j q h; simp at h
  | cons p rest ih =>
    intro j q h hq
    cases j with
    | zero =>
      simp only [List.getElem?_cons_zero, Option.some.injEq] at h
      subst h
      simp [eraseLoop, hq]
    | succ k =>
      simp only [List.getElem?_cons_succ] at h
      simp only [List.eraseIdx_cons_succ, eraseLoop, ih k q h hq]

theorem getElem?_of_map_ident {β : Type} (l1 l2 : List (Planet β))
    (h : l1.map ident = l2.map ident) (k : ℕ) (q : Planet β) (hk : l1[k]? = some q) :
    ∃ p, l2[k]? = some p ∧ ident q = ident p := by
  have h1 : (l1.map ident)[k]? = some (ident q) := by simp [hk]
  rw [h, List.getElem?_map] at h1
  rcases hp : l2[k]? with _ | p
  · rw [hp] at h1; simp at h1
  · rw [hp] at h1
    simp only [Option.map_some', Option.some.injEq] at h1
    exact ⟨p, rfl, h1.symm⟩


/-! ### The sweep, body by body -/

theorem pairStep_cons_succ (sqrt : α → α) (dt : α) (i j : ℕ) (p : Planet α)
    (l : List (Planet α)) :
    pairStep sqrt dt (i + 1) (j + 1) (p :: l) = p :: pairStep sqrt dt i j l := by
  rcases hi : l[i]? with _ | pi
  · rw [pairStep_out_of_range sqrt dt i j l (Or.inl hi),
      pairStep_out_of_range sqrt dt (i + 1) (j + 1) (p :: l) (Or.inl (by simpa using hi))]
  rcases hj : l[j]? with _ | pj
  · rw [pairStep_out_of_range sqrt dt i j l (Or.inr hj),
      pairStep_out_of_range sqrt dt (i + 1) (j + 1) (p :: l) (Or.inr (by simpa using hj))]
  rw [pairStep_eq_pairBodies sqrt dt i j l pi pj hi hj,
    pairStep_eq_pairBodies sqrt dt (i + 1) (j + 1) (p :: l) pi pj (by simpa using hi)
      (by simpa using hj)]
  rfl

theorem foldl_pairStep_cons_succ (sqrt : α → α) (dt : α) (i : ℕ) (p : Planet α) :
    ∀ (m s : ℕ) (acc : List (Planet α)),
      (List.range' (s + 1) m).foldl (fun acc j => pairStep sqrt dt (i + 1) j acc) (p :: acc)
        = p :: (List.range' s m).foldl (fun acc j => pairStep sqrt dt i j acc) acc := by
  intro m
  induction m with
  | zero => intro s acc; rfl
  | succ k ih =>
    intro s acc
    rw [List.range'_succ, List.range'_succ, List.foldl_cons, List.foldl_cons,
      pairStep_cons_succ, ih]

theorem innerLoop_cons_succ (sqrt : α → α) (dt : α) (n i : ℕ) (p : Planet α)
    (l : List (Planet α)) :
    innerLoop sqrt dt (n + 1) (i + 1) (p :: l) = p :: innerLoop sqrt dt n i l := by
  unfold innerLoop
  have e : n + 1 - (i + 1 + 1) = n - (i + 1) := by omega
  rw [e]
  exact foldl_pairStep_cons_succ sqrt dt i p _ _ l

theorem set_append_length {β : Type} (done : List β) (q q1 : β) (rest : List β) :
    (done ++ q :: rest).set done.length q1 = done ++ q1 :: rest := by
  induction done with
  | nil => rfl
  | cons a d ih => simp only [List.cons_append, List.length_cons, List.set_cons_succ, ih]

theorem getElem?_append_length {β : Type} (done : List β) (q : β) (rest : List β) :
    (done ++ q :: rest)[done.length]? = some q := by
  induction done with
  | nil => simp
  | cons a d ih => simpa using ih

theorem foldl_pairStep_zero (sqrt : α → α) (dt : α) :
    ∀ (todo : List (Planet α)) (p : Planet α) (done : List (Planet α)),
      (List.range' (done.length + 1) todo.length).foldl
          (fun acc j => pairStep sqrt dt 0 j acc) (p :: (done ++ todo))
        = (interact sqrt dt p todo).1 :: (done ++ (interact sqrt dt p todo).2) := by
  intro todo
  induction todo with
  | nil => intro p done; rfl
  | cons q rest ih =>
    intro p done
    have h0 : (p :: (done ++ q :: rest))[0]? = some p := by simp
    have h1 : (p :: (done ++ q :: rest))[done.length + 1]? = some q := by
      rw [List.getElem?_cons_succ]; exact getElem?_append_length done q rest
    rw [List.length_cons, List.range'_succ, List.foldl_cons,
      pairStep_eq_pairBodies sqrt dt 0 (done.length + 1) _ p q h0 h1]
    simp only [List.set_cons_zero, List.set_cons_succ, set_append_length]
    have e : done ++ (pairBodies sqrt dt p q).2 :: rest
        = (done ++ [(pairBodies sqrt dt p q).2]) ++ rest := by simp
    have e2 : done.length + 1 = (done ++ [(pairBodies sqrt dt p q).2]).length := by simp
    rw [e, e2, ih]
    simp [interact]

theorem interact_length (sqrt : α → α) (dt : α) :
    ∀ (l : List (Planet α)) (p : Planet α), (interact sqrt dt p l).2.length = l.length := by
  intro l
  induction l with
  | nil => intro p; rfl
  | cons q rest ih => intro p; simp [interact, ih]

theorem innerLoop_zero (sqrt : α → α) (dt : α) (p : Planet α) (l : List (Planet α)) :
    innerLoop sqrt dt (l.length + 1) 0 (p :: l)
      = (interact sqrt dt p l).1 :: (interact sqrt dt p l).2 := by
  unfold innerLoop
  have h := foldl_pairStep_zero sqrt dt l p []
  simpa using h

theorem foldl_innerLoop_cons (sqrt : α → α) (dt : α) (n : ℕ) (p : Planet α) :
    ∀ (idx : List ℕ) (acc : List (Planet α)),
      idx.foldl (fun acc i => innerLoop sqrt dt (n + 1) (i + 1) acc) (p :: acc)
        = p :: idx.foldl (fun acc i => innerLoop sqrt dt n i acc) acc := by
  intro idx
  induction idx with
  | nil => intro acc; rfl
  | cons a rest ih =>
    intro acc
    rw [List.foldl_cons, List.foldl_cons, innerLoop_cons_succ, ih]

theorem sweep_cons (sqrt : α → α) (dt : α) (p : Planet α) (l : List (Planet α)) :
    sweep sqrt dt (p :: l)
      = (interact sqrt dt p l).1 :: sweep sqrt dt (interact sqrt dt p l).2 := by
  unfold sweep
  rw [List.length_cons, List.range_succ_eq_map, List.foldl_cons, List.foldl_map,
    innerLoop_zero, interact_length]
  exact foldl_innerLoop_cons sqrt dt l.length _ _ _

theorem pairBodies_inactive (sqrt : α → α) (dt : α) (p q : Planet α)
    (h : p.active = false ∨ q.active = false) : pairBodies sqrt dt p q = (p, q) := by
  unfold pairBodies
  rcases h with h | h <;> simp [h]

theorem interact_inactive (sqrt : α → α) (dt : α) (p : Planet α) (hp : p.active = false) :
    ∀ l : List (Planet α), interact sqrt dt p l = (p, l) := by
  intro l
  induction l with
  | nil => rfl
  | cons q rest ih =>
    simp only [interact, pairBodies_inactive sqrt dt p q (Or.inl hp), ih]

/-! ### Leaving inactive bodies out -/

theorem dropsInactive_filter {β : Type} (l : List (Planet β)) :
    DropsInactive l (l.filter (fun p => p.active)) := by
  induction l with
  | nil => exact DropsInactive.nil
  | cons p rest ih =>
    by_cases hp : p.active = true
    · simp only [List.filter_cons, hp, if_true]
      exact DropsInactive.keep p ih
    · simp only [List.filter_cons, hp, if_false]
      exact DropsInactive.drop p (by simpa using hp) ih

theorem interact_drops (sqrt : α → α) (dt : α) {l m : List (Planet α)}
    (h : DropsInactive l m) :
    ∀ p : Planet α, (interact sqrt dt p l).1 = (interact sqrt dt p m).1
      ∧ DropsInactive (interact sqrt dt p l).2 (interact sqrt dt p m).2 := by
  induction h with
  | nil => intro p; exact ⟨rfl, DropsInactive.nil⟩
  | keep q _ ih =>
    intro p
    have h2 := ih (pairBodies sqrt dt p q).1
    exact ⟨h2.1, DropsInactive.keep _ h2.2⟩
  | drop q hq _ ih =>
    intro p
    have h2 := ih p
    simp only [interact, pairBodies_inactive sqrt dt p q (Or.inr hq)]
    exact ⟨h2.1, DropsInactive.drop q hq h2.2⟩

theorem sweep_drops (sqrt : α → α) (dt : α) :
    ∀ (n : ℕ) (l m : List (Planet α)), l.length ≤ n → DropsInactive l m →
      DropsInactive (sweep sqrt dt l) (sweep sqrt dt m) := by
  intro n
  induction n with
  | zero =>
    intro l m hl h
    have hl0 : l = [] := List.length_eq_zero.mp (by omega)
    subst hl0
    cases h
    exact DropsInactive.nil
  | succ k ih =>
    intro l m hl h
    cases h with
    | nil => exact DropsInactive.nil
    | keep p h2 =>
      rw [sweep_cons, sweep_cons]
      have h3 := interact_drops sqrt dt h2 p
      rw [← h3.1]
      refine DropsInactive.keep _ (ih _ _ ?_ h3.2)
      rw [interact_length]
      simpa using hl
    | drop p hp h2 =>
      rw [sweep_cons, interact_inactive sqrt dt p hp]
      exact DropsInactive.drop p hp (ih _ _ (by simpa using hl) h2)

theorem eraseLoop_drops (dt : α) {l m : List (Planet α)} (h : DropsInactive l m) :
    eraseLoop dt l = eraseLoop dt m := by
  induction h with
  | nil => rfl
  | keep p _ ih => simp only [eraseLoop, ih]
  | drop p hp _ ih => simp only [eraseLoop, hp, Bool.not_false, if_true, ih]

/-- C17 (inactive bodies take part in nothing): for an unpaused world and any `dt`,
`updatePhysics` gives the same world as `updatePhysics` on the world whose collection has
the inactive bodies filtered out first; in any state in which a body `k` is inactive, a
pair step for a pair that contains `k` changes nothing at all; and through any sequence
of pair steps an inactive body stays exactly as it is (so a body deactivated by a merge
is inactive in every later pair of the sweep). -/
theorem inactive_take_no_part (sqrt : α → α) (w : World α) (dt : α)
    (hp : w.isPaused = false) :
    updatePhysics sqrt w dt
        = updatePhysics sqrt { w with planets := w.planets.filter (fun p => p.active) } dt
      ∧ (∀ (t : List (Planet α)) (i j k : ℕ) (q : Planet α),
          t[k]? = some q → q.active = false → k = i ∨ k = j →
          pairStep sqrt (dt * PHYSICS_SPEED) i j t = t)
      ∧ (∀ (steps : List (ℕ × ℕ)) (t : List (Planet α)) (k : ℕ) (q : Planet α),
          t[k]? = some q → q.active = false →
          (runPairs sqrt (dt * PHYSICS_SPEED) steps t)[k]? = some q) := by
  refine ⟨?_, ?_, ?_⟩
  · have h := eraseLoop_drops (dt * PHYSICS_SPEED)
      (sweep_drops sqrt (dt * PHYSICS_SPEED) _ _ _ le_rfl (dropsInactive_filter w.planets))
    unfold updatePhysics
    simp only [hp, Bool.false_eq_true, if_false, h]
  · intro t i j k q hk hq hkij
    apply pairStep_eq_self
    intro a b ha hb
    rcases hkij with rfl | rfl
    · rw [hk] at ha; cases ha; exact Or.inl hq
    · rw [hk] at hb; cases hb; exact Or.inr hq
  · intro steps t k q hk hq
    exact runPairs_inactive_fixed sqrt _ k q hq steps t hk

/-! ### The survivor of a merge -/

/-- C18 (survivor of a merge): let the sweep of an unpaused world reach the pair `(i, j)`
(the pairs `pre` come before it in loop order, the pairs `post` after it) with both bodies
active and overlapping.  Then `i < j`; right after that pair step body `i` is active, has
its position, gravity multiplier and colour as before the step and exactly the
mass-weighted mean velocity (no gravitational term), and body `j` is as before except
that it is inactive.  When the sweep has finished, body `i` is still active with the
gravity multiplier and colour of the input body `i`, it is in the resulting collection at
the input position of body `i` plus `velocity * dt * 0.07` for its final velocity, body
`j` is still the deactivated body, and the resulting collection is the one obtained
without index `j`. -/
theorem merge_survivor (sqrt : α → α) (w : World α) (dt : α) (pre post : List (ℕ × ℕ))
    (i j : ℕ) (pi pj : Planet α) (hp : w.isPaused = false)
    (hsplit : pairsOf w.planets.length = pre ++ (i, j) :: post)
    (hi : (runPairs sqrt (dt * PHYSICS_SPEED) pre w.planets)[i]? = some pi)
    (hj : (runPairs sqrt (dt * PHYSICS_SPEED) pre w.planets)[j]? = some pj)
    (hai : pi.active = true) (haj : pj.active = true)
    (hov : sqrt ((pj.x - pi.x) ^ 2 + (pj.y - pi.y) ^ 2 + 1e-9) < pi.radius + pj.radius) :
    i < j
      ∧ (∃ mi : Planet α,
          (runPairs sqrt (dt * PHYSICS_SPEED) (pre ++ [(i, j)]) w.planets)[i]? = some mi
          ∧ mi.active = true ∧ ident mi = ident pi
          ∧ mi.vx = (pi.vx * pi.mass + pj.vx * pj.mass) / (pi.mass + pj.mass)
          ∧ mi.vy = (pi.vy * pi.mass + pj.vy * pj.mass) / (pi.mass + pj.mass))
      ∧ (runPairs sqrt (dt * PHYSICS_SPEED) (pre ++ [(i, j)]) w.planets)[j]?
          = some { pj with active := false }
      ∧ (∃ p0 qi : Planet α, w.planets[i]? = some p0
          ∧ (sweep sqrt (dt * PHYSICS_SPEED) w.planets)[i]? = some qi
          ∧ qi.active = true ∧ tag qi = tag p0
          ∧ moved (dt * PHYSICS_SPEED) qi ∈ (updatePhysics sqrt w dt).planets
          ∧ (moved (dt * PHYSICS_SPEED) qi).x = p0.x + qi.vx * dt * 0.07
          ∧ (moved (dt * PHYSICS_SPEED) qi).y = p0.y + qi.vy * dt * 0.07
          ∧ (moved (dt * PHYSICS_SPEED) qi).vx = qi.vx
          ∧ (moved (dt * PHYSICS_SPEED) qi).vy = qi.vy)
      ∧ (sweep sqrt (dt * PHYSICS_SPEED) w.planets)[j]? = some { pj with active := false }
      ∧ (updatePhysics sqrt w dt).planets
          = eraseLoop (dt * PHYSICS_SPEED)
              ((sweep sqrt (dt * PHYSICS_SPEED) w.planets).eraseIdx j) := by
  obtain ⟨hij, _, hpost, _⟩ := pairsOf_split _ i j pre post hsplit
  have hov2 : sqrt (distSq pi pj) < pi.radius + pj.radius := by
    have e : distSq pi pj = (pj.x - pi.x) ^ 2 + (pj.y - pi.y) ^ 2 + 1e-9 := by
      unfold distSq; ring
    rw [e]; exact hov
  have hpb : pairBodies sqrt (dt * PHYSICS_SPEED) pi pj
      = (mergedInto sqrt pi pj, { pj with active := false }) := by
    simp [pairBodies, hai, haj, hov2]
  have hil : i < (runPairs sqrt (dt * PHYSICS_SPEED) pre w.planets).length :=
    (List.getElem?_eq_some_iff.mp hi).1
  have hjl : j < (runPairs sqrt (dt * PHYSICS_SPEED) pre w.planets).length :=
    (List.getElem?_eq_some_iff.mp hj).1
  have hstep : runPairs sqrt (dt * PHYSICS_SPEED) (pre ++ [(i, j)]) w.planets
      = ((runPairs sqrt (dt * PHYSICS_SPEED) pre w.planets).set i
          (mergedInto sqrt pi pj)).set j { pj with active := false } := by
    rw [runPairs_append]
    show pairStep sqrt (dt * PHYSICS_SPEED) i j _ = _
    rw [pairStep_eq_pairBodies sqrt _ i j _ pi pj hi hj, hpb]
  have hmi : (runPairs sqrt (dt * PHYSICS_SPEED) (pre ++ [(i, j)]) w.planets)[i]?
      = some (mergedInto sqrt pi pj) := by
    rw [hstep, List.getElem?_set_ne (by omega), List.getElem?_set_self hil]
  have hmj : (runPairs sqrt (dt * PHYSICS_SPEED) (pre ++ [(i, j)]) w.planets)[j]?
      = some { pj with active := false } := by
    rw [hstep, List.getElem?_set_self (by simpa using hjl)]
  have hsw : sweep sqrt (dt * PHYSICS_SPEED) w.planets
      = runPairs sqrt (dt * PHYSICS_SPEED) post
          (runPairs sqrt (dt * PHYSICS_SPEED) (pre ++ [(i, j)]) w.planets) := by
    rw [sweep_eq_runPairs, hsplit, ← runPairs_append]
    simp
  have hfj : (sweep sqrt (dt * PHYSICS_SPEED) w.planets)[j]?
      = some { pj with active := false } := by
    rw [hsw]
    exact runPairs_inactive_fixed sqrt _ j _ rfl post _ hmj
  obtain ⟨qi, hqi, hqa⟩ : ∃ q, (sweep sqrt (dt * PHYSICS_SPEED) w.planets)[i]? = some q
      ∧ q.active = true := by
    rw [hsw]
    exact runPairs_active_of_ne sqrt _ i post hpost _ ⟨_, hmi, hai⟩
  obtain ⟨p0, hp0, hid⟩ := getElem?_of_map_ident _ _
    (sweep_ident sqrt (dt * PHYSICS_SPEED) w.planets) i qi hqi
  have hout : (updatePhysics sqrt w dt).planets
      = eraseLoop (dt * PHYSICS_SPEED) (sweep sqrt (dt * PHYSICS_SPEED) w.planets) := by
    simp [updatePhysics, hp]
  simp only [ident, Prod.mk.injEq] at hid
  refine ⟨hij, ⟨_, hmi, hai, rfl, rfl, rfl⟩, hmj, ⟨p0, qi, hp0, hqi, hqa, ?_, ?_, ?_, ?_,
    rfl, rfl⟩, hfj, ?_⟩
  · simp only [tag, Prod.mk.injEq]
    exact ⟨hid.2.2.1, hid.2.2.2.1, hid.2.2.2.2.1, hid.2.2.2.2.2⟩
  · rw [hout, eraseLoop_eq]
    exact List.mem_map_of_mem _ (List.mem_filter.mpr ⟨List.getElem?_mem hqi, hqa⟩)
  · simp only [moved, PHYSICS_SPEED, hid.1, mul_assoc]
  · simp only [moved, PHYSICS_SPEED, hid.2.1, mul_assoc]
  · rw [hout, eraseLoop_eraseIdx _ _ j _ hfj rfl]

/-! ### Sanity checks on `sampleWorld` -/

theorem healthy_sample : Healthy (sampleWorld : World ℝ).planets := by
  intro p hp _
  simp only [sampleWorld, worldOf, List.mem_cons, List.mem_singleton, List.not_mem_nil,
    or_false] at hp
  rcases hp with rfl | rfl | rfl <;> constructor <;> norm_num [body]

/-- C11, sanity check: `healthy_invariant` over `ℝ` with `Real.sqrt` at `sampleWorld`, a
right click at the origin and a release 2 seconds after the press. -/
theorem healthy_invariant_witness :
    Healthy (initSolarSystem Real.sqrt (sampleWorld : World ℝ)).planets
      ∧ Healthy (updatePhysics Real.sqrt (sampleWorld : World ℝ) 1).planets
      ∧ Healthy (removeNear Real.sqrt 0 0 (sampleWorld : World ℝ).planets)
      ∧ Healthy (spawn releaseInput (sampleWorld : World ℝ)).planets := by
  have h := healthy_invariant Real.sqrt (sampleWorld : World ℝ) releaseInput 1 0 0
    Real.sqrt_nonneg (fun x hx => Real.mul_self_sqrt hx)
  exact ⟨h.1, h.2.1 healthy_sample, (h.2.2.1 healthy_sample).1,
    (h.2.2.2 healthy_sample (by norm_num [sampleWorld, worldOf])
      (by norm_num [sampleWorld, worldOf, releaseInput])).1⟩

/-- C17, sanity check: `inactive_take_no_part` over `ℝ` with `Real.sqrt` at `sampleWorld`,
whose middle body is inactive. -/
theorem inactive_take_no_part_witness :
    updatePhysics Real.sqrt (sampleWorld : World ℝ) 1
      = updatePhysics Real.sqrt
          { (sampleWorld : World ℝ) with
            planets := (sampleWorld : World ℝ).planets.filter (fun p => p.active) } 1 :=
  (inactive_take_no_part Real.sqrt (sampleWorld : World ℝ) 1 rfl).1

theorem massPos_sample : MassPos (sampleWorld : World ℝ).planets :=
  fun p hp ha => (healthy_sample p hp ha).1

/-- C20, sanity check: `step_conservation` over `ℝ` with `Real.sqrt` at `sampleWorld`
(one merge): after the step the active momentum is (1, 6) and the active mass is 4, as
before it. -/
theorem step_conservation_witness :
    activeSum (fun p => p.mass * p.vx) (updatePhysics Real.sqrt (sampleWorld : World ℝ) 1).planets
        = 1
      ∧ activeSum (fun p => p.mass * p.vy)
          (updatePhysics Real.sqrt (sampleWorld : World ℝ) 1).planets = 6
      ∧ activeSum (fun p => p.mass) (updatePhysics Real.sqrt (sampleWorld : World ℝ) 1).planets
        = 4 := by
  obtain ⟨h1, h2, h3⟩ := step_conservation Real.sqrt (sampleWorld : World ℝ) 1 rfl massPos_sample
  rw [h1, h2, h3]
  refine ⟨?_, ?_, ?_⟩ <;> norm_num [activeSum, sampleWorld, worldOf, body]

/-- C19, sanity check: `no_zero_divisor` over `ℝ` with `Real.sqrt` for the two active
bodies of `sampleWorld`. -/
theorem no_zero_divisor_witness :
    (1e-9 : ℝ) ≤ distSq (body 0 0 1 0 1 0.1 1) (body 0.15 0 0 2 3 0.1 1)
      ∧ 0 < Real.sqrt (distSq (body 0 0 1 0 1 0.1 1 : Planet ℝ) (body 0.15 0 0 2 3 0.1 1))
      ∧ (0 : ℝ) < (body 0 0 1 0 1 0.1 1 : Planet ℝ).mass + (body 0.15 0 0 2 3 0.1 1 : Planet ℝ).mass := by
  have h := no_zero_divisor Real.sqrt (sampleWorld : World ℝ) 1 [] 0 2
    (body 0 0 1 0 1 0.1 1) (body 0.15 0 0 2 3 0.1 1)
    Real.sqrt_nonneg (fun x hx => Real.mul_self_sqrt hx) massPos_sample rfl rfl rfl rfl
  exact ⟨h.2.2.1, h.2.2.2.1, h.2.2.2.2.1⟩

/-- C18, sanity check: `merge_survivor` over `ℝ` with `Real.sqrt` at `sampleWorld`, where
the pair (0, 2) merges after the pair (0, 1) was skipped. -/
theorem merge_survivor_witness :
    (sweep Real.sqrt (1 * PHYSICS_SPEED) (sampleWorld : World ℝ).planets)[2]?
        = some { (body 0.15 0 0 2 3 0.1 1 : Planet ℝ) with active := false }
      ∧ (updatePhysics Real.sqrt (sampleWorld : World ℝ) 1).planets
        = eraseLoop (1 * PHYSICS_SPEED)
            ((sweep Real.sqrt (1 * PHYSICS_SPEED) (sampleWorld : World ℝ).planets).eraseIdx 2) := by
  have hpre : runPairs Real.sqrt (1 * PHYSICS_SPEED) [(0, 1)] (sampleWorld : World ℝ).planets
      = (sampleWorld : World ℝ).planets := by
    simp [runPairs, pairStep, sampleWorld, worldOf, body]
  have hov : Real.sqrt (((0.15 : ℝ) - 0) ^ 2 + ((0 : ℝ) - 0) ^ 2 + 1e-9) < 0.1 + 0.1 := by
    rw [Real.sqrt_lt' (by norm_num)]; norm_num
  have h := merge_survivor Real.sqrt (sampleWorld : World ℝ) 1 [(0, 1)] [(1, 2)] 0 2
    (body 0 0 1 0 1 0.1 1) (body 0.15 0 0 2 3 0.1 1) rfl (by decide)
    (by rw [hpre]; rfl) (by rw [hpre]; rfl) rfl rfl hov
  exact ⟨h.2.2.2.2.1, h.2.2.2.2.2⟩

end Thms

end GravitySim
